import Mathlib

/-!
Bytecode-to-SSA lifter: the block code generator (`src/src/GenBlock.cpp`)

A shallow embedding of `GenBlock` and of the part of the backend builder it drives.

* `llvm::Value*` is `Value`: constants are uniqued by their bits, every emitted instruction
  carries the serial number the builder gave it, so two emissions are two different values.
  The builder is modelled as emitting every instruction it is asked for; the evaluation
  `eval` of an instruction whose operands are constants is the constant a folding builder
  would have produced.
* `GenBlock*` is the block's key in `GenFunction.Blocks`; `llvm::BasicBlock*` is a serial
  number `BBId`.
* The emitted code is the log `GenFunction.Insts`, each instruction tagged with the backend
  basic block it was inserted into.
* `sizeof(value) * 8` is the parameter `w`.
-/

namespace Z3

/-! ## Backend values -/

/-- Handle of a backend basic block (`llvm::BasicBlock*`). -/
abbrev BBId := Nat

/-- Backend types that the generator distinguishes. -/
inductive Ty
  | word
  | i1
  | i32
  | ptr
  deriving DecidableEq, Repr

/-- Native function symbol (`llvm::Function*`): its identity and `arg_size()`. -/
structure LFunc where
  id : Nat
  argSize : Nat
  deriving DecidableEq, Repr

inductive BinOp
  | add | sub | mul | sdiv | srem | shl | lshr
  deriving DecidableEq, Repr

inductive Pred
  | eq | ne | sgt | sge | slt | sle | ult | uge
  deriving DecidableEq, Repr

inductive CastOp
  | trunc | ptrToInt | intToPtr | bitCast | pointerCast
  deriving DecidableEq, Repr

/-- Backend SSA value (`llvm::Value*`). -/
inductive Value
  | null
  | const (n : Nat)
  | func (f : LFunc)
  | applier (fnId : Int)
  | bin (id : Nat) (op : BinOp) (a b : Value)
  | icmp (id : Nat) (p : Pred) (a b : Value)
  | cast (id : Nat) (op : CastOp) (a : Value)
  | phi (id : Nat)
  | call (id : Nat) (ty : Ty)
  | alloca (id : Nat) (n : Nat)
  | gep (id : Nat) (arr : Value) (i j : Value)
  deriving DecidableEq, Repr

/-- Static type of a value. -/
def Value.ty : Value → Ty
  | .null => .ptr
  | .const _ => .word
  | .func _ => .ptr
  | .applier _ => .ptr
  | .bin _ _ a _ => a.ty
  | .icmp _ _ _ _ => .i1
  | .cast _ .trunc _ => .i1
  | .cast _ .ptrToInt _ => .word
  | .cast _ _ _ => .ptr
  | .phi _ => .word
  | .call _ t => t
  | .alloca _ _ => .ptr
  | .gep _ _ _ _ => .ptr

/-! ## Run-time meaning of the emitted arithmetic -/

/-- Reduction of an integer to a `w`-bit word. -/
def wrap (w : Nat) (z : Int) : Nat := (z % (2 : Int) ^ w).toNat

/-- Signed (twos-complement) reading of a `w`-bit word. -/
def toSigned (w : Nat) (x : Nat) : Int :=
  if x < 2 ^ (w - 1) then (x : Int) else (x : Int) - (2 : Int) ^ w

/-- Tagged encoding of the integer `n` as a `w`-bit word: `(n * 2) + 1`. -/
def tag (w : Nat) (n : Int) : Nat := wrap w (2 * n + 1)

/-- Backend semantics of the binary instructions on `w`-bit words; `none` is undefined
behaviour (division by zero, signed overflow of a division, oversized shift). -/
def evalBin (w : Nat) : BinOp → Nat → Nat → Option Nat
  | .add, x, y => some (wrap w ((x : Int) + y))
  | .sub, x, y => some (wrap w ((x : Int) - y))
  | .mul, x, y => some (wrap w ((x : Int) * y))
  | .shl, x, k => if k < w then some (wrap w ((x : Int) * 2 ^ k)) else none
  | .lshr, x, k => if k < w then some (x / 2 ^ k) else none
  | .sdiv, x, y =>
      if toSigned w y = 0 then none
      else if toSigned w x = -(2 : Int) ^ (w - 1) ∧ toSigned w y = -1 then none
      else some (wrap w (Int.tdiv (toSigned w x) (toSigned w y)))
  | .srem, x, y =>
      if toSigned w y = 0 then none
      else if toSigned w x = -(2 : Int) ^ (w - 1) ∧ toSigned w y = -1 then none
      else some (wrap w (Int.tmod (toSigned w x) (toSigned w y)))

/-- Backend semantics of the integer comparisons, as a 1-bit value. -/
def evalPred (w : Nat) : Pred → Nat → Nat → Bool
  | .eq, x, y => decide (x = y)
  | .ne, x, y => decide (x ≠ y)
  | .sgt, x, y => decide (toSigned w y < toSigned w x)
  | .sge, x, y => decide (toSigned w y ≤ toSigned w x)
  | .slt, x, y => decide (toSigned w x < toSigned w y)
  | .sle, x, y => decide (toSigned w x ≤ toSigned w y)
  | .ult, x, y => decide (x < y)
  | .uge, x, y => decide (y ≤ x)

/-- Run-time word of a value, given the run-time words `ρ` of the values the generator
cannot see through (join nodes, call results, addresses). -/
def eval (w : Nat) (ρ : Nat → Nat) : Value → Option Nat
  | .null => none
  | .const n => some (n % 2 ^ w)
  | .func _ => none
  | .applier _ => none
  | .bin _ op a b =>
      match eval w ρ a, eval w ρ b with
      | some x, some y => evalBin w op x y
      | _, _ => none
  | .icmp _ p a b =>
      match eval w ρ a, eval w ρ b with
      | some x, some y => some (if evalPred w p x y then 1 else 0)
      | _, _ => none
  | .cast _ .trunc a => (eval w ρ a).map (· % 2)
  | .cast _ _ a => eval w ρ a
  | .phi id => some (ρ id % 2 ^ w)
  | .call id _ => some (ρ id % 2 ^ w)
  | .alloca id _ => some (ρ id % 2 ^ w)
  | .gep id _ _ _ => some (ρ id % 2 ^ w)

/-! ## The instruction stream -/

/-- Opcodes handled by `GenBlock::GenCodeForInst`; `OTHER` is any opcode that reaches the
`default` label. -/
inductive Opcode
  | CONST0 | CONST1 | CONST2 | CONST3 | CONSTINT
  | PUSHCONST0 | PUSHCONST1 | PUSHCONST2 | PUSHCONST3 | PUSHCONSTINT
  | POP | PUSH | PUSH_RETADDR | PUSHTRAP | POPTRAP | RAISE
  | ACC0 | ACC1 | ACC2 | ACC3 | ACC4 | ACC5 | ACC6 | ACC7 | ACC
  | PUSHACC0 | PUSHACC1 | PUSHACC2 | PUSHACC3 | PUSHACC4 | PUSHACC5 | PUSHACC6 | PUSHACC7
  | PUSHACC
  | ENVACC1 | ENVACC2 | ENVACC3 | ENVACC4 | ENVACC
  | PUSHENVACC1 | PUSHENVACC2 | PUSHENVACC3 | PUSHENVACC4 | PUSHENVACC
  | ADDINT | NEGINT | SUBINT | MULINT | DIVINT | MODINT | OFFSETINT
  | GTINT | NEQ | ASSIGN
  | PUSHGETGLOBAL | GETGLOBAL | SETGLOBAL | PUSHATOM0 | ATOM0 | PUSHATOM | ATOM
  | MAKEBLOCK1 | MAKEBLOCK2 | MAKEBLOCK3
  | SETFIELD0 | SETFIELD1 | SETFIELD2 | SETFIELD3 | SETFIELD
  | GETFIELD0 | GETFIELD1 | GETFIELD2 | GETFIELD3 | GETFIELD
  | CLOSUREREC | CLOSURE | PUSHOFFSETCLOSURE0 | OFFSETCLOSURE0
  | C_CALL1 | C_CALL2 | C_CALL3 | C_CALL4 | C_CALL5
  | APPLY1 | APPLY2 | APPLY3 | APPLY
  | APPTERM1 | APPTERM2 | APPTERM3 | APPTERM
  | STOP | RETURN | BRANCH | BRANCHIF | BRANCHIFNOT | EQ
  | BEQ | BNEQ | BLTINT | BLEINT | BGTINT | BGEINT | BULTINT | BUGEINT
  | CHECK_SIGNALS
  | OTHER
  deriving DecidableEq, Repr

/-- Decoded bytecode instruction (`ZInstruction`): opcode, immediates, closure targets and
the two annotations answered by `isJumpInst()` and `isReturn()`. -/
structure ZInstruction where
  OpNum : Opcode
  Args : List Int := []
  ClosureRecFns : List Nat := []
  isJumpInst : Bool := false
  isReturn : Bool := false
  deriving DecidableEq, Repr

/-- Immediate `Args[i]` of an instruction. -/
def ZInstruction.arg (I : ZInstruction) (i : Nat) : Int := I.Args.getD i 0

/-! ## Emitted code -/

/-- Runtime symbols obtained through `getFunction`. -/
inductive RtFn
  | getEnv | getField | setField | getGlobal | setGlobal | getAtom
  | makeBlock1 | makeBlock2 | makeBlock3 | makeClosure | closureSetVar
  | apply | primCall (n : Nat) | primCalln
  | getNewBuffer | setjmp | removeExceptionContext | getExceptionValue | throwException
  | debug
  deriving DecidableEq, Repr

/-- Callee of an emitted call: a runtime symbol or a native function. -/
inductive Callee
  | rt (f : RtFn)
  | fn (f : LFunc)
  deriving DecidableEq, Repr

/-- One emitted backend instruction. `val` is an arithmetic, compare, cast, address or
join instruction, identified with the value it defines. -/
inductive Instr
  | val (v : Value)
  | call (res : Value) (callee : Callee) (args : List Value)
  | store (v ptr : Value)
  | br (dest : BBId)
  | condBr (c : Value) (ifTrue ifFalse : BBId)
  | ret (v : Value)
  deriving DecidableEq, Repr

def Instr.isTerminator : Instr → Bool
  | .br _ => true
  | .condBr _ _ _ => true
  | .ret _ => true
  | _ => false

def Instr.isCall : Instr → Bool
  | .call _ _ _ => true
  | _ => false

def Instr.isPHI : Instr → Bool
  | .val (.phi _) => true
  | _ => false

/-! ## Finite maps (`std::map`) as association lists -/

/-- Lookup `m.find(k)`. -/
def mapFind {κ β : Type} [DecidableEq κ] (k : κ) : List (κ × β) → Option β
  | [] => none
  | (k', v) :: m => if k' = k then some v else mapFind k m

/-- Assignment `m[k] = v`. -/
def mapSet {κ β : Type} [DecidableEq κ] (k : κ) (v : β) (m : List (κ × β)) : List (κ × β) :=
  (k, v) :: m.filter (fun p => decide (p.1 ≠ k))

/-! ## Generator state -/

/-- Record `ClosureInfo`; a default-constructed one has no function and is not bare. -/
structure ClosureInfo where
  LlvmFunc : Option LFunc := none
  IsBare : Bool := false
  deriving DecidableEq, Repr

/-- Per-block generator state (`class GenBlock`). Blocks are referred to by their key. -/
structure GenBlock where
  Id : Nat
  PreviousBlocks : List Nat := []
  NextBlocks : List Nat := []
  BrBlock : Option Nat := none
  NoBrBlock : Option Nat := none
  PHINodes : List (Value × Int) := []
  Instructions : List ZInstruction := []
  Stack : List Value := []
  PrevStackCache : List (Int × Value) := []
  Accu : Value := .null
  LlvmBlock : BBId := 0
  LlvmBlocks : List BBId := []
  MutatedVals : List (Value × Value) := []

/-- State of one function under code generation: its blocks, its closure table, the native
function objects of the module, and the backend builder (emitted code `Insts`, the incoming
pairs added to join nodes, the insertion block and the two serial counters). -/
structure GenFunction where
  Blocks : Nat → GenBlock
  ClosuresFunctions : List (Value × ClosureInfo) := []
  LlvmFunc : Option LFunc := none
  Functions : Int → LFunc := fun i => ⟨i.toNat, 0⟩
  Insts : List (BBId × Instr) := []
  Incoming : List (Value × Value × BBId) := []
  InsertBlock : BBId := 0
  NextId : Nat := 0
  NextBB : Nat := 0

/-- Replace the state of block `b`. -/
def GenFunction.setBlock (s : GenFunction) (b : Nat) (B : GenBlock) : GenFunction :=
  { s with Blocks := fun i => if i = b then B else s.Blocks i }

/-- Instructions of the backend basic block `bb`, in order. -/
def GenFunction.instsOf (s : GenFunction) (bb : BBId) : List Instr :=
  (s.Insts.filter (fun p => decide (p.1 = bb))).map Prod.snd

/-- Incoming pairs of the join node `phi`, in the order they were added. -/
def GenFunction.incomingOf (s : GenFunction) (phi : Value) : List (Value × BBId) :=
  (s.Incoming.filter (fun p => decide (p.1 = phi))).map Prod.snd

/-- Failures of the generator. `badStackAccess` is the thrown `logic_error`; `popFrontEmpty`,
`noInstruction`, `noSuccessor`, `nullBlock` and `nullFunction` are the undefined operations
`pop_front()`, `back()`, `front()` on an empty container and the use of an unset block or
function pointer;
`notHandled` is the `default` label; `outOfFuel` marks a recursion cut by the fuel. -/
inductive Err
  | badStackAccess
  | popFrontEmpty
  | noInstruction
  | noSuccessor
  | nullBlock
  | nullFunction
  | notHandled
  | outOfFuel
  deriving DecidableEq, Repr

/-- Outcome of a generator step: a result or a failure, with the state reached. -/
inductive Res (α : Type)
  | ok (a : α) (s : GenFunction)
  | err (e : Err) (s : GenFunction)

/-- State reached by an outcome. -/
def Res.state {α : Type} : Res α → GenFunction
  | .ok _ s => s
  | .err _ s => s

/-- Sequencing of generator steps: a failure ends the sequence. -/
def Res.bind {α β : Type} (r : Res α) (f : α → GenFunction → Res β) : Res β :=
  match r with
  | .ok a s => f a s
  | .err e s => .err e s

/-! ## The backend builder -/

/-- Append an instruction at the insertion point. -/
def GenFunction.emit (s : GenFunction) (i : Instr) : GenFunction :=
  { s with Insts := s.Insts ++ [(s.InsertBlock, i)] }

/-- Emit a value-defining instruction; `mk` receives the serial number of the new value. -/
def GenFunction.emitVal (s : GenFunction) (mk : Nat → Value) : Value × GenFunction :=
  (mk s.NextId,
   { s with Insts := s.Insts ++ [(s.InsertBlock, .val (mk s.NextId))], NextId := s.NextId + 1 })

/-- Modelled from the spec: the runtime symbols take and return machine words; the
jump-buffer save `_setjmp` returns a C `int`. Their declarations are in the runtime
module, which is not part of the sources. -/
def RtFn.retTy : RtFn → Ty
  | .setjmp => .i32
  | _ => .word

def Callee.retTy : Callee → Ty
  | .rt f => f.retTy
  | .fn _ => .word

/-- Builder call `CreateCall`. -/
def CreateCall (callee : Callee) (args : List Value) (s : GenFunction) : Value × GenFunction :=
  (.call s.NextId callee.retTy,
   { s with Insts := s.Insts ++ [(s.InsertBlock, .call (.call s.NextId callee.retTy) callee args)],
            NextId := s.NextId + 1 })

/-- Builder call `SetInsertPoint`. -/
def SetInsertPoint (bb : BBId) (s : GenFunction) : GenFunction :=
  { s with InsertBlock := bb }

/-- Builder call `CreateIntCast(V, i1, isSigned)`: no instruction when `V` is already a
1-bit value, a truncation otherwise. -/
def CreateIntCastI1 (V : Value) (s : GenFunction) : Value × GenFunction :=
  if V.ty = .i1 then (V, s) else s.emitVal (fun id => Value.cast id .trunc V)

/-- Modelled from the spec: `Val_int(n)` is `(n * 2) + 1`; the macro comes from the runtime
headers, which are not part of the sources. -/
def Val_int (n : Int) : Int := n * 2 + 1

/-- Constant of the value type: `APInt(sizeof(value)*8, val)`. -/
def ConstInt (w : Nat) (val : Int) : Value := .const (wrap w val)

/-- First and last element of a list of backend blocks (`front()`, `back()`); the list of a
constructed block is never empty. -/
def front (l : List BBId) : BBId := l.headD 0

def back (l : List BBId) : BBId := l.getLastD 0

/-! ## `GenBlock` -/

/-- Method `GenBlock::addBlock`: create a backend block, make it the current one, and return
the old and the new current block. -/
def addBlock (b : Nat) (s : GenFunction) : (BBId × BBId) × GenFunction :=
  let B := s.Blocks b
  ((B.LlvmBlock, s.NextBB),
   ({ s with NextBB := s.NextBB + 1 }).setBlock b
     { B with LlvmBlock := s.NextBB, LlvmBlocks := B.LlvmBlocks ++ [s.NextBB] })

/-- Constructor `GenBlock::GenBlock(Id, Function)`. -/
def GenBlock.create (Id : Nat) (s : GenFunction) : GenFunction :=
  (addBlock Id (s.setBlock Id { Id := Id })).2

/-- Method `GenBlock::setNext(Block, IsBrBlock)` of block `b`. -/
def setNext (b : Nat) (Block : Nat) (IsBrBlock : Bool) (s : GenFunction) : GenFunction :=
  let s1 := s.setBlock b { s.Blocks b with NextBlocks := (s.Blocks b).NextBlocks ++ [Block] }
  let s2 := s1.setBlock Block
    { s1.Blocks Block with PreviousBlocks := b :: (s1.Blocks Block).PreviousBlocks }
  if IsBrBlock then s2.setBlock b { s2.Blocks b with BrBlock := some Block }
  else s2.setBlock b { s2.Blocks b with NoBrBlock := some Block }

/-- Method `GenBlock::getMutatedValue` over the mutation map `M`; the recursion of the source
is cut after `fuel` lookups (`none`). -/
def getMutatedValue (M : List (Value × Value)) : Nat → Value → Option Value
  | 0, _ => none
  | fuel + 1, Val =>
    match mapFind Val M with
    | some v => getMutatedValue M fuel v
    | none => some Val

/-- Method `GenBlock::getStackAt(n, IgnorePrevBlock)` of block `b`. Stack indices are natural
numbers in the range of `int`, on which the conversions between `size_t` and `int` are the
identity. The recursion into the predecessor is cut after `fuel` nested calls. -/
def getStackAt : Nat → Nat → Nat → Option Nat → GenFunction → Res Value
  | 0, _, _, _, s => .err .outOfFuel s
  | fuel + 1, b, n, IgnorePrevBlock, s =>
    let B := s.Blocks b
    let PrBlocks :=
      match IgnorePrevBlock with
      | some i => B.PreviousBlocks.filter (fun p => decide (p ≠ i))
      | none => B.PreviousBlocks
    let found : Res Value :=
      if B.Stack.length ≤ n then
        let PrevStackPos : Int := ((n - B.Stack.length : Nat) : Int)
        match mapFind PrevStackPos B.PrevStackCache with
        | some Ret => .ok Ret s
        | none =>
          match PrBlocks with
          | [] => .err .badStackAccess s
          | [p] =>
            (getStackAt fuel p (n - B.Stack.length) none s).bind fun Ret s1 =>
              .ok Ret (s1.setBlock b
                { s1.Blocks b with
                  PrevStackCache := mapSet PrevStackPos Ret (s1.Blocks b).PrevStackCache })
          | _ :: _ :: _ =>
            let PHI := Value.phi s.NextId
            .ok PHI (({ s with Insts := s.Insts ++ [(B.LlvmBlock, Instr.val PHI)],
                               NextId := s.NextId + 1 }).setBlock b
              { B with PHINodes := B.PHINodes ++ [(PHI, PrevStackPos)],
                       PrevStackCache := mapSet PrevStackPos PHI B.PrevStackCache })
      else .ok (B.Stack.getD n .null) s
    found.bind fun Ret s2 =>
      match getMutatedValue (s2.Blocks b).MutatedVals (fuel + 1) Ret with
      | some v => .ok v s2
      | none => .err .outOfFuel s2

/-- Method `GenBlock::stackPop`. -/
def stackPop (fuel b : Nat) (s : GenFunction) : Res Value :=
  (getStackAt fuel b 0 none s).bind fun Val s1 =>
    match (s1.Blocks b).Stack with
    | [] => .err .popFrontEmpty s1
    | _ :: rest => .ok Val (s1.setBlock b { s1.Blocks b with Stack := rest })

/-- Method `GenBlock::push(CreatePhi)`. -/
def push (b : Nat) (CreatePhi : Bool) (s : GenFunction) : GenFunction :=
  let B := s.Blocks b
  if B.Accu = .null ∧ CreatePhi = true then
    let PHI := Value.phi s.NextId
    ({ s with Insts := s.Insts ++ [(s.InsertBlock, Instr.val PHI)], NextId := s.NextId + 1 }).setBlock b
      { B with PHINodes := B.PHINodes ++ [(PHI, -1)], Accu := PHI, Stack := PHI :: B.Stack }
  else s.setBlock b { B with Stack := B.Accu :: B.Stack }

/-- Assignment to `Accu` of block `b`. -/
def setAccu (b : Nat) (v : Value) (s : GenFunction) : GenFunction :=
  s.setBlock b { s.Blocks b with Accu := v }

/-- Method `GenBlock::acc(n)`. -/
def acc (fuel b n : Nat) (s : GenFunction) : Res Unit :=
  (getStackAt fuel b n none s).bind fun v s1 => .ok () (setAccu b v s1)

/-- Method `GenBlock::envAcc(n)`. -/
def envAcc (w b : Nat) (n : Int) (s : GenFunction) : GenFunction :=
  let (Env, s1) := CreateCall (.rt .getEnv) [] s
  let (Field, s2) := CreateCall (.rt .getField) [Env, ConstInt w n] s1
  setAccu b Field s2

/-- Method `GenBlock::pushAcc(n)`. -/
def pushAcc (fuel b n : Nat) (s : GenFunction) : Res Unit :=
  acc fuel b n (push b true s)

/-- Method `GenBlock::castToInt`. -/
def castToInt (Val : Value) (s : GenFunction) : Value × GenFunction :=
  if Val.ty ≠ .word then s.emitVal (fun id => Value.cast id .ptrToInt Val) else (Val, s)

/-- Method `GenBlock::castToPtr`. -/
def castToPtr (Val : Value) (s : GenFunction) : Value × GenFunction :=
  if Val.ty ≠ .word then s.emitVal (fun id => Value.cast id .intToPtr Val) else (Val, s)

/-- Method `GenBlock::intVal`: logical shift right by one. -/
def intVal (From : Value) (s : GenFunction) : Value × GenFunction :=
  s.emitVal (fun id => Value.bin id .lshr From (.const 1))

/-- Method `GenBlock::valInt`: shift left by one, then add the constant 1. -/
def valInt (w : Nat) (From : Value) (s : GenFunction) : Value × GenFunction :=
  let (Shl, s1) := s.emitVal (fun id => Value.bin id .shl From (.const 1))
  s1.emitVal (fun id => Value.bin id .add Shl (ConstInt w 1))

/-- Method `GenBlock::makeCheckedCall`. -/
def makeCheckedCall (b : Nat) (callee : Callee) (Args : List Value) (s : GenFunction) :
    GenFunction :=
  let (r, s1) := CreateCall callee Args s
  setAccu b r s1

/-- Repeated `stackPop()`: the loop `for (i = 0; i < n; i++) stackPop();`. -/
def popN (fuel b : Nat) : Nat → GenFunction → Res Unit
  | 0, s => .ok () s
  | k + 1, s => (stackPop fuel b s).bind fun _ s1 => popN fuel b k s1

/-- Lookup `Function->ClosuresFunctions[Accu]`: a missing key is inserted with a
default-constructed `ClosureInfo`. -/
def closureInfoOf (Accu : Value) (s : GenFunction) : ClosureInfo × GenFunction :=
  match mapFind Accu s.ClosuresFunctions with
  | some CI => (CI, s)
  | none => ({}, { s with ClosuresFunctions := (Accu, {}) :: s.ClosuresFunctions })

/-- Direct branch of `makeApply`, argument loop: with `k` iterations left the loop reads
`getStackAt(k - 1)` and appends it to `ArgsV`. -/
def applyArgs (fuel b : Nat) : Nat → List Value → GenFunction → Res (List Value)
  | 0, ArgsV, s => .ok ArgsV s
  | k + 1, ArgsV, s =>
    (getStackAt fuel b k none s).bind fun v s1 => applyArgs fuel b k (ArgsV ++ [v]) s1

/-- Trampoline branch of `makeApply`, store loop: with `k` iterations left (`i = n - k + 1`)
the loop emits the address of element `i - 1`, reads `getStackAt(n - i)` and stores it. -/
def applyStores (w fuel b n : Nat) (Array : Value) : Nat → GenFunction → Res Unit
  | 0, s => .ok () s
  | k + 1, s =>
    let (Ptr, s1) :=
      s.emitVal (fun id => Value.gep id Array (ConstInt w 0) (ConstInt w ((n - (k + 1) : Nat))))
    (getStackAt fuel b k none s1).bind fun Val s2 =>
      applyStores w fuel b n Array k (s2.emit (.store Val Ptr))

/-- Direct branch of `makeApply`: call the native function on the values read. -/
def applyDirect (fuel b n : Nat) (f : LFunc) (s : GenFunction) : Res Unit :=
  (applyArgs fuel b n [] s).bind fun ArgsV s1 => .ok () (makeCheckedCall b (.fn f) ArgsV s1)

/-- Trampoline branch of `makeApply`: fill an argument array and call the runtime applier
with the closure, the argument count and the array. -/
def applyTrampoline (w fuel b n : Nat) (s : GenFunction) : Res Unit :=
  let (Array, s1) := s.emitVal (fun id => Value.alloca id n)
  (applyStores w fuel b n Array n s1).bind fun _ s2 =>
    let (ArrayPtr, s3) := s2.emitVal (fun id => Value.cast id .pointerCast Array)
    .ok () (makeCheckedCall b (.rt .apply) [(s3.Blocks b).Accu, ConstInt w n, ArrayPtr] s3)

/-- Test `CI.IsBare && CI.LlvmFunc->arg_size() == n` of `makeApply`: the native function to
call directly, if any. -/
def directCallee (CI : ClosureInfo) (n : Nat) : Option LFunc :=
  match CI.LlvmFunc with
  | some f => if CI.IsBare = true ∧ f.argSize = n then some f else none
  | none => none

/-- Method `GenBlock::makeApply(n)`. -/
def makeApply (w fuel b n : Nat) (s : GenFunction) : Res Unit :=
  let (CI, s0) := closureInfoOf (s.Blocks b).Accu s
  let called : Res Unit :=
    if CI.IsBare = true then
      match CI.LlvmFunc with
      | none => .err .nullFunction s0
      | some f => if f.argSize = n then applyDirect fuel b n f s0 else applyTrampoline w fuel b n s0
    else applyTrampoline w fuel b n s0
  called.bind fun _ s1 => popN fuel b n s1

/-- Argument loop of `makePrimCall`: `Args.push_back(stackPop())`, `k` times. -/
def popArgs (fuel b : Nat) : Nat → List Value → GenFunction → Res (List Value)
  | 0, Args, s => .ok Args s
  | k + 1, Args, s => (stackPop fuel b s).bind fun v s1 => popArgs fuel b k (Args ++ [v]) s1

/-- Method `GenBlock::makePrimCall(n, NumPrim)`. -/
def makePrimCall (w fuel b n : Nat) (NumPrim : Int) (s : GenFunction) : Res Unit :=
  if n < 6 then
    (popArgs fuel b (n - 1) [ConstInt w NumPrim, (s.Blocks b).Accu] s).bind fun Args s1 =>
      .ok () (makeCheckedCall b (.rt (.primCall n)) Args s1)
  else
    .ok () (makeCheckedCall b (.rt .primCalln) [ConstInt w NumPrim, ConstInt w n] s)

/-- Field loop of `makeClosure`: with `k` iterations left (`i = NbFields - k`) the loop pops
a value and emits `closureSetVar(Closure, i, FieldVal)`. -/
def closureFields (w fuel b : Nat) (Closure : Value) (NbFields : Nat) :
    Nat → GenFunction → Res Unit
  | 0, s => .ok () s
  | k + 1, s =>
    (stackPop fuel b s).bind fun FieldVal s1 =>
      closureFields w fuel b Closure NbFields k
        (CreateCall (.rt .closureSetVar)
          [Closure, ConstInt w ((NbFields - (k + 1) : Nat)), FieldVal] s1).2

/-- Method `GenBlock::makeClosure(NbFields, FnId)`. The native function of the target
(`DestGenFunc->LlvmFunc`, generated on demand) is `s.Functions FnId`; its applier is the
constant `Value.applier FnId`. -/
def makeClosure (w fuel b : Nat) (NbFields FnId : Int) (s : GenFunction) : Res Unit :=
  let DestLlvmFunc := s.Functions FnId
  let s0 := SetInsertPoint (s.Blocks b).LlvmBlock s
  let (CastPtr, s1) := s0.emitVal (fun id => Value.cast id .ptrToInt (.applier FnId))
  let (Closure, s2) :=
    CreateCall (.rt .makeClosure)
      [ConstInt w NbFields, CastPtr, ConstInt w DestLlvmFunc.argSize] s1
  let s3 := if 0 < NbFields then push b true s2 else s2
  (closureFields w fuel b Closure NbFields.toNat NbFields.toNat s3).bind fun _ s4 =>
    let s5 := setAccu b Closure s4
    .ok () { s5 with
      ClosuresFunctions :=
        mapSet Closure { LlvmFunc := some DestLlvmFunc, IsBare := decide (NbFields = 0) }
          s5.ClosuresFunctions }

/-- Method `GenBlock::makeSetField(n)`. -/
def makeSetField (w fuel b : Nat) (n : Int) (s : GenFunction) : Res Unit :=
  (stackPop fuel b s).bind fun v s1 =>
    .ok () (CreateCall (.rt .setField) [(s1.Blocks b).Accu, ConstInt w n, v] s1).2

/-- Method `GenBlock::makeGetField(n)`. -/
def makeGetField (w b : Nat) (n : Int) (s : GenFunction) : GenFunction :=
  makeCheckedCall b (.rt .getField) [(s.Blocks b).Accu, ConstInt w n] s

/-- Emit a binary instruction and return its value. -/
def CreateBin (op : BinOp) (a c : Value) (s : GenFunction) : Value × GenFunction :=
  s.emitVal (fun id => Value.bin id op a c)

/-- Emit a comparison and return its 1-bit value. -/
def CreateICmp (p : Pred) (a c : Value) (s : GenFunction) : Value × GenFunction :=
  s.emitVal (fun id => Value.icmp id p a c)

/-- Label `makebr` of `GenCodeForInst`: conditional branch on `TmpVal` to the first backend
blocks of the taken and the fall-through successor. -/
def makebr (b : Nat) (TmpVal : Value) (s : GenFunction) : Res Unit :=
  match (s.Blocks b).BrBlock, (s.Blocks b).NoBrBlock with
  | some t, some f =>
    .ok () (s.emit (.condBr TmpVal (front (s.Blocks t).LlvmBlocks) (front (s.Blocks f).LlvmBlocks)))
  | _, _ => .err .nullBlock s

/-- Compare-and-branch opcodes: compare the tagged immediate with the accumulator, then
`makebr`. -/
def cmpBranch (w b : Nat) (p : Pred) (I : ZInstruction) (s : GenFunction) : Res Unit :=
  let (TmpVal, s1) := CreateICmp p (ConstInt w (Val_int (I.arg 0))) (s.Blocks b).Accu s
  makebr b TmpVal s1

/-- Cases `PUSHCONSTk`, `CONSTk`: the accumulator becomes the tagged constant. -/
def setConst (w b : Nat) (n : Int) (s : GenFunction) : GenFunction :=
  setAccu b (ConstInt w (Val_int n)) s

/-- Accumulator assigned from a runtime call on `args`. -/
def callToAccu (b : Nat) (f : RtFn) (args : List Value) (s : GenFunction) : GenFunction :=
  let (r, s1) := CreateCall (.rt f) args s
  setAccu b r s1

/-- Emission of `Builder->CreateRet(Accu)`. -/
def createRetAccu (b : Nat) (s : GenFunction) : GenFunction :=
  s.emit (.ret (s.Blocks b).Accu)

/-- Method `GenBlock::GenCodeForInst(Inst)` of block `b`. -/
def GenCodeForInst (w fuel b : Nat) (I : ZInstruction) (s : GenFunction) : Res Unit :=
  match I.OpNum with
  | .CONST0 => .ok () (setConst w b 0 s)
  | .CONST1 => .ok () (setConst w b 1 s)
  | .CONST2 => .ok () (setConst w b 2 s)
  | .CONST3 => .ok () (setConst w b 3 s)
  | .CONSTINT => .ok () (setConst w b (I.arg 0) s)
  | .PUSHCONST0 => .ok () (setConst w b 0 (push b true s))
  | .PUSHCONST1 => .ok () (setConst w b 1 (push b true s))
  | .PUSHCONST2 => .ok () (setConst w b 2 (push b true s))
  | .PUSHCONST3 => .ok () (setConst w b 3 (push b true s))
  | .PUSHCONSTINT => .ok () (setConst w b (I.arg 0) (push b true s))
  | .POP => popN fuel b (I.arg 0).toNat s
  | .PUSH => .ok () (push b true s)
  | .PUSH_RETADDR => .ok () (push b true (push b true (push b true s)))
  | .PUSHTRAP =>
    let (Buf, s1) := CreateCall (.rt .getNewBuffer) [] s
    let (JmpBuf, s2) := s1.emitVal (fun id => Value.cast id .bitCast Buf)
    let (SetJmpRes, s3) := CreateCall (.rt .setjmp) [JmpBuf] s2
    let (BoolVal, s4) := CreateIntCastI1 SetJmpRes s3
    let (Blocks, s5) := addBlock b s4
    let TrapBlock := (I.arg 0).toNat
    let s6 := s5.emit (.condBr BoolVal (front (s5.Blocks TrapBlock).LlvmBlocks) Blocks.2)
    let s7 := SetInsertPoint (s6.Blocks TrapBlock).LlvmBlock s6
    let s8 := callToAccu TrapBlock .getExceptionValue [] s7
    let s9 := (CreateCall (.rt .removeExceptionContext) [] s8).2
    let s10 := SetInsertPoint Blocks.2 s9
    .ok () (push b false (push b false (push b false (push b false s10))))
  | .POPTRAP =>
    popN fuel b 4 (CreateCall (.rt .removeExceptionContext) [] s).2
  | .RAISE =>
    let s1 := (CreateCall (.rt .throwException) [(s.Blocks b).Accu] s).2
    .ok () (createRetAccu b s1)
  | .ACC0 => acc fuel b 0 s
  | .ACC1 => acc fuel b 1 s
  | .ACC2 => acc fuel b 2 s
  | .ACC3 => acc fuel b 3 s
  | .ACC4 => acc fuel b 4 s
  | .ACC5 => acc fuel b 5 s
  | .ACC6 => acc fuel b 6 s
  | .ACC7 => acc fuel b 7 s
  | .ACC => acc fuel b (I.arg 0).toNat s
  | .PUSHACC0 => pushAcc fuel b 0 s
  | .PUSHACC1 => pushAcc fuel b 1 s
  | .PUSHACC2 => pushAcc fuel b 2 s
  | .PUSHACC3 => pushAcc fuel b 3 s
  | .PUSHACC4 => pushAcc fuel b 4 s
  | .PUSHACC5 => pushAcc fuel b 5 s
  | .PUSHACC6 => pushAcc fuel b 6 s
  | .PUSHACC7 => pushAcc fuel b 7 s
  | .PUSHACC => pushAcc fuel b (I.arg 0).toNat s
  | .ENVACC1 => .ok () (envAcc w b 1 s)
  | .ENVACC2 => .ok () (envAcc w b 2 s)
  | .ENVACC3 => .ok () (envAcc w b 3 s)
  | .ENVACC4 => .ok () (envAcc w b 4 s)
  | .ENVACC => .ok () (envAcc w b (I.arg 0) s)
  | .PUSHENVACC1 => .ok () (envAcc w b 1 (push b true s))
  | .PUSHENVACC2 => .ok () (envAcc w b 2 (push b true s))
  | .PUSHENVACC3 => .ok () (envAcc w b 3 (push b true s))
  | .PUSHENVACC4 => .ok () (envAcc w b 4 (push b true s))
  | .PUSHENVACC => .ok () (envAcc w b (I.arg 0) (push b true s))
  | .ADDINT =>
    (stackPop fuel b s).bind fun v s1 =>
      let (TmpVal, s2) := castToInt v s1
      let (A, s3) := castToInt (s2.Blocks b).Accu s2
      let (D, s4) := CreateBin .sub TmpVal (ConstInt w 1) s3
      let (R, s5) := CreateBin .add A D s4
      .ok () (setAccu b R s5)
  | .NEGINT =>
    let (R, s1) := CreateBin .sub (ConstInt w 2) (s.Blocks b).Accu s
    .ok () (setAccu b R s1)
  | .SUBINT =>
    (stackPop fuel b s).bind fun TmpVal s1 =>
      let (D, s2) := CreateBin .add TmpVal (ConstInt w 1) s1
      let (R, s3) := CreateBin .sub (s2.Blocks b).Accu D s2
      .ok () (setAccu b R s3)
  | .MULINT =>
    (stackPop fuel b s).bind fun TmpVal s1 =>
      let (X, s2) := intVal (s1.Blocks b).Accu s1
      let (Y, s3) := intVal TmpVal s2
      let (P, s4) := CreateBin .mul X Y s3
      let (R, s5) := valInt w P s4
      .ok () (setAccu b R s5)
  | .DIVINT =>
    (stackPop fuel b s).bind fun TmpVal s1 =>
      let (X, s2) := intVal (s1.Blocks b).Accu s1
      let (Y, s3) := intVal TmpVal s2
      let (P, s4) := CreateBin .sdiv X Y s3
      let (R, s5) := valInt w P s4
      .ok () (setAccu b R s5)
  | .MODINT =>
    (stackPop fuel b s).bind fun TmpVal s1 =>
      let (X, s2) := intVal (s1.Blocks b).Accu s1
      let (Y, s3) := intVal TmpVal s2
      let (P, s4) := CreateBin .srem X Y s3
      let (R, s5) := valInt w P s4
      .ok () (setAccu b R s5)
  | .OFFSETINT =>
    let (R, s1) := CreateBin .add (s.Blocks b).Accu (ConstInt w (I.arg 0 * 2)) s
    .ok () (setAccu b R s1)
  | .GTINT =>
    (stackPop fuel b s).bind fun TmpVal s1 =>
      let (R, s2) := CreateICmp .sgt (s1.Blocks b).Accu TmpVal s1
      .ok () (setAccu b R s2)
  | .NEQ =>
    (stackPop fuel b s).bind fun TmpVal s1 =>
      let (R, s2) := CreateICmp .ne (s1.Blocks b).Accu TmpVal s1
      .ok () (setAccu b R s2)
  | .ASSIGN =>
    (getStackAt fuel b (I.arg 0).toNat none s).bind fun k s1 =>
      .ok () (s1.setBlock b
        { s1.Blocks b with
          MutatedVals := mapSet k (s1.Blocks b).Accu (s1.Blocks b).MutatedVals })
  | .PUSHGETGLOBAL => .ok () (callToAccu b .getGlobal [ConstInt w (I.arg 0)] (push b true s))
  | .GETGLOBAL => .ok () (callToAccu b .getGlobal [ConstInt w (I.arg 0)] s)
  | .SETGLOBAL =>
    .ok () (CreateCall (.rt .setGlobal) [ConstInt w (I.arg 0), (s.Blocks b).Accu] s).2
  | .PUSHATOM0 => .ok () (callToAccu b .getAtom [ConstInt w 0] (push b true s))
  | .ATOM0 => .ok () (callToAccu b .getAtom [ConstInt w 0] s)
  | .PUSHATOM => .ok () (callToAccu b .getAtom [ConstInt w (I.arg 0)] (push b true s))
  | .ATOM => .ok () (callToAccu b .getAtom [ConstInt w (I.arg 0)] s)
  | .MAKEBLOCK1 =>
    .ok () (callToAccu b .makeBlock1 [ConstInt w (I.arg 0), (s.Blocks b).Accu] s)
  | .MAKEBLOCK2 =>
    (getStackAt fuel b 0 none s).bind fun v0 s1 =>
      popN fuel b 1
        (callToAccu b .makeBlock2 [ConstInt w (I.arg 0), (s1.Blocks b).Accu, v0] s1)
  | .MAKEBLOCK3 =>
    (getStackAt fuel b 0 none s).bind fun v0 s1 =>
      (getStackAt fuel b 1 none s1).bind fun v1 s2 =>
        popN fuel b 2
          (callToAccu b .makeBlock3 [ConstInt w (I.arg 0), (s2.Blocks b).Accu, v0, v1] s2)
  | .SETFIELD0 => makeSetField w fuel b 0 s
  | .SETFIELD1 => makeSetField w fuel b 1 s
  | .SETFIELD2 => makeSetField w fuel b 2 s
  | .SETFIELD3 => makeSetField w fuel b 3 s
  | .SETFIELD => makeSetField w fuel b (I.arg 0) s
  | .GETFIELD0 => .ok () (makeGetField w b 0 s)
  | .GETFIELD1 => .ok () (makeGetField w b 1 s)
  | .GETFIELD2 => .ok () (makeGetField w b 2 s)
  | .GETFIELD3 => .ok () (makeGetField w b 3 s)
  | .GETFIELD => .ok () (makeGetField w b (I.arg 0) s)
  | .CLOSUREREC =>
    if I.arg 0 = 1 ∧ I.arg 1 = 0 then
      (makeClosure w fuel b 0 ((I.ClosureRecFns.getD 0 0 : Nat) : Int) s).bind fun _ s1 =>
        .ok () (push b true s1)
    else .ok () s
  | .CLOSURE => makeClosure w fuel b (I.arg 0) (I.arg 1) s
  | .PUSHOFFSETCLOSURE0 =>
    let (Env, s1) := CreateCall (.rt .getEnv) [] (push b true s)
    let s2 := setAccu b Env s1
    .ok () { s2 with
      ClosuresFunctions := mapSet Env { LlvmFunc := s2.LlvmFunc, IsBare := true } s2.ClosuresFunctions }
  | .OFFSETCLOSURE0 =>
    let (Env, s1) := CreateCall (.rt .getEnv) [] s
    let s2 := setAccu b Env s1
    .ok () { s2 with
      ClosuresFunctions := mapSet Env { LlvmFunc := s2.LlvmFunc, IsBare := true } s2.ClosuresFunctions }
  | .C_CALL1 => makePrimCall w fuel b 1 (I.arg 0) s
  | .C_CALL2 => makePrimCall w fuel b 2 (I.arg 0) s
  | .C_CALL3 => makePrimCall w fuel b 3 (I.arg 0) s
  | .C_CALL4 => makePrimCall w fuel b 4 (I.arg 0) s
  | .C_CALL5 => makePrimCall w fuel b 5 (I.arg 0) s
  | .APPLY1 => makeApply w fuel b 1 s
  | .APPLY2 => makeApply w fuel b 2 s
  | .APPLY3 => makeApply w fuel b 3 s
  | .APPLY => makeApply w fuel b (I.arg 0).toNat s
  | .APPTERM1 => (makeApply w fuel b 1 s).bind fun _ s1 => .ok () (createRetAccu b s1)
  | .APPTERM2 => (makeApply w fuel b 2 s).bind fun _ s1 => .ok () (createRetAccu b s1)
  | .APPTERM3 => (makeApply w fuel b 3 s).bind fun _ s1 => .ok () (createRetAccu b s1)
  | .APPTERM =>
    (makeApply w fuel b (I.arg 0).toNat s).bind fun _ s1 => .ok () (createRetAccu b s1)
  | .STOP => .ok () (createRetAccu b s)
  | .RETURN => .ok () (createRetAccu b s)
  | .BRANCH =>
    match (s.Blocks b).BrBlock with
    | some t => .ok () (s.emit (.br (s.Blocks t).LlvmBlock))
    | none => .err .nullBlock s
  | .BRANCHIF =>
    let (BoolVal, s1) := CreateIntCastI1 (s.Blocks b).Accu s
    match (s1.Blocks b).BrBlock, (s1.Blocks b).NoBrBlock with
    | some t, some f =>
      .ok () (s1.emit
        (.condBr BoolVal (front (s1.Blocks t).LlvmBlocks) (front (s1.Blocks f).LlvmBlocks)))
    | _, _ => .err .nullBlock s1
  | .BRANCHIFNOT =>
    let (BoolVal, s1) := CreateIntCastI1 (s.Blocks b).Accu s
    match (s1.Blocks b).BrBlock, (s1.Blocks b).NoBrBlock with
    | some t, some f =>
      .ok () (s1.emit
        (.condBr BoolVal (front (s1.Blocks f).LlvmBlocks) (front (s1.Blocks t).LlvmBlocks)))
    | _, _ => .err .nullBlock s1
  | .EQ =>
    (stackPop fuel b s).bind fun v s1 =>
      let (R, s2) := CreateICmp .eq (s1.Blocks b).Accu v s1
      .ok () (setAccu b R s2)
  | .BEQ => cmpBranch w b .eq I s
  | .BNEQ => cmpBranch w b .ne I s
  | .BLTINT => cmpBranch w b .slt I s
  | .BLEINT => cmpBranch w b .sle I s
  | .BGTINT => cmpBranch w b .sgt I s
  | .BGEINT => cmpBranch w b .sge I s
  | .BULTINT => cmpBranch w b .ult I s
  | .BUGEINT => cmpBranch w b .uge I s
  | .CHECK_SIGNALS => .ok () s
  | .OTHER => .err .notHandled s

/-- Instruction loop of `GenBlock::CodeGen`. -/
def genInsts (w fuel b : Nat) : List ZInstruction → GenFunction → Res Unit
  | [], s => .ok () s
  | I :: rest, s => (GenCodeForInst w fuel b I s).bind fun _ s1 => genInsts w fuel b rest s1

/-- Method `GenBlock::CodeGen` (debug output disabled). -/
def CodeGen (w fuel b : Nat) (s : GenFunction) : Res Unit :=
  genInsts w fuel b (s.Blocks b).Instructions (SetInsertPoint (s.Blocks b).LlvmBlock s)

/-- Method `GenBlock::genTermInst`. -/
def genTermInst (b : Nat) (s : GenFunction) : Res Unit :=
  let s1 := SetInsertPoint (s.Blocks b).LlvmBlock s
  match (s1.Blocks b).Instructions.getLast? with
  | none => .err .noInstruction s1
  | some Inst =>
    if !(Inst.isJumpInst || Inst.isReturn) then
      match (s1.Blocks b).NextBlocks with
      | [] => .err .noSuccessor s1
      | nb :: _ => .ok () (s1.emit (.br (s1.Blocks nb).LlvmBlock))
    else .ok () s1

/-- Inner loop of `GenBlock::handlePHINodes` for one pending request `Pair` of block `b`:
one incoming pair per predecessor. -/
def addIncomings (fuel b : Nat) (Pair : Value × Int) : List Nat → GenFunction → Res Unit
  | [], s => .ok () s
  | Block :: rest, s =>
    if Pair.2 = -1 then
      addIncomings fuel b Pair rest
        { s with
          Incoming := s.Incoming ++
            [(Pair.1, (s.Blocks Block).Accu, front (s.Blocks Block).LlvmBlocks)] }
    else
      (getStackAt fuel Block Pair.2.toNat (some b) s).bind fun v s1 =>
        addIncomings fuel b Pair rest
          { s1 with
            Incoming := s1.Incoming ++ [(Pair.1, v, back (s1.Blocks Block).LlvmBlocks)] }

/-- Outer loop of `GenBlock::handlePHINodes` from position `i` of `PHINodes`; the list is
read again at every step, as the iteration of the source sees requests appended meanwhile.
The iteration is cut after the given number of steps. -/
def dischargeFrom (fuel b : Nat) : Nat → Nat → GenFunction → Res Unit
  | 0, _, s => .err .outOfFuel s
  | k + 1, i, s =>
    match (s.Blocks b).PHINodes[i]? with
    | none => .ok () s
    | some Pair =>
      (addIncomings fuel b Pair (s.Blocks b).PreviousBlocks s).bind fun _ s1 =>
        dischargeFrom fuel b k (i + 1) s1

/-- Second half of `GenBlock::handlePHINodes`: the join instructions of the backend block
are removed and pushed to its front one by one. -/
def hoistPHIs (bb : BBId) (s : GenFunction) : GenFunction :=
  { s with
    Insts := (s.Insts.filter (fun p => decide (p.1 = bb) && p.2.isPHI)).reverse ++
      s.Insts.filter (fun p => !(decide (p.1 = bb) && p.2.isPHI)) }

/-- Method `GenBlock::handlePHINodes` of block `b`. -/
def handlePHINodes (fuel b : Nat) (s : GenFunction) : Res Unit :=
  (dischargeFrom fuel b fuel 0 s).bind fun _ s1 =>
    .ok () (hoistPHIs (s1.Blocks b).LlvmBlock s1)

/-! ## Execution of the emitted code -/

/-- Successor chosen by a conditional branch on the 1-bit word `c`. -/
def condBrTarget (c : Nat) (ifTrue ifFalse : BBId) : BBId :=
  if c % 2 = 1 then ifTrue else ifFalse

/-- Control flow of the emitted code from the backend block `bb`: the backend blocks entered
and the returned word, if the run returns one within `fuel` blocks. Join nodes and call
results have the run-time words given by `ρ`. -/
def run (w : Nat) (ρ : Nat → Nat) (s : GenFunction) : Nat → BBId → List BBId × Option Nat
  | 0, bb => ([bb], none)
  | fuel + 1, bb =>
    match (s.instsOf bb).find? Instr.isTerminator with
    | some (.ret v) => ([bb], eval w ρ v)
    | some (.br d) => (bb :: (run w ρ s fuel d).1, (run w ρ s fuel d).2)
    | some (.condBr c t f) =>
      match eval w ρ c with
      | some x =>
        (bb :: (run w ρ s fuel (condBrTarget x t f)).1, (run w ρ s fuel (condBrTarget x t f)).2)
      | none => ([bb], none)
    | _ => ([bb], none)

/-- Empty function state: no block constructed, nothing emitted. -/
def GenFunction.empty : GenFunction := { Blocks := fun i => { Id := i } }


/-! ## Drivers and sample functions -/

/-- Modelled from the spec: the per-function driver (`GenFunction::CodeGen`, not part of the
sources) visits the blocks of the function one after the other; `forBlocks f ids` runs the
block method `f` on the blocks `ids` in that order and stops at the first failure. -/
def forBlocks (f : Nat → GenFunction → Res Unit) : List Nat → GenFunction → Res Unit
  | [], s => .ok () s
  | b :: rest, s => (f b s).bind fun _ s1 => forBlocks f rest s1

/-- Modelled from the spec: code generation of a function whose blocks are `ids`: every
block is generated, then every block is terminated, then the pending joins of every block
are discharged in a single pass. -/
def compileBlocks (w fuel : Nat) (ids : List Nat) (s : GenFunction) : Res Unit :=
  (forBlocks (CodeGen w fuel) ids s).bind fun _ s1 =>
    (forBlocks genTermInst ids s1).bind fun _ s2 =>
      forBlocks (handlePHINodes fuel) ids s2

/-- Instruction with no immediate. -/
def op (o : Opcode) : ZInstruction := { OpNum := o }

/-- Instruction with one immediate. -/
def op1 (o : Opcode) (a : Int) : ZInstruction := { OpNum := o, Args := [a] }

/-- Jump instruction (annotated is-jump) with its target immediate. -/
def opJump (o : Opcode) (a : Int) : ZInstruction := { OpNum := o, Args := [a], isJumpInst := true }

/-- Instruction `RETURN` (annotated is-return). -/
def opReturn : ZInstruction := { OpNum := .RETURN, isReturn := true }

/-- Give block `b` its instruction list. -/
def withInstructions (b : Nat) (l : List ZInstruction) (s : GenFunction) : GenFunction :=
  s.setBlock b { s.Blocks b with Instructions := l }

/-- The function with the single block `CONST2; PUSH; CONST3; ADDINT; RETURN`. -/
def progAdd : GenFunction :=
  withInstructions 0 [op .CONST2, op .PUSH, op .CONST3, op .ADDINT, opReturn]
    (GenBlock.create 0 GenFunction.empty)

/-- The function `CONST0; BRANCHIFNOT L; CONST1; BRANCH E; L: CONST2; E: RETURN`: block 0 is
the entry, block 1 the fall-through, block 2 is `L`, block 3 is `E`. -/
def progBranch : GenFunction :=
  withInstructions 0 [op .CONST0, opJump .BRANCHIFNOT 2]
    (withInstructions 1 [op .CONST1, opJump .BRANCH 3]
      (withInstructions 2 [op .CONST2]
        (withInstructions 3 [opReturn]
          (setNext 2 3 false (setNext 1 3 true (setNext 0 1 false (setNext 0 2 true
            (GenBlock.create 3 (GenBlock.create 2 (GenBlock.create 1
              (GenBlock.create 0 GenFunction.empty)))))))))))

/-- The function with the single block `CONST3; PUSHCONST2; SUBINT; RETURN`. -/
def progSub : GenFunction :=
  withInstructions 0 [op .CONST3, op .PUSHCONST2, op .SUBINT, opReturn]
    (GenBlock.create 0 GenFunction.empty)

/-- The function with the single block `CONSTINT 2; PUSHCONSTINT -4; DIVINT; RETURN`: the
accumulator holds -4 and the stack top 2 when `DIVINT` is reached. -/
def progDiv : GenFunction :=
  withInstructions 0 [op1 .CONSTINT 2, op1 .PUSHCONSTINT (-4), op .DIVINT, opReturn]
    (GenBlock.create 0 GenFunction.empty)

/-- The function with the single block `CONSTINT 2; PUSHCONSTINT -7; MODINT; RETURN`: the
accumulator holds -7 and the stack top 2 when `MODINT` is reached. -/
def progMod : GenFunction :=
  withInstructions 0 [op1 .CONSTINT 2, op1 .PUSHCONSTINT (-7), op .MODINT, opReturn]
    (GenBlock.create 0 GenFunction.empty)

/-- Block state with accumulator `a` and local stack `stk`, everything else empty. -/
def blockWith (a : Value) (stk : List Value) : GenFunction :=
  let s := GenBlock.create 0 GenFunction.empty
  s.setBlock 0 { s.Blocks 0 with Accu := a, Stack := stk }

/-- A function with two merges in a row. Block 0 `CONST0; PUSH; BRANCHIF 2` and block 1
`CHECK_SIGNALS` both lead to block 2 `CONST0; BRANCHIF 4`; block 2 and block 3
`CHECK_SIGNALS` both lead to block 4 `ACC0; RETURN`, which reads the slot pushed by block 0. -/
def progTwoMerges : GenFunction :=
  withInstructions 0 [op .CONST0, op .PUSH, opJump .BRANCHIF 2]
    (withInstructions 1 [op .CHECK_SIGNALS]
      (withInstructions 2 [op .CONST0, opJump .BRANCHIF 4]
        (withInstructions 3 [op .CHECK_SIGNALS]
          (withInstructions 4 [op .ACC0, opReturn]
            (setNext 3 4 false (setNext 2 3 false (setNext 2 4 true
              (setNext 1 2 false (setNext 0 1 false (setNext 0 2 true
                (GenBlock.create 4 (GenBlock.create 3 (GenBlock.create 2 (GenBlock.create 1
                  (GenBlock.create 0 GenFunction.empty)))))))))))))))

/-- A function whose entry block installs a handler. Block 0 `CONST1; PUSHTRAP 2` falls
through to block 1 `PUSH; ACC0; RETURN`, which pushes the accumulator it inherits; block 2
`RETURN` is the handler. -/
def progTrap : GenFunction :=
  withInstructions 0 [op .CONST1, op1 .PUSHTRAP 2]
    (withInstructions 1 [op .PUSH, op .ACC0, opReturn]
      (withInstructions 2 [opReturn]
        (setNext 0 2 true (setNext 0 1 false
          (GenBlock.create 2 (GenBlock.create 1 (GenBlock.create 0 GenFunction.empty)))))))

/-! ## Relations between generator states -/

/-- Call instructions that the log of `s'` holds beyond the log of `s`. -/
def emittedCalls (s s' : GenFunction) : List Instr :=
  ((s'.Insts.drop s.Insts.length).map Prod.snd).filter Instr.isCall

/-- The log of `s'` extends the log of `s`, and the calls among the new instructions are
`cs`, in this order. -/
def Emits (s s' : GenFunction) (cs : List Instr) : Prop :=
  ∃ new, s'.Insts = s.Insts ++ new ∧ (new.map Prod.snd).filter Instr.isCall = cs

/-- Frame of the stack operations: no call is emitted, no accumulator and no closure table
entry changes. -/
def ReadFrame (s s' : GenFunction) : Prop :=
  Emits s s' [] ∧ (∀ c, (s'.Blocks c).Accu = (s.Blocks c).Accu) ∧
    s'.ClosuresFunctions = s.ClosuresFunctions

/-- Every entry of the local stack of block `b` has a terminating lookup in the mutation map
of the block within `fuel + 1` steps. -/
def Readable (fuel b : Nat) (s : GenFunction) : Prop :=
  ∀ v ∈ (s.Blocks b).Stack, ∃ t, getMutatedValue (s.Blocks b).MutatedVals (fuel + 1) v = some t

/-- Every entry of the previous-stack cache of every block of `s` is still there in `s'`. -/
def CacheKept (s s' : GenFunction) : Prop :=
  ∀ b d c, mapFind d (s.Blocks b).PrevStackCache = some c →
    mapFind d (s'.Blocks b).PrevStackCache = some c

/-- Join well-formedness of the blocks `ids`: every pending join node of every block has as
many incoming pairs as the block has predecessors. -/
def joinsFilled (s : GenFunction) (ids : List Nat) : Bool :=
  ids.all fun b =>
    (s.Blocks b).PHINodes.all fun p =>
      (s.incomingOf p.1).length == (s.Blocks b).PreviousBlocks.length

/-- A loop through two merges. Block 0 `CONST0; PUSH; PUSH; BRANCHIF 3` enters the loop at
block 1 (fall-through) or at block 3; block 1 `ACC0` falls through to block 2
`CHECK_SIGNALS`, which falls through to block 3 `ACC1`, which falls through to block 4
`CHECK_SIGNALS; BRANCH 1`. Blocks 1 and 3 have two predecessors each. -/
def progLoop : GenFunction :=
  withInstructions 0 [op .CONST0, op .PUSH, op .PUSH, opJump .BRANCHIF 3]
    (withInstructions 1 [op .ACC0]
      (withInstructions 2 [op .CHECK_SIGNALS]
        (withInstructions 3 [op .ACC1]
          (withInstructions 4 [op .CHECK_SIGNALS, opJump .BRANCH 1]
            (setNext 4 1 true (setNext 3 4 false (setNext 2 3 false (setNext 1 2 false
              (setNext 0 1 false (setNext 0 3 true
                (GenBlock.create 4 (GenBlock.create 3 (GenBlock.create 2 (GenBlock.create 1
                  (GenBlock.create 0 GenFunction.empty)))))))))))))))

/-- The loop function after generation and termination of all its blocks, before any join
is discharged. -/
def progLoopGenerated : GenFunction :=
  ((forBlocks (CodeGen 64 4) [0, 1, 2, 3, 4] progLoop).bind fun _ s1 =>
    forBlocks genTermInst [0, 1, 2, 3, 4] s1).state

/-- Outcome of a single discharge pass over the generated loop function in the order `ids`:
`some true` when the pass completes with all joins filled, `some false` when it completes
with a join that is not, `none` when it fails. -/
def loopDischarge (ids : List Nat) : Option Bool :=
  match forBlocks (handlePHINodes 4) ids progLoopGenerated with
  | .ok _ s' => some (joinsFilled s' [0, 1, 2, 3, 4])
  | .err _ _ => none

/-- The list `PrBlocks` of `getStackAt`: the predecessors of block `b` without the ignored
block. -/
def prBlocks (s : GenFunction) (b : Nat) (IgnorePrevBlock : Option Nat) : List Nat :=
  match IgnorePrevBlock with
  | some i => (s.Blocks b).PreviousBlocks.filter (fun p => decide (p ≠ i))
  | none => (s.Blocks b).PreviousBlocks

/-- Number of entries of a map (`std::map::size`): the number of distinct keys. -/
def mapSize {κ β : Type} [DecidableEq κ] (m : List (κ × β)) : Nat :=
  (m.map Prod.fst).dedup.length

/-- The value reached from `v` by following exactly `k` entries of the mutation map `M`, as
the recursive calls of `getMutatedValue` do; `none` when fewer than `k` entries can be
followed. -/
def follow (M : List (Value × Value)) : Nat → Value → Option Value
  | 0, v => some v
  | k + 1, v =>
    match mapFind v M with
    | some u => follow M k u
    | none => none

/-- A mutation map is acyclic when no value is reached from itself by following one or more
entries. -/
def Acyclic (M : List (Value × Value)) : Prop :=
  ∀ v k, follow M (k + 1) v ≠ some v

/-- The block `CONST1; PUSH; ACC0; ASSIGN 0`: slot 0 holds the value that is assigned to
it. -/
def progSelfAssign : GenFunction :=
  withInstructions 0 [op .CONST1, op .PUSH, op .ACC0, op1 .ASSIGN 0]
    (GenBlock.create 0 GenFunction.empty)

/-- A sequence of calls `setNext(Block, IsBrBlock)` on block `b`, in the order of the list. -/
def declareNext (b : Nat) : List (Nat × Bool) → GenFunction → GenFunction
  | [], s => s
  | c :: cs, s => declareNext b cs (setNext b c.1 c.2 s)

/-- Blocks 0, 1 and 2, block 0 being `CONST0` with the taken successor 2 declared before the
fall-through successor 1. -/
def progTakenFirst : GenFunction :=
  withInstructions 0 [op .CONST0]
    (declareNext 0 [(2, true), (1, false)]
      (GenBlock.create 2 (GenBlock.create 1 (GenBlock.create 0 GenFunction.empty))))

/-- Block 0 `CONST1; PUSH` falls through to block 1 `ASSIGN 0; PUSH; ACC1; PUSH`, which
receives its accumulator from block 0. -/
def progAssignUnset : GenFunction :=
  withInstructions 0 [op .CONST1, op .PUSH]
    (withInstructions 1 [op1 .ASSIGN 0, op .PUSH, op .ACC1, op .PUSH]
      (setNext 0 1 false (GenBlock.create 1 (GenBlock.create 0 GenFunction.empty))))

/-- Block 0 `PUSHTRAP 1; PUSH; ACC1; PUSH` with the handler block 1. -/
def progTrapSlots : GenFunction :=
  withInstructions 0 [op1 .PUSHTRAP 1, op .PUSH, op .ACC1, op .PUSH]
    (withInstructions 1 [opReturn]
      (setNext 0 1 true (GenBlock.create 1 (GenBlock.create 0 GenFunction.empty))))

/-- The block `CONST1; PUSH; PUSH; CONST2; ASSIGN 0; ACC1; RETURN`: slots 0 and 1 hold the
same value when slot 0 is assigned. -/
def progAlias : GenFunction :=
  withInstructions 0
    [op .CONST1, op .PUSH, op .PUSH, op .CONST2, op1 .ASSIGN 0, op .ACC1, opReturn]
    (GenBlock.create 0 GenFunction.empty)

/-- Opcodes of the branch instructions, which the instruction stream flags is-jump. -/
def Opcode.isBranch : Opcode → Bool
  | .BRANCH | .BRANCHIF | .BRANCHIFNOT | .BEQ | .BNEQ | .BLTINT | .BLEINT | .BGTINT | .BGEINT
  | .BULTINT | .BUGEINT => true
  | _ => false

/-- Opcodes of the instructions that leave the function, which the instruction stream flags
is-return. -/
def Opcode.isReturning : Opcode → Bool
  | .RETURN | .STOP | .RAISE | .APPTERM | .APPTERM1 | .APPTERM2 | .APPTERM3 => true
  | _ => false

/-- The flags of the instructions of a block agree with their opcodes, and the branch and
return opcodes occur in last position only. -/
def FlagsAgree (l : List ZInstruction) : Prop :=
  (∀ I ∈ l, I.isJumpInst = I.OpNum.isBranch ∧ I.isReturn = I.OpNum.isReturning) ∧
    ∀ I ∈ l.dropLast, I.OpNum.isBranch = false ∧ I.OpNum.isReturning = false

/-- The backend block `bb` holds exactly one terminator and it is its last instruction. -/
def Closed (s : GenFunction) (bb : BBId) : Prop :=
  (s.instsOf bb).getLast?.map Instr.isTerminator = some true ∧
    ((s.instsOf bb).filter Instr.isTerminator).length = 1

/-- The backend block `bb` holds no terminator. -/
def Unterminated (s : GenFunction) (bb : BBId) : Prop :=
  ∀ i ∈ s.instsOf bb, i.isTerminator = false

/-- Block `b` is not generated yet and owns its backend blocks: the current backend block is
the last of its list and holds no terminator, the earlier ones are closed, and the backend
blocks in use are allocated. No block with two or more predecessors (where stack reads create
join nodes) and no handler block of a `PUSHTRAP` of `b` has one of the backend blocks of `b`
as its current backend block. -/
def Ungenerated (b : Nat) (s : GenFunction) : Prop :=
  (∃ init, (s.Blocks b).LlvmBlocks = init ++ [(s.Blocks b).LlvmBlock] ∧
      ∀ bb ∈ init, Closed s bb) ∧
    Unterminated s (s.Blocks b).LlvmBlock ∧
    (∀ c, c ≠ b → 2 ≤ (s.Blocks c).PreviousBlocks.length →
      (s.Blocks c).LlvmBlock ∉ (s.Blocks b).LlvmBlocks) ∧
    (∀ I ∈ (s.Blocks b).Instructions, I.OpNum = .PUSHTRAP → (I.arg 0).toNat ≠ b →
      (s.Blocks (I.arg 0).toNat).LlvmBlock ∉ (s.Blocks b).LlvmBlocks) ∧
    (∀ c, (s.Blocks c).LlvmBlock < s.NextBB) ∧
    (∀ bb ∈ (s.Blocks b).LlvmBlocks, bb < s.NextBB) ∧
    ∀ p ∈ s.Insts, p.1 < s.NextBB

/-- Frame of the instructions of block `b` that emit no terminator: the log grows by
instructions that are no terminators, each in the insertion block, in the current backend
block of `b` or in that of a block with two or more predecessors; backend blocks, instruction lists and
adjacency of the blocks stay, and the insertion point stays or becomes the current backend
block of `b`. -/
def Quiet (b : Nat) (s s' : GenFunction) : Prop :=
  (s'.InsertBlock = s.InsertBlock ∨ s'.InsertBlock = (s.Blocks b).LlvmBlock) ∧
    s'.NextBB = s.NextBB ∧
    (∀ c, (s'.Blocks c).LlvmBlock = (s.Blocks c).LlvmBlock ∧
      (s'.Blocks c).LlvmBlocks = (s.Blocks c).LlvmBlocks ∧
      (s'.Blocks c).Instructions = (s.Blocks c).Instructions ∧
      (s'.Blocks c).NextBlocks = (s.Blocks c).NextBlocks ∧
      (s'.Blocks c).PreviousBlocks = (s.Blocks c).PreviousBlocks) ∧
    ∃ new, s'.Insts = s.Insts ++ new ∧
      ∀ p ∈ new, p.2.isTerminator = false ∧
        (p.1 = s.InsertBlock ∨ p.1 = (s.Blocks b).LlvmBlock ∨
          ∃ c, 2 ≤ (s.Blocks c).PreviousBlocks.length ∧ p.1 = (s.Blocks c).LlvmBlock)

/-- Blocks 0, 1 and 2; block 1 is `CONST1; PUSHTRAP 2; PUSH` with the handler block 2 and
falls through to block 2. -/
def progTrapInside : GenFunction :=
  withInstructions 1 [op .CONST1, op1 .PUSHTRAP 2, op .PUSH]
    (setNext 1 2 false
      (GenBlock.create 2 (GenBlock.create 1 (GenBlock.create 0 GenFunction.empty))))

/-- Block 0 `CONST0; PUSH; CONST1; PUSH` falls through to block 1 `POP 1; ACC0; RETURN`, which
discards the entry block 0 pushed last and reads the one below it. -/
def progPopBelow : GenFunction :=
  withInstructions 0 [op .CONST0, op .PUSH, op .CONST1, op .PUSH]
    (withInstructions 1 [op1 .POP 1, op .ACC0, opReturn]
      (setNext 0 1 false (GenBlock.create 1 (GenBlock.create 0 GenFunction.empty))))

/-- The function whose only block `ACC0; BRANCH 0` branches to itself: block 0 is its own
single predecessor. -/
def progSelfLoop : GenFunction :=
  withInstructions 0 [op .ACC0, opJump .BRANCH 0]
    (setNext 0 0 true (GenBlock.create 0 GenFunction.empty))

/-- A loop whose head installs a handler. Block 0 `CHECK_SIGNALS` falls through to block 1
`PUSHTRAP 4; CONST1`, which falls through to block 2 `CONST0; BRANCHIF 1`; block 2 branches
back to block 1 or falls through to block 3 `BRANCH 1`; block 4 `RETURN` is the handler. -/
def progTrapLoop : GenFunction :=
  withInstructions 0 [op .CHECK_SIGNALS]
    (withInstructions 1 [op1 .PUSHTRAP 4, op .CONST1]
      (withInstructions 2 [op .CONST0, opJump .BRANCHIF 1]
        (withInstructions 3 [opJump .BRANCH 1]
          (withInstructions 4 [opReturn]
            (setNext 3 1 true (setNext 2 3 false (setNext 2 1 true (setNext 1 4 true
              (setNext 1 2 false (setNext 0 1 false
                (GenBlock.create 4 (GenBlock.create 3 (GenBlock.create 2 (GenBlock.create 1
                  (GenBlock.create 0 GenFunction.empty)))))))))))))))

/-- Instruction `RAISE` (annotated is-return). -/
def opRaise : ZInstruction := { OpNum := .RAISE, isReturn := true }

/-- A handler that reads a slot of the installing block. Block 0
`CONST2; PUSH; CONST0; PUSHTRAP 1; CONST1; RAISE` installs the handler block 1
`ACC0; RETURN`, whose only predecessor it is. -/
def progTrapRead : GenFunction :=
  withInstructions 0 [op .CONST2, op .PUSH, op .CONST0, op1 .PUSHTRAP 1, op .CONST1, opRaise]
    (withInstructions 1 [op .ACC0, opReturn]
      (setNext 0 1 true (GenBlock.create 1 (GenBlock.create 0 GenFunction.empty))))

/-! ## Word arithmetic -/

theorem two_pow_pos_int (w : Nat) : (0 : Int) < (2 : Int) ^ w := by positivity

theorem wrap_cast (w : Nat) (z : Int) : ((wrap w z : Nat) : Int) = z % (2 : Int) ^ w := by
  unfold wrap
  exact Int.toNat_of_nonneg (Int.emod_nonneg _ (two_pow_pos_int w).ne')

theorem wrap_lt (w : Nat) (z : Int) : wrap w z < 2 ^ w := by
  have h := Int.emod_lt_of_pos z (two_pow_pos_int w)
  have h2 := wrap_cast w z
  have : ((wrap w z : Nat) : Int) < ((2 ^ w : Nat) : Int) := by
    rw [h2]; push_cast; exact h
  exact_mod_cast this

theorem wrap_of_lt (w n : Nat) (h : n < 2 ^ w) : wrap w (n : Int) = n := by
  have h1 : ((n : Int)) % (2 : Int) ^ w = n := by
    apply Int.emod_eq_of_lt (Int.natCast_nonneg n)
    exact_mod_cast h
  have h2 := wrap_cast w n
  rw [h1] at h2
  exact_mod_cast h2

theorem wrap_eq_of_modEq (w : Nat) (x y : Int) (h : x ≡ y [ZMOD (2 : Int) ^ w]) :
    wrap w x = wrap w y := by
  unfold wrap
  rw [h]

theorem wrap_modEq (w : Nat) (z : Int) : ((wrap w z : Nat) : Int) ≡ z [ZMOD (2 : Int) ^ w] := by
  rw [wrap_cast]
  exact Int.mod_modEq z _

theorem one_lt_two_pow_of_lt {w : Nat} (hw : 1 < w) : 2 < 2 ^ w := by
  calc 2 < 2 ^ 2 := by norm_num
    _ ≤ 2 ^ w := Nat.pow_le_pow_right (by norm_num) hw

theorem eval_const_one (w : Nat) (hw : 1 < w) (ρ : Nat → Nat) :
    eval w ρ (.const 1) = some 1 := by
  have := one_lt_two_pow_of_lt hw
  simp only [eval]
  rw [Nat.mod_eq_of_lt (by omega)]

theorem eval_ConstInt_one (w : Nat) (hw : 1 < w) (ρ : Nat → Nat) :
    eval w ρ (ConstInt w 1) = some 1 := by
  have h2 := one_lt_two_pow_of_lt hw
  have h : wrap w 1 = 1 := by
    have := wrap_of_lt w 1 (by omega)
    simpa using this
  simp only [ConstInt, eval, h]
  rw [Nat.mod_eq_of_lt (by omega)]

theorem eval_bin_some (w : Nat) (ρ : Nat → Nat) (id : Nat) (op : BinOp) (a c : Value)
    (x y : Nat) (ha : eval w ρ a = some x) (hc : eval w ρ c = some y) :
    eval w ρ (.bin id op a c) = evalBin w op x y := by
  simp only [eval, ha, hc]

/-- Run-time word of `intVal`: the operand shifted right by one. -/
theorem eval_intVal (w : Nat) (hw : 1 < w) (ρ : Nat → Nat) (s : GenFunction) (v : Value)
    (x : Nat) (hv : eval w ρ v = some x) :
    eval w ρ (intVal v s).1 = some (x / 2) := by
  simp only [intVal, GenFunction.emitVal]
  rw [eval_bin_some w ρ _ _ _ _ x 1 hv (eval_const_one w hw ρ)]
  simp [evalBin, hw]

/-- Run-time word of `valInt`: the operand doubled, plus one. -/
theorem eval_valInt (w : Nat) (hw : 1 < w) (ρ : Nat → Nat) (s : GenFunction) (v : Value)
    (x : Nat) (hv : eval w ρ v = some x) :
    eval w ρ (valInt w v s).1 = some (wrap w (2 * (x : Int) + 1)) := by
  simp only [valInt, GenFunction.emitVal]
  have hshl : eval w ρ (.bin s.NextId .shl v (.const 1)) = some (wrap w ((x : Int) * 2 ^ 1)) := by
    rw [eval_bin_some w ρ _ _ _ _ x 1 hv (eval_const_one w hw ρ)]
    simp [evalBin, hw]
  rw [eval_bin_some w ρ _ _ _ _ _ 1 hshl (eval_ConstInt_one w hw ρ)]
  simp only [evalBin]
  congr 1
  apply wrap_eq_of_modEq
  have h := wrap_modEq w ((x : Int) * 2 ^ 1)
  calc ((wrap w ((x : Int) * 2 ^ 1) : Nat) : Int) + ((1 : Nat) : Int)
      ≡ (x : Int) * 2 ^ 1 + ((1 : Nat) : Int) [ZMOD (2 : Int) ^ w] := h.add_right _
    _ = 2 * (x : Int) + 1 := by push_cast; ring

/-- C1: for every machine word `x` with low bit 1, the value emitted by `valInt` on the value
emitted by `intVal` on `x` has run-time word `x` again. -/
theorem valInt_intVal_tagged (w : Nat) (hw : 1 < w) (ρ : Nat → Nat) (s : GenFunction)
    (v : Value) (x : Nat) (hv : eval w ρ v = some x) (hx : x < 2 ^ w) (hodd : x % 2 = 1) :
    eval w ρ (valInt w (intVal v s).1 (intVal v s).2).1 = some x := by
  rw [eval_valInt w hw ρ _ _ (x / 2) (eval_intVal w hw ρ s v x hv)]
  congr 1
  have h : (2 * ((x / 2 : Nat) : Int) + 1) = ((x : Nat) : Int) := by
    have := Nat.div_add_mod x 2
    omega
  rw [h]
  exact wrap_of_lt w x hx

/-! ## Stack reads on the local stack -/

@[simp] theorem setBlock_Blocks_self (s : GenFunction) (b : Nat) (B : GenBlock) :
    (s.setBlock b B).Blocks b = B := by
  simp [GenFunction.setBlock]

theorem setBlock_Blocks_of_ne (s : GenFunction) (b c : Nat) (B : GenBlock) (h : c ≠ b) :
    (s.setBlock b B).Blocks c = s.Blocks c := by
  simp [GenFunction.setBlock, h]

@[simp] theorem setBlock_Insts (s : GenFunction) (b : Nat) (B : GenBlock) :
    (s.setBlock b B).Insts = s.Insts := rfl

@[simp] theorem setBlock_NextId (s : GenFunction) (b : Nat) (B : GenBlock) :
    (s.setBlock b B).NextId = s.NextId := rfl

@[simp] theorem setBlock_InsertBlock (s : GenFunction) (b : Nat) (B : GenBlock) :
    (s.setBlock b B).InsertBlock = s.InsertBlock := rfl

@[simp] theorem setBlock_ClosuresFunctions (s : GenFunction) (b : Nat) (B : GenBlock) :
    (s.setBlock b B).ClosuresFunctions = s.ClosuresFunctions := rfl

@[simp] theorem setBlock_Incoming (s : GenFunction) (b : Nat) (B : GenBlock) :
    (s.setBlock b B).Incoming = s.Incoming := rfl

/-- A read below the local stack size returns the slot, looked up through the mutation
map, and leaves the state unchanged. -/
theorem getStackAt_local (fuel b n : Nat) (ig : Option Nat) (s : GenFunction)
    (h : n < (s.Blocks b).Stack.length) :
    getStackAt (fuel + 1) b n ig s =
      match getMutatedValue (s.Blocks b).MutatedVals (fuel + 1) ((s.Blocks b).Stack.getD n .null) with
      | some v => .ok v s
      | none => .err .outOfFuel s := by
  have h' : ¬ (s.Blocks b).Stack.length ≤ n := by omega
  simp only [getStackAt, h', if_false, Res.bind]

/-- Popping a non-empty local stack returns its top, looked up through the mutation map, and
removes exactly that entry. -/
theorem stackPop_cons (fuel b : Nat) (s : GenFunction) (v t : Value) (rest : List Value)
    (hs : (s.Blocks b).Stack = v :: rest)
    (hm : getMutatedValue (s.Blocks b).MutatedVals (fuel + 1) v = some t) :
    stackPop (fuel + 1) b s = .ok t (s.setBlock b { s.Blocks b with Stack := rest }) := by
  have hl : 0 < (s.Blocks b).Stack.length := by rw [hs]; simp
  unfold stackPop
  rw [getStackAt_local fuel b 0 none s hl]
  simp [hs, hm, Res.bind]

theorem eval_castToInt (w : Nat) (ρ : Nat → Nat) (v : Value) (s : GenFunction) :
    eval w ρ (castToInt v s).1 = eval w ρ v := by
  unfold castToInt
  split
  · simp [GenFunction.emitVal, eval]
  · rfl

theorem castToInt_Blocks (v : Value) (s : GenFunction) : (castToInt v s).2.Blocks = s.Blocks := by
  unfold castToInt
  split
  · simp [GenFunction.emitVal]
  · rfl

theorem eval_ConstInt (w : Nat) (ρ : Nat → Nat) (z : Int) :
    eval w ρ (ConstInt w z) = some (wrap w z) := by
  simp only [ConstInt, eval]
  rw [Nat.mod_eq_of_lt (wrap_lt w z)]

/-- Run-time word of the accumulator after `ADDINT`. -/
theorem eval_addint (w : Nat) (ρ : Nat → Nat) (id1 id2 : Nat) (A T : Value) (a c : Int)
    (hA : eval w ρ A = some (tag w a)) (hT : eval w ρ T = some (tag w c)) :
    eval w ρ (.bin id1 .add A (.bin id2 .sub T (ConstInt w 1))) = some (tag w (a + c)) := by
  have hsub : eval w ρ (.bin id2 .sub T (ConstInt w 1)) =
      some (wrap w ((tag w c : Int) - (wrap w 1 : Nat))) := by
    rw [eval_bin_some w ρ _ _ _ _ _ _ hT (eval_ConstInt w ρ 1)]
    rfl
  rw [eval_bin_some w ρ _ _ _ _ _ _ hA hsub]
  simp only [evalBin, tag]
  congr 1
  apply wrap_eq_of_modEq
  have h1 := wrap_modEq w (2 * a + 1)
  have h2 := wrap_modEq w (2 * c + 1)
  have h3 := wrap_modEq w 1
  have h4 := wrap_modEq w (((wrap w (2 * c + 1) : Nat) : Int) - ((wrap w 1 : Nat) : Int))
  calc ((wrap w (2 * a + 1) : Nat) : Int)
        + ((wrap w (((wrap w (2 * c + 1) : Nat) : Int) - ((wrap w 1 : Nat) : Int)) : Nat) : Int)
      ≡ (2 * a + 1) + ((2 * c + 1) - 1) [ZMOD (2 : Int) ^ w] :=
        h1.add (h4.trans (h2.sub h3))
    _ = 2 * (a + c) + 1 := by ring

/-- C1, at a concrete word: the tagged word 7 on a 64-bit machine. -/
theorem valInt_intVal_tagged_witness :
    eval 64 (fun _ => 0)
      (valInt 64 (intVal (.const 7) GenFunction.empty).1
        (intVal (.const 7) GenFunction.empty).2).1 = some 7 :=
  valInt_intVal_tagged 64 (by decide) (fun _ => 0) GenFunction.empty (.const 7) 7
    (by decide) (by decide) (by decide)

/-- C2: `ADDINT` with accumulator `2a+1` and stack top `2c+1` (read through the mutation
map) succeeds, removes exactly the top entry of the stack and leaves an accumulator whose
run-time word is `2(a+c)+1` modulo the word size; and the code generated for
`CONST2; PUSH; CONST3; ADDINT; RETURN` returns the encoding of 5. -/
theorem addint_tagged (w fuel b : Nat) (ρ : Nat → Nat) (s : GenFunction) (I : ZInstruction)
    (hI : I.OpNum = .ADDINT) (v t : Value) (rest : List Value) (a c : Int)
    (hs : (s.Blocks b).Stack = v :: rest)
    (hm : getMutatedValue (s.Blocks b).MutatedVals (fuel + 1) v = some t)
    (hA : eval w ρ (s.Blocks b).Accu = some (tag w a))
    (hT : eval w ρ t = some (tag w c)) :
    (∃ s', GenCodeForInst w (fuel + 1) b I s = .ok () s' ∧ (s'.Blocks b).Stack = rest ∧
        eval w ρ (s'.Blocks b).Accu = some (tag w (a + c))) ∧
    (∃ s', CodeGen w (fuel + 1) 0 progAdd = .ok () s' ∧
        (run w ρ s' 1 (s'.Blocks 0).LlvmBlock).2 = some (tag w 5)) := by
  constructor
  · simp only [GenCodeForInst, hI, stackPop_cons fuel b s v t rest hs hm, Res.bind]
    refine ⟨_, rfl, ?_, ?_⟩
    · simp [setAccu, CreateBin, GenFunction.emitVal, castToInt_Blocks]
    · simp only [setAccu, CreateBin, GenFunction.emitVal, setBlock_Blocks_self]
      apply eval_addint
      · rw [eval_castToInt]
        simpa [castToInt_Blocks] using hA
      · rw [eval_castToInt]; exact hT
  · refine ⟨_, rfl, ?_⟩
    show eval w ρ (.bin 1 .add (ConstInt w (Val_int 3))
      (.bin 0 .sub (ConstInt w (Val_int 2)) (ConstInt w 1))) = _
    exact eval_addint w ρ 1 0 (ConstInt w (Val_int 3)) (ConstInt w (Val_int 2)) 3 2
      (eval_ConstInt w ρ _) (eval_ConstInt w ρ _)

/-- C2, at a concrete state: accumulator 3 and stack top 2 on a 64-bit machine. -/
theorem addint_tagged_witness :
    (∃ s', GenCodeForInst 64 1 0 (op .ADDINT) (blockWith (.const 7) [.const 5]) = .ok () s' ∧
        (s'.Blocks 0).Stack = [] ∧
        eval 64 (fun _ => 0) (s'.Blocks 0).Accu = some (tag 64 (3 + 2))) ∧
    (∃ s', CodeGen 64 1 0 progAdd = .ok () s' ∧
        (run 64 (fun _ => 0) s' 1 (s'.Blocks 0).LlvmBlock).2 = some (tag 64 5)) :=
  addint_tagged 64 0 0 (fun _ => 0) (blockWith (.const 7) [.const 5]) (op .ADDINT) rfl
    (.const 5) (.const 5) [] 3 2 rfl rfl (by decide) (by decide)

/-- Run-time word of the accumulator after `SUBINT`: the encoding of `a - c - 1`. -/
theorem eval_subint (w : Nat) (ρ : Nat → Nat) (id1 id2 : Nat) (A T : Value) (a c : Int)
    (hA : eval w ρ A = some (tag w a)) (hT : eval w ρ T = some (tag w c)) :
    eval w ρ (.bin id1 .sub A (.bin id2 .add T (ConstInt w 1))) = some (tag w (a - c - 1)) := by
  have hadd : eval w ρ (.bin id2 .add T (ConstInt w 1)) =
      some (wrap w ((tag w c : Int) + (wrap w 1 : Nat))) := by
    rw [eval_bin_some w ρ _ _ _ _ _ _ hT (eval_ConstInt w ρ 1)]
    rfl
  rw [eval_bin_some w ρ _ _ _ _ _ _ hA hadd]
  simp only [evalBin, tag]
  congr 1
  apply wrap_eq_of_modEq
  have h1 := wrap_modEq w (2 * a + 1)
  have h2 := wrap_modEq w (2 * c + 1)
  have h3 := wrap_modEq w 1
  have h4 := wrap_modEq w (((wrap w (2 * c + 1) : Nat) : Int) + ((wrap w 1 : Nat) : Int))
  calc ((wrap w (2 * a + 1) : Nat) : Int)
        - ((wrap w (((wrap w (2 * c + 1) : Nat) : Int) + ((wrap w 1 : Nat) : Int)) : Nat) : Int)
      ≡ (2 * a + 1) - ((2 * c + 1) + 1) [ZMOD (2 : Int) ^ w] :=
        h1.sub (h4.trans (h2.add h3))
    _ = 2 * (a - c - 1) + 1 := by ring

/-- C3 (failing input): the code generated for `CONST3; PUSHCONST2; SUBINT; RETURN`, where
`SUBINT` meets accumulator 2 and stack top 3, returns the encoding of -2 on a machine of any
word size `w`; on a 64-bit machine this is not the encoding of the difference -1. -/
theorem subint_returns_one_less (w : Nat) (ρ : Nat → Nat) :
    (∃ s', CodeGen w 1 0 progSub = .ok () s' ∧ (s'.Blocks 0).Stack = [] ∧
        (run w ρ s' 1 (s'.Blocks 0).LlvmBlock).2 = some (tag w (2 - 3 - 1))) ∧
    tag 64 (2 - 3 - 1) ≠ tag 64 (2 - 3) := by
  constructor
  · refine ⟨_, rfl, rfl, ?_⟩
    show eval w ρ (.bin 1 .sub (ConstInt w (Val_int 2))
      (.bin 0 .add (ConstInt w (Val_int 3)) (ConstInt w 1))) = _
    exact eval_subint w ρ 1 0 (ConstInt w (Val_int 2)) (ConstInt w (Val_int 3)) 2 3
      (eval_ConstInt w ρ _) (eval_ConstInt w ρ _)
  · decide

@[simp] theorem emitVal_Blocks (s : GenFunction) (mk : Nat → Value) :
    (s.emitVal mk).2.Blocks = s.Blocks := rfl

@[simp] theorem intVal_Blocks (v : Value) (s : GenFunction) : (intVal v s).2.Blocks = s.Blocks :=
  rfl

@[simp] theorem valInt_Blocks (w : Nat) (v : Value) (s : GenFunction) :
    (valInt w v s).2.Blocks = s.Blocks := rfl

@[simp] theorem CreateBin_Blocks (op : BinOp) (a c : Value) (s : GenFunction) :
    (CreateBin op a c s).2.Blocks = s.Blocks := rfl

theorem tag_odd (w : Nat) (hw : 0 < w) (a : Int) : tag w a % 2 = 1 := by
  have h : ((tag w a : Nat) : Int) % 2 = 1 := by
    unfold tag
    rw [wrap_cast]
    have hd : (2 : Int) ∣ (2 : Int) ^ w := dvd_pow_self 2 (by omega)
    rw [Int.emod_emod_of_dvd _ hd]
    omega
  omega

/-- Twice the untagged half of a tagged word is twice the encoded integer, modulo `2^w`. -/
theorem two_mul_half_tag (w : Nat) (hw : 0 < w) (a : Int) :
    2 * ((tag w a / 2 : Nat) : Int) ≡ 2 * a [ZMOD (2 : Int) ^ w] := by
  have hodd := tag_odd w hw a
  have h1 : (2 * ((tag w a / 2 : Nat) : Int)) = ((tag w a : Nat) : Int) - 1 := by
    have := Nat.div_add_mod (tag w a) 2
    omega
  rw [h1]
  have h2 : ((tag w a : Nat) : Int) ≡ 2 * a + 1 [ZMOD (2 : Int) ^ w] := wrap_modEq w _
  have h3 := h2.sub_right 1
  simpa using h3

/-- Word arithmetic of `MULINT`: untag both words, multiply, retag. -/
theorem mul_retag (w : Nat) (hw : 0 < w) (a c : Int) :
    wrap w (2 * ((wrap w (((tag w a / 2 : Nat) : Int) * ((tag w c / 2 : Nat) : Int)) : Nat) : Int) + 1)
      = tag w (a * c) := by
  unfold tag
  apply wrap_eq_of_modEq
  have ha := two_mul_half_tag w hw a
  have hc := two_mul_half_tag w hw c
  have hp := wrap_modEq w (((tag w a / 2 : Nat) : Int) * ((tag w c / 2 : Nat) : Int))
  have e1 : 2 * ((wrap w (((tag w a / 2 : Nat) : Int) * ((tag w c / 2 : Nat) : Int)) : Nat) : Int)
      ≡ 2 * (((tag w a / 2 : Nat) : Int) * ((tag w c / 2 : Nat) : Int)) [ZMOD (2 : Int) ^ w] :=
    hp.mul_left 2
  have e2 : 2 * (((tag w a / 2 : Nat) : Int) * ((tag w c / 2 : Nat) : Int))
      = (2 * ((tag w a / 2 : Nat) : Int)) * ((tag w c / 2 : Nat) : Int) := by ring
  have e3 : (2 * ((tag w a / 2 : Nat) : Int)) * ((tag w c / 2 : Nat) : Int)
      ≡ (2 * a) * ((tag w c / 2 : Nat) : Int) [ZMOD (2 : Int) ^ w] := ha.mul_right _
  have e4 : (2 * a) * ((tag w c / 2 : Nat) : Int) = a * (2 * ((tag w c / 2 : Nat) : Int)) := by
    ring
  have e5 : a * (2 * ((tag w c / 2 : Nat) : Int)) ≡ a * (2 * c) [ZMOD (2 : Int) ^ w] :=
    hc.mul_left a
  have e6 : a * (2 * c) = 2 * (a * c) := by ring
  have e : 2 * ((wrap w (((tag w a / 2 : Nat) : Int) * ((tag w c / 2 : Nat) : Int)) : Nat) : Int)
      ≡ 2 * (a * c) [ZMOD (2 : Int) ^ w] := by
    rw [e2] at e1
    rw [e4] at e3
    rw [e6] at e5
    exact e1.trans (e3.trans e5)
  exact e.add_right 1

/-- C4: `MULINT` with accumulator `2a+1` and stack top `2c+1` (read through the mutation
map), for any integers `a` and `c`, succeeds, removes exactly the top entry of the stack and
leaves an accumulator whose run-time word is `2(a*c)+1` modulo the word size, although
`intVal` untags with a logical shift. -/
theorem mulint_tagged (w fuel b : Nat) (hw : 1 < w) (ρ : Nat → Nat) (s : GenFunction)
    (I : ZInstruction) (hI : I.OpNum = .MULINT) (v t : Value) (rest : List Value) (a c : Int)
    (hs : (s.Blocks b).Stack = v :: rest)
    (hm : getMutatedValue (s.Blocks b).MutatedVals (fuel + 1) v = some t)
    (hA : eval w ρ (s.Blocks b).Accu = some (tag w a))
    (hT : eval w ρ t = some (tag w c)) :
    ∃ s', GenCodeForInst w (fuel + 1) b I s = .ok () s' ∧ (s'.Blocks b).Stack = rest ∧
      eval w ρ (s'.Blocks b).Accu = some (tag w (a * c)) := by
  simp only [GenCodeForInst, hI, stackPop_cons fuel b s v t rest hs hm, Res.bind]
  refine ⟨_, rfl, ?_, ?_⟩
  · simp [setAccu]
  · simp only [setAccu, setBlock_Blocks_self]
    have hX := eval_intVal w hw ρ (s.setBlock b { s.Blocks b with Stack := rest })
      (s.Blocks b).Accu _ hA
    have hY := eval_intVal w hw ρ
      (intVal (s.Blocks b).Accu (s.setBlock b { s.Blocks b with Stack := rest })).2 t _ hT
    have hP := eval_bin_some w ρ
      (intVal t (intVal (s.Blocks b).Accu (s.setBlock b { s.Blocks b with Stack := rest })).2).2.NextId
      .mul _ _ _ _ hX hY
    simp only [evalBin] at hP
    have hR := eval_valInt w hw ρ
      (CreateBin .mul (intVal (s.Blocks b).Accu (s.setBlock b { s.Blocks b with Stack := rest })).1
        (intVal t (intVal (s.Blocks b).Accu (s.setBlock b { s.Blocks b with Stack := rest })).2).1
        (intVal t (intVal (s.Blocks b).Accu (s.setBlock b { s.Blocks b with Stack := rest })).2).2).2
      _ _ hP
    rw [mul_retag w (by omega) a c] at hR
    exact hR

/-- C4, at a concrete state: accumulator -3 and stack top 5 on a 64-bit machine. -/
theorem mulint_tagged_witness :
    ∃ s', GenCodeForInst 64 1 0 (op .MULINT)
        (blockWith (ConstInt 64 (Val_int (-3))) [ConstInt 64 (Val_int 5)]) = .ok () s' ∧
      (s'.Blocks 0).Stack = [] ∧
      eval 64 (fun _ => 0) (s'.Blocks 0).Accu = some (tag 64 (-3 * 5)) :=
  mulint_tagged 64 0 0 (by decide) (fun _ => 0)
    (blockWith (ConstInt 64 (Val_int (-3))) [ConstInt 64 (Val_int 5)]) (op .MULINT) rfl
    (ConstInt 64 (Val_int 5)) (ConstInt 64 (Val_int 5)) [] (-3) 5 rfl rfl (by decide) (by decide)

/-- C5 (failing inputs): on a 64-bit machine the code generated for
`CONSTINT 2; PUSHCONSTINT -4; DIVINT; RETURN` returns the encoding of `2^62 - 2`, not that of
the quotient -2, and the code generated for `CONSTINT 2; PUSHCONSTINT -7; MODINT; RETURN`
returns the encoding of 1, not that of the remainder -1: the logical shift of `intVal` has
turned the negative operand into a large positive one. -/
theorem divint_modint_negative (ρ : Nat → Nat) :
    (∃ s', CodeGen 64 1 0 progDiv = .ok () s' ∧
        (run 64 ρ s' 1 (s'.Blocks 0).LlvmBlock).2 = some (tag 64 (2 ^ 62 - 2)) ∧
        tag 64 (2 ^ 62 - 2) ≠ tag 64 (Int.tdiv (-4) 2)) ∧
    (∃ s', CodeGen 64 1 0 progMod = .ok () s' ∧
        (run 64 ρ s' 1 (s'.Blocks 0).LlvmBlock).2 = some (tag 64 1) ∧
        tag 64 1 ≠ tag 64 (Int.tmod (-7) 2)) := by
  refine ⟨⟨_, rfl, ?_, by decide⟩, ⟨_, rfl, ?_, by decide⟩⟩
  · rfl
  · rfl

/-- C6 (failing input): in the code generated for
`CONST0; BRANCHIFNOT L; CONST1; BRANCH E; L: CONST2; E: RETURN` the conditional branch of the
entry block tests the low bit of the tagged accumulator, which is 1, and control goes from the
entry block (backend block 0) to the fall-through block (backend block 1) and on to `E`
(backend block 3), never to `L` (backend block 2); the run does not return the encoding
of 2. With `BRANCHIF` in place of `BRANCHIFNOT` the tagged false value takes the branch. -/
theorem branchifnot_tagged_false_falls_through (ρ : Nat → Nat) :
    (∃ s', compileBlocks 64 2 [0, 1, 2, 3] progBranch = .ok () s' ∧
        s'.instsOf 0 = [.val (.cast 0 .trunc (ConstInt 64 (Val_int 0))),
          .condBr (.cast 0 .trunc (ConstInt 64 (Val_int 0))) 1 2] ∧
        run 64 ρ s' 4 0 = ([0, 1, 3], none)) ∧
    (∃ s', compileBlocks 64 2 [0, 1, 2, 3]
          (withInstructions 0 [op .CONST0, opJump .BRANCHIF 2] progBranch) = .ok () s' ∧
        (run 64 ρ s' 4 0).1 = [0, 2, 3]) := by
  refine ⟨⟨_, rfl, rfl, rfl⟩, ⟨_, rfl, rfl⟩⟩

/-! ## Join creation and discharge -/

/-- A read beyond the local stack whose depth is cached returns the cached value, looked up
through the mutation map, and leaves the state unchanged. -/
theorem getStackAt_cached (fuel b n : Nat) (ig : Option Nat) (s : GenFunction) (c : Value)
    (hn : (s.Blocks b).Stack.length ≤ n)
    (hc : mapFind (((n - (s.Blocks b).Stack.length : Nat) : Int)) (s.Blocks b).PrevStackCache
      = some c) :
    getStackAt (fuel + 1) b n ig s =
      match getMutatedValue (s.Blocks b).MutatedVals (fuel + 1) c with
      | some v => .ok v s
      | none => .err .outOfFuel s := by
  simp only [getStackAt, hn, if_true, hc, Res.bind]

theorem mapFind_mapSet_self {κ β : Type} [DecidableEq κ] (k : κ) (v : β) (m : List (κ × β)) :
    mapFind k (mapSet k v m) = some v := by
  simp [mapSet, mapFind]

set_option maxRecDepth 1000000 in
/-- Whatever the order of the discharge pass over the generated loop function, the pass
completes and leaves a join node without its incoming pairs. -/
theorem loopDischarge_all_orders :
    ∀ ids ∈ List.permutations' [0, 1, 2, 3, 4], loopDischarge ids = some false := by
  decide

/-- C9 (failing inputs): in the two-merge function, generated, terminated and discharged
block by block in the order of the block keys, the discharge of block 4 makes `getStackAt`
create the join node `phi 3` in its predecessor block 2, which has two predecessors and has
already been discharged: the node stays pending in block 2 with no incoming pair, while the
node `phi 2` of block 4 has its two pairs. In the loop function the same happens for every
order `ids` of the single discharge pass: the pass completes and some join node has not as
many incoming pairs as its block has predecessors. -/
theorem join_created_during_discharge_unfilled (ids : List Nat)
    (h : ids.Perm [0, 1, 2, 3, 4]) :
    (∃ s', compileBlocks 64 3 [0, 1, 2, 3, 4] progTwoMerges = .ok () s' ∧
      (s'.Blocks 2).PHINodes = [(Value.phi 3, 0)] ∧
      (s'.Blocks 2).PreviousBlocks.length = 2 ∧
      (s'.incomingOf (Value.phi 3)).length = 0 ∧
      (s'.Blocks 4).PHINodes = [(Value.phi 2, 0)] ∧
      s'.incomingOf (Value.phi 2) = [(Value.phi 3, 3), (Value.phi 3, 2)] ∧
      joinsFilled s' [0, 1, 2, 3, 4] = false) ∧
    (progLoopGenerated.Blocks 1).PHINodes = [(Value.phi 1, 0)] ∧
    (progLoopGenerated.Blocks 3).PHINodes = [(Value.phi 2, 1)] ∧
    loopDischarge ids = some false :=
  ⟨⟨_, rfl, rfl, rfl, rfl, rfl, rfl, rfl⟩, rfl, rfl,
    loopDischarge_all_orders ids (List.mem_permutations'.2 h)⟩

/-- C9, at a concrete order: the discharge of the loop function in the order of the block
keys. -/
theorem join_created_during_discharge_unfilled_witness :
    loopDischarge [0, 1, 2, 3, 4] = some false :=
  (join_created_during_discharge_unfilled [0, 1, 2, 3, 4] (List.Perm.refl _)).2.2.2

/-- C10 (failing input): in the handler-installing function block 0 owns the backend blocks
0 and 3 and control leaves it for block 1 from backend block 3, its last one; the accumulator
join `phi 6` of block 1 nevertheless receives the pair made of the accumulator of block 0 and
backend block 0, the first backend block of block 0. -/
theorem accu_join_pairs_first_backend_block :
    ∃ s', compileBlocks 64 3 [0, 1, 2] progTrap = .ok () s' ∧
      (s'.Blocks 1).PHINodes = [(Value.phi 6, -1)] ∧
      (s'.Blocks 1).PreviousBlocks = [0] ∧
      (s'.Blocks 0).LlvmBlocks = [0, 3] ∧
      s'.instsOf 3 = [.br 1] ∧
      (s'.Blocks 1).LlvmBlocks = [1] ∧
      s'.incomingOf (Value.phi 6) = [((s'.Blocks 0).Accu, front (s'.Blocks 0).LlvmBlocks)] ∧
      front (s'.Blocks 0).LlvmBlocks = 0 ∧
      back (s'.Blocks 0).LlvmBlocks = 3 :=
  ⟨_, rfl, rfl, rfl, rfl, rfl, rfl, rfl, rfl, rfl⟩

/-! ## Calls emitted by `makeApply` -/

theorem Emits.nil (s : GenFunction) : Emits s s [] := ⟨[], by simp, by simp⟩

theorem Emits.append {s s' s'' : GenFunction} {cs cs' : List Instr}
    (h : Emits s s' cs) (h' : Emits s' s'' cs') : Emits s s'' (cs ++ cs') := by
  obtain ⟨n1, e1, c1⟩ := h
  obtain ⟨n2, e2, c2⟩ := h'
  refine ⟨n1 ++ n2, ?_, ?_⟩
  · rw [e2, e1, List.append_assoc]
  · simp [c1, c2]

theorem Emits.calls_eq {s s' : GenFunction} {cs : List Instr} (h : Emits s s' cs) :
    emittedCalls s s' = cs := by
  obtain ⟨n1, e1, c1⟩ := h
  simp [Z3.emittedCalls, e1, c1]

theorem ReadFrame.refl (s : GenFunction) : ReadFrame s s :=
  ⟨Emits.nil s, fun _ => rfl, rfl⟩

theorem ReadFrame.trans {s s' s'' : GenFunction} (h : ReadFrame s s') (h' : ReadFrame s' s'') :
    ReadFrame s s'' :=
  ⟨by simpa using h.1.append h'.1, fun c => (h'.2.1 c).trans (h.2.1 c), h'.2.2.trans h.2.2⟩

/-- Sequencing keeps the frame when both steps keep it. -/
theorem ReadFrame.seq {α β : Type} (s : GenFunction) (r : Res α)
    (f : α → GenFunction → Res β) (h : ReadFrame s r.state)
    (hf : ∀ a s1, ReadFrame s1 (f a s1).state) : ReadFrame s (r.bind f).state := by
  cases r with
  | ok a s1 => exact h.trans (hf a s1)
  | err e s1 => exact h

theorem ReadFrame.setBlock_same_accu (s : GenFunction) (b : Nat) (B : GenBlock)
    (h : B.Accu = (s.Blocks b).Accu) : ReadFrame s (s.setBlock b B) := by
  refine ⟨⟨[], by simp, by simp⟩, fun c => ?_, rfl⟩
  by_cases hc : c = b
  · subst hc; simp [h]
  · simp [GenFunction.setBlock, hc]

/-- A stack read emits no call and changes no accumulator. -/
theorem getStackAt_frame (fuel : Nat) : ∀ (b n : Nat) (ig : Option Nat) (s : GenFunction),
    ReadFrame s (getStackAt fuel b n ig s).state := by
  induction fuel with
  | zero => intro b n ig s; exact ReadFrame.refl s
  | succ fuel ih =>
    intro b n ig s
    unfold getStackAt
    dsimp only
    apply ReadFrame.seq
    · repeat' split
      all_goals first
        | exact ReadFrame.refl s
        | (apply ReadFrame.seq
           · exact ih _ _ _ _
           · intro a s1
             exact ReadFrame.setBlock_same_accu s1 b _ rfl)
        | (refine ⟨⟨[_], rfl, by simp [Instr.isCall]⟩, fun c => ?_, rfl⟩
           by_cases hc : c = b
           · subst hc; simp [Res.state]
           · simp [Res.state, GenFunction.setBlock, hc])
    · intro a s1
      split
      · exact ReadFrame.refl s1
      · exact ReadFrame.refl s1

theorem stackPop_frame (fuel b : Nat) (s : GenFunction) :
    ReadFrame s (stackPop fuel b s).state := by
  unfold stackPop
  apply ReadFrame.seq
  · exact getStackAt_frame fuel b 0 none s
  · intro a s1
    split
    · exact ReadFrame.refl s1
    · exact ReadFrame.setBlock_same_accu s1 b _ rfl

theorem popN_frame (fuel b : Nat) : ∀ (k : Nat) (s : GenFunction),
    ReadFrame s (popN fuel b k s).state := by
  intro k
  induction k with
  | zero => intro s; exact ReadFrame.refl s
  | succ k ih =>
    intro s
    unfold popN
    apply ReadFrame.seq
    · exact stackPop_frame fuel b s
    · intro _ s1; exact ih s1

theorem applyArgs_frame (fuel b : Nat) : ∀ (k : Nat) (ArgsV : List Value) (s : GenFunction),
    ReadFrame s (applyArgs fuel b k ArgsV s).state := by
  intro k
  induction k with
  | zero => intro ArgsV s; exact ReadFrame.refl s
  | succ k ih =>
    intro ArgsV s
    unfold applyArgs
    apply ReadFrame.seq
    · exact getStackAt_frame fuel b k none s
    · intro v s1; exact ih _ s1

theorem applyArgs_length (fuel b : Nat) : ∀ (k : Nat) (ArgsV Args : List Value)
    (s s' : GenFunction), applyArgs fuel b k ArgsV s = .ok Args s' →
    Args.length = ArgsV.length + k := by
  intro k
  induction k with
  | zero =>
    intro ArgsV Args s s' h
    simp only [applyArgs, Res.ok.injEq] at h
    simp [← h.1]
  | succ k ih =>
    intro ArgsV Args s s' h
    unfold applyArgs at h
    cases hg : getStackAt fuel b k none s with
    | ok v s1 =>
      rw [hg] at h
      have := ih _ _ _ _ h
      simp at this
      omega
    | err e s1 =>
      rw [hg] at h
      simp [Res.bind] at h

theorem emitVal_frame (s : GenFunction) (mk : Nat → Value) : ReadFrame s (s.emitVal mk).2 :=
  ⟨⟨[_], rfl, by simp [Instr.isCall]⟩, fun _ => rfl, rfl⟩

theorem emit_store_frame (s : GenFunction) (v p : Value) : ReadFrame s (s.emit (.store v p)) :=
  ⟨⟨[_], rfl, by simp [Instr.isCall]⟩, fun _ => rfl, rfl⟩

theorem applyStores_frame (w fuel b n : Nat) (Array : Value) : ∀ (k : Nat) (s : GenFunction),
    ReadFrame s (applyStores w fuel b n Array k s).state := by
  intro k
  induction k with
  | zero => intro s; exact ReadFrame.refl s
  | succ k ih =>
    intro s
    simp only [applyStores]
    refine ReadFrame.trans (emitVal_frame s
      (fun id => Value.gep id Array (ConstInt w 0) (ConstInt w ((n - (k + 1) : Nat))))) ?_
    apply ReadFrame.seq
    · exact getStackAt_frame fuel b k none _
    · intro v s1
      exact (emit_store_frame s1 _ _).trans (ih _)

theorem makeCheckedCall_emits (b : Nat) (callee : Callee) (Args : List Value) (s : GenFunction) :
    Emits s (makeCheckedCall b callee Args s)
      [.call (.call s.NextId callee.retTy) callee Args] :=
  ⟨[_], rfl, by simp [Instr.isCall]⟩

theorem closureInfoOf_fst (A : Value) (s : GenFunction) :
    (closureInfoOf A s).1 = (mapFind A s.ClosuresFunctions).getD {} := by
  unfold closureInfoOf
  cases mapFind A s.ClosuresFunctions <;> rfl

theorem closureInfoOf_Insts (A : Value) (s : GenFunction) :
    (closureInfoOf A s).2.Insts = s.Insts := by
  unfold closureInfoOf
  cases mapFind A s.ClosuresFunctions <;> rfl

theorem closureInfoOf_Blocks (A : Value) (s : GenFunction) :
    (closureInfoOf A s).2.Blocks = s.Blocks := by
  unfold closureInfoOf
  cases mapFind A s.ClosuresFunctions <;> rfl

theorem Emits.of_Insts_eq {s s' : GenFunction} (h : s'.Insts = s.Insts) : Emits s s' [] :=
  ⟨[], by simp [h], by simp⟩

/-- The pops that end `makeApply` emit no call. -/
theorem Emits.bind_popN (fuel b n : Nat) (s0 : GenFunction) (called : Res Unit)
    (cs : List Instr) (h : Emits s0 called.state cs) :
    Emits s0 (called.bind fun _ s1 => popN fuel b n s1).state cs := by
  cases called with
  | ok a s1 => simpa using h.append (popN_frame fuel b n s1).1
  | err e s1 => exact h

/-- Calls of the direct branch of `makeApply`, pops included: none when an argument read
fails, else the one call of the native function on `n` arguments. -/
theorem applyDirect_emits (fuel b n : Nat) (f : LFunc) (s0 : GenFunction) :
    (Emits s0 ((applyDirect fuel b n f s0).bind fun _ s1 => popN fuel b n s1).state [] ∧
      ∀ s', ((applyDirect fuel b n f s0).bind fun _ s1 => popN fuel b n s1) ≠ .ok () s') ∨
    ∃ res args,
      Emits s0 ((applyDirect fuel b n f s0).bind fun _ s1 => popN fuel b n s1).state
        [.call res (.fn f) args] ∧ args.length = n := by
  unfold applyDirect
  cases hg : applyArgs fuel b n [] s0 with
  | ok ArgsV s1 =>
    right
    refine ⟨Value.call s1.NextId (Callee.fn f).retTy, ArgsV, ?_, ?_⟩
    · apply Emits.bind_popN
      have h1 : Emits s0 s1 [] := by
        have := (applyArgs_frame fuel b n [] s0).1
        rwa [hg] at this
      simpa [Res.bind, Res.state] using h1.append (makeCheckedCall_emits b (.fn f) ArgsV s1)
    · simpa using applyArgs_length fuel b n [] ArgsV s0 s1 hg
  | err e s1 =>
    left
    refine ⟨?_, ?_⟩
    · have := (applyArgs_frame fuel b n [] s0).1
      rw [hg] at this
      simpa [Res.bind, Res.state] using this
    · intro s' h
      simp [Res.bind] at h

/-- Calls of the trampoline branch of `makeApply`, pops included: none when an argument
read fails, else the one call of the runtime applier on the closure, the argument count and
the argument array. -/
theorem applyTrampoline_emits (w fuel b n : Nat) (s0 : GenFunction) :
    (Emits s0 ((applyTrampoline w fuel b n s0).bind fun _ s1 => popN fuel b n s1).state [] ∧
      ∀ s', ((applyTrampoline w fuel b n s0).bind fun _ s1 => popN fuel b n s1) ≠ .ok () s') ∨
    ∃ res arr,
      Emits s0 ((applyTrampoline w fuel b n s0).bind fun _ s1 => popN fuel b n s1).state
        [.call res (.rt .apply) [(s0.Blocks b).Accu, ConstInt w n, arr]] := by
  obtain ⟨Arr, s1, hE, h01⟩ : ∃ Arr s1,
      s0.emitVal (fun id => Value.alloca id n) = (Arr, s1) ∧ ReadFrame s0 s1 :=
    ⟨(s0.emitVal (fun id => Value.alloca id n)).1, (s0.emitVal (fun id => Value.alloca id n)).2,
      rfl, emitVal_frame s0 _⟩
  simp only [applyTrampoline, hE]
  cases hg : applyStores w fuel b n Arr n s1 with
  | ok u s2 =>
    right
    have h12 : ReadFrame s1 s2 := by
      have := applyStores_frame w fuel b n Arr n s1
      rwa [hg] at this
    obtain ⟨Ptr, s3, hP, h23⟩ : ∃ Ptr s3,
        s2.emitVal (fun id => Value.cast id .pointerCast Arr) = (Ptr, s3) ∧ ReadFrame s2 s3 :=
      ⟨(s2.emitVal (fun id => Value.cast id .pointerCast Arr)).1,
        (s2.emitVal (fun id => Value.cast id .pointerCast Arr)).2, rfl, emitVal_frame s2 _⟩
    have h03 := (h01.trans h12).trans h23
    simp only [Res.bind, hP]
    refine ⟨Value.call s3.NextId (Callee.rt .apply).retTy, Ptr, ?_⟩
    rw [h03.2.1 b]
    have hc := makeCheckedCall_emits b (.rt .apply) [(s0.Blocks b).Accu, ConstInt w n, Ptr] s3
    simpa using (h03.1.append hc).append (popN_frame fuel b n _).1
  | err e s2 =>
    left
    refine ⟨?_, ?_⟩
    · have := (h01.trans (applyStores_frame w fuel b n Arr n s1)).1
      rw [hg] at this
      simpa [Res.bind, Res.state] using this
    · intro s' h
      simp [Res.bind] at h

/-- Calls emitted by `makeApply`: none, and then it fails; or exactly one, which is the
direct call when the closure is bare with arity `n` and the applier call otherwise. -/
theorem makeApply_emits (w fuel b n : Nat) (s : GenFunction) :
    (Emits s (makeApply w fuel b n s).state [] ∧ ∀ s', makeApply w fuel b n s ≠ .ok () s') ∨
    (∃ res f args, Emits s (makeApply w fuel b n s).state [.call res (.fn f) args] ∧
      ((mapFind (s.Blocks b).Accu s.ClosuresFunctions).getD {}).IsBare = true ∧
      ((mapFind (s.Blocks b).Accu s.ClosuresFunctions).getD {}).LlvmFunc = some f ∧
      f.argSize = n ∧ args.length = n) ∨
    (∃ res arr, Emits s (makeApply w fuel b n s).state
        [.call res (.rt .apply) [(s.Blocks b).Accu, ConstInt w n, arr]] ∧
      ¬ (((mapFind (s.Blocks b).Accu s.ClosuresFunctions).getD {}).IsBare = true ∧
        ∃ f, ((mapFind (s.Blocks b).Accu s.ClosuresFunctions).getD {}).LlvmFunc = some f ∧
          f.argSize = n)) := by
  have hCI := closureInfoOf_fst (s.Blocks b).Accu s
  have hI := closureInfoOf_Insts (s.Blocks b).Accu s
  have hB := closureInfoOf_Blocks (s.Blocks b).Accu s
  have h0 : Emits s (closureInfoOf (s.Blocks b).Accu s).2 [] := Emits.of_Insts_eq hI
  simp only [makeApply]
  rw [← hCI]
  generalize (closureInfoOf (s.Blocks b).Accu s).1 = CI
  generalize (closureInfoOf (s.Blocks b).Accu s).2 = s0 at h0 hB
  obtain ⟨lf, bare⟩ := CI
  have tramp : ∀ (P : Prop), ¬ P →
      (Emits s ((applyTrampoline w fuel b n s0).bind fun _ s1 => popN fuel b n s1).state [] ∧
        ∀ s', ((applyTrampoline w fuel b n s0).bind fun _ s1 => popN fuel b n s1) ≠ .ok () s') ∨
      (∃ res f args,
        Emits s ((applyTrampoline w fuel b n s0).bind fun _ s1 => popN fuel b n s1).state
          [.call res (.fn f) args] ∧
        bare = true ∧ lf = some f ∧ f.argSize = n ∧ args.length = n) ∨
      (∃ res arr,
        Emits s ((applyTrampoline w fuel b n s0).bind fun _ s1 => popN fuel b n s1).state
          [.call res (.rt .apply) [(s.Blocks b).Accu, ConstInt w n, arr]] ∧ ¬ P) := by
    intro P hnot
    rcases applyTrampoline_emits w fuel b n s0 with ⟨he, hne⟩ | ⟨res, arr, he⟩
    · exact Or.inl ⟨by simpa using h0.append he, hne⟩
    · refine Or.inr (Or.inr ⟨res, arr, ?_, hnot⟩)
      rw [hB] at he
      simpa using h0.append he
  cases bare with
  | false =>
    exact tramp _ (by simp)
  | true =>
    cases lf with
    | none =>
      left
      exact ⟨by simpa [Res.bind, Res.state] using h0, by intro s' h; simp [Res.bind] at h⟩
    | some f =>
      by_cases hn : f.argSize = n
      · simp only [hn, if_true]
        rcases applyDirect_emits fuel b n f s0 with ⟨he, hne⟩ | ⟨res, args, he, hl⟩
        · exact Or.inl ⟨by simpa using h0.append he, hne⟩
        · refine Or.inr (Or.inl ⟨res, f, args, by simpa using h0.append he, ?_, ?_, hn, hl⟩)
          · trivial
          · rfl
      · have := tramp (true = true ∧ ∃ g, some f = some g ∧ g.argSize = n) (by
          rintro ⟨_, g, hg, hgn⟩
          cases hg
          exact hn hgn)
        simpa [hn] using this

/-! ## Success of `makeApply` on the local stack -/

theorem Readable.of_eq {fuel b : Nat} {s s' : GenFunction}
    (hS : (s'.Blocks b).Stack = (s.Blocks b).Stack)
    (hM : (s'.Blocks b).MutatedVals = (s.Blocks b).MutatedVals) (h : Readable fuel b s) :
    Readable fuel b s' := by
  intro v hv
  rw [hS] at hv
  rw [hM]
  exact h v hv

theorem getStackAt_local_ok (fuel b k : Nat) (ig : Option Nat) (s : GenFunction)
    (hk : k < (s.Blocks b).Stack.length) (hr : Readable fuel b s) :
    ∃ t, getStackAt (fuel + 1) b k ig s = .ok t s := by
  rw [getStackAt_local fuel b k ig s hk]
  have hmem : (s.Blocks b).Stack.getD k .null ∈ (s.Blocks b).Stack := by
    rw [List.getD_eq_getElem _ _ hk]
    exact List.getElem_mem hk
  obtain ⟨t, ht⟩ := hr _ hmem
  exact ⟨t, by rw [ht]⟩

theorem applyArgs_local (fuel b : Nat) (s : GenFunction) (hr : Readable fuel b s) :
    ∀ (k : Nat) (ArgsV : List Value), k ≤ (s.Blocks b).Stack.length →
      ∃ Args, applyArgs (fuel + 1) b k ArgsV s = .ok Args s := by
  intro k
  induction k with
  | zero => intro ArgsV _; exact ⟨ArgsV, rfl⟩
  | succ k ih =>
    intro ArgsV hk
    obtain ⟨t, ht⟩ := getStackAt_local_ok fuel b k none s (by omega) hr
    obtain ⟨Args, hA⟩ := ih (ArgsV ++ [t]) (by omega)
    exact ⟨Args, by simp only [applyArgs, ht, Res.bind, hA]⟩

theorem applyStores_local (w fuel b n : Nat) (Array : Value) :
    ∀ (k : Nat) (s : GenFunction), k ≤ (s.Blocks b).Stack.length → Readable fuel b s →
      ∃ s', applyStores w (fuel + 1) b n Array k s = .ok () s' ∧ s'.Blocks = s.Blocks := by
  intro k
  induction k with
  | zero => intro s _ _; exact ⟨s, rfl, rfl⟩
  | succ k ih =>
    intro s hk hr
    obtain ⟨Ptr, s1, hE, hB1⟩ : ∃ Ptr s1,
        s.emitVal (fun id => Value.gep id Array (ConstInt w 0) (ConstInt w ((n - (k + 1) : Nat))))
          = (Ptr, s1) ∧ s1.Blocks = s.Blocks := ⟨_, _, rfl, rfl⟩
    have hr1 : Readable fuel b s1 := Readable.of_eq (by rw [hB1]) (by rw [hB1]) hr
    obtain ⟨t, ht⟩ := getStackAt_local_ok fuel b k none s1 (by rw [hB1]; omega) hr1
    obtain ⟨s', hs', hB'⟩ := ih (s1.emit (.store t Ptr))
      (by show k ≤ (s1.Blocks b).Stack.length; rw [hB1]; omega)
      (@Readable.of_eq fuel b s1 _ rfl rfl hr1)
    refine ⟨s', ?_, ?_⟩
    · simp only [applyStores, hE, ht, Res.bind, hs']
    · rw [hB']; exact hB1

theorem popN_local (fuel b : Nat) : ∀ (k : Nat) (s : GenFunction),
    k ≤ (s.Blocks b).Stack.length → Readable fuel b s →
      ∃ s', popN (fuel + 1) b k s = .ok () s' ∧
        (s'.Blocks b).Stack = (s.Blocks b).Stack.drop k := by
  intro k
  induction k with
  | zero => intro s _ _; exact ⟨s, rfl, by simp⟩
  | succ k ih =>
    intro s hk hr
    match hS : (s.Blocks b).Stack, hk with
    | [], hk => simp at hk
    | v :: rest, hk =>
      obtain ⟨t, ht⟩ := hr v (by rw [hS]; simp)
      have hpop := stackPop_cons fuel b s v t rest hS ht
      have hr1 : Readable fuel b (s.setBlock b { s.Blocks b with Stack := rest }) := by
        intro u hu
        simp only [setBlock_Blocks_self] at hu ⊢
        exact hr u (by rw [hS]; exact List.mem_cons_of_mem _ hu)
      obtain ⟨s', hs', hd⟩ := ih (s.setBlock b { s.Blocks b with Stack := rest })
        (by simp only [setBlock_Blocks_self]; simp at hk; omega) hr1
      refine ⟨s', ?_, ?_⟩
      · simp only [popN, hpop, Res.bind, hs']
      · rw [hd]; simp

theorem makeCheckedCall_Stack (b : Nat) (callee : Callee) (Args : List Value) (s : GenFunction) :
    ((makeCheckedCall b callee Args s).Blocks b).Stack = (s.Blocks b).Stack ∧
    ((makeCheckedCall b callee Args s).Blocks b).MutatedVals = (s.Blocks b).MutatedVals := by
  simp [makeCheckedCall, CreateCall, setAccu]

/-- On a local stack of at least `n` readable entries `makeApply(n)` succeeds and removes the
top `n` entries, unless the closure is recorded as bare without a native function. -/
theorem makeApply_ok (w fuel b n : Nat) (s : GenFunction)
    (hn : n ≤ (s.Blocks b).Stack.length) (hr : Readable fuel b s)
    (hnull : ((mapFind (s.Blocks b).Accu s.ClosuresFunctions).getD {}).IsBare = true →
      ((mapFind (s.Blocks b).Accu s.ClosuresFunctions).getD {}).LlvmFunc ≠ none) :
    ∃ s', makeApply w (fuel + 1) b n s = .ok () s' ∧
      (s'.Blocks b).Stack = (s.Blocks b).Stack.drop n := by
  have hCI := closureInfoOf_fst (s.Blocks b).Accu s
  have hB := closureInfoOf_Blocks (s.Blocks b).Accu s
  rw [← hCI] at hnull
  simp only [makeApply]
  generalize (closureInfoOf (s.Blocks b).Accu s).1 = CI at hnull
  generalize (closureInfoOf (s.Blocks b).Accu s).2 = s0 at hB
  have hr0 : Readable fuel b s0 := Readable.of_eq (by rw [hB]) (by rw [hB]) hr
  have hn0 : n ≤ (s0.Blocks b).Stack.length := by rw [hB]; exact hn
  have after : ∀ (callee : Callee) (Args : List Value) (s3 : GenFunction),
      s3.Blocks = s0.Blocks →
      ∃ s', popN (fuel + 1) b n (makeCheckedCall b callee Args s3) = .ok () s' ∧
        (s'.Blocks b).Stack = (s.Blocks b).Stack.drop n := by
    intro callee Args s3 h3
    have hS := makeCheckedCall_Stack b callee Args s3
    rw [h3] at hS
    obtain ⟨s', hs', hd⟩ := popN_local fuel b n (makeCheckedCall b callee Args s3)
      (by rw [hS.1]; exact hn0) (Readable.of_eq hS.1 hS.2 hr0)
    exact ⟨s', hs', by rw [hd, hS.1, hB]⟩
  have tramp : ∃ s', ((applyTrampoline w (fuel + 1) b n s0).bind
      fun _ s1 => popN (fuel + 1) b n s1) = .ok () s' ∧
        (s'.Blocks b).Stack = (s.Blocks b).Stack.drop n := by
    obtain ⟨Arr, s1, hE, hB1⟩ : ∃ Arr s1,
        s0.emitVal (fun id => Value.alloca id n) = (Arr, s1) ∧ s1.Blocks = s0.Blocks :=
      ⟨_, _, rfl, rfl⟩
    obtain ⟨s2, hs2, hB2⟩ := applyStores_local w fuel b n Arr n s1 (by rw [hB1]; exact hn0)
      (Readable.of_eq (by rw [hB1]) (by rw [hB1]) hr0)
    obtain ⟨Ptr, s3, hP, hB3⟩ : ∃ Ptr s3,
        s2.emitVal (fun id => Value.cast id .pointerCast Arr) = (Ptr, s3) ∧ s3.Blocks = s2.Blocks :=
      ⟨_, _, rfl, rfl⟩
    obtain ⟨s', hs', hd⟩ := after (.rt .apply) [(s3.Blocks b).Accu, ConstInt w n, Ptr] s3
      (by rw [hB3, hB2, hB1])
    exact ⟨s', by simp only [applyTrampoline, hE, hs2, Res.bind, hP, hs'], hd⟩
  obtain ⟨lf, bare⟩ := CI
  cases bare with
  | false => simpa using tramp
  | true =>
    cases lf with
    | none => exact absurd rfl (hnull rfl)
    | some f =>
      by_cases hf : f.argSize = n
      · obtain ⟨Args, hA⟩ := applyArgs_local fuel b s0 hr0 n [] hn0
        obtain ⟨s', hs', hd⟩ := after (.fn f) Args s0 rfl
        exact ⟨s', by simp only [hf, if_true, applyDirect, hA, Res.bind, hs'], hd⟩
      · simpa [hf] using tramp

/-- C7: for every `n` and every state, with `CI` the entry of the closure table for the
accumulator (a default-constructed one when nothing is recorded): a call of a native
function emitted by `makeApply(n)` is a call of `CI.LlvmFunc`, on `n` arguments, and it is
emitted only when `CI` is bare and that function has exactly `n` parameters; when
`makeApply(n)` completes it has emitted exactly one call, the direct one in that case and in
every other case, a missing entry included, the call of the runtime applier on the closure,
the constant `n` and the argument array; and it completes whenever the local stack holds `n`
readable entries and `CI` is not a bare entry without a function. -/
theorem makeApply_direct_only_when_bare (w fuel b n : Nat) (s : GenFunction) :
    (∀ res f args,
      Instr.call res (.fn f) args ∈ emittedCalls s (makeApply w fuel b n s).state →
        ((mapFind (s.Blocks b).Accu s.ClosuresFunctions).getD {}).IsBare = true ∧
        ((mapFind (s.Blocks b).Accu s.ClosuresFunctions).getD {}).LlvmFunc = some f ∧
        f.argSize = n ∧ args.length = n) ∧
    (∀ s', makeApply w fuel b n s = .ok () s' →
      (((mapFind (s.Blocks b).Accu s.ClosuresFunctions).getD {}).IsBare = true ∧
        ∃ f, ((mapFind (s.Blocks b).Accu s.ClosuresFunctions).getD {}).LlvmFunc = some f ∧
          f.argSize = n) →
      ∃ res f args, emittedCalls s s' = [.call res (.fn f) args] ∧
        ((mapFind (s.Blocks b).Accu s.ClosuresFunctions).getD {}).LlvmFunc = some f ∧
        args.length = n) ∧
    (∀ s', makeApply w fuel b n s = .ok () s' →
      ¬ (((mapFind (s.Blocks b).Accu s.ClosuresFunctions).getD {}).IsBare = true ∧
        ∃ f, ((mapFind (s.Blocks b).Accu s.ClosuresFunctions).getD {}).LlvmFunc = some f ∧
          f.argSize = n) →
      ∃ res arr,
        emittedCalls s s' = [.call res (.rt .apply) [(s.Blocks b).Accu, ConstInt w n, arr]]) ∧
    (∀ s', makeApply w fuel b n s = .ok () s' →
      mapFind (s.Blocks b).Accu s.ClosuresFunctions = none →
      ∃ res arr,
        emittedCalls s s' = [.call res (.rt .apply) [(s.Blocks b).Accu, ConstInt w n, arr]]) ∧
    (∀ fuel0, n ≤ (s.Blocks b).Stack.length → Readable fuel0 b s →
      (((mapFind (s.Blocks b).Accu s.ClosuresFunctions).getD {}).IsBare = true →
        ((mapFind (s.Blocks b).Accu s.ClosuresFunctions).getD {}).LlvmFunc ≠ none) →
      ∃ s', makeApply w (fuel0 + 1) b n s = .ok () s') := by
  have key := makeApply_emits w fuel b n s
  have applier : ∀ s', makeApply w fuel b n s = .ok () s' →
      ¬ (((mapFind (s.Blocks b).Accu s.ClosuresFunctions).getD {}).IsBare = true ∧
        ∃ f, ((mapFind (s.Blocks b).Accu s.ClosuresFunctions).getD {}).LlvmFunc = some f ∧
          f.argSize = n) →
      ∃ res arr,
        emittedCalls s s' = [.call res (.rt .apply) [(s.Blocks b).Accu, ConstInt w n, arr]] := by
    intro s' hok hnot
    rcases key with ⟨_, hne⟩ | ⟨res, f, args, _, hb, hf, hn, _⟩ | ⟨res, arr, he, _⟩
    · exact absurd hok (hne s')
    · exact absurd ⟨hb, f, hf, hn⟩ hnot
    · rw [hok] at he
      exact ⟨res, arr, he.calls_eq⟩
  refine ⟨?_, ?_, applier, ?_, ?_⟩
  · intro res f args hmem
    rcases key with ⟨he, _⟩ | ⟨res', f', args', he, hb, hf, hn, hl⟩ | ⟨res', arr, he, _⟩
    · rw [he.calls_eq] at hmem
      simp at hmem
    · rw [he.calls_eq] at hmem
      simp only [List.mem_singleton, Instr.call.injEq, Callee.fn.injEq] at hmem
      obtain ⟨_, hff, ha⟩ := hmem
      subst hff
      subst ha
      exact ⟨hb, hf, hn, hl⟩
    · rw [he.calls_eq] at hmem
      simp at hmem
  · intro s' hok hcond
    rcases key with ⟨_, hne⟩ | ⟨res, f, args, he, _, hf, _, hl⟩ | ⟨_, _, _, hnot⟩
    · exact absurd hok (hne s')
    · rw [hok] at he
      exact ⟨res, f, args, he.calls_eq, hf, hl⟩
    · exact absurd hcond hnot
  · intro s' hok hnone
    apply applier s' hok
    rw [hnone]
    simp
  · intro fuel0 hn hr hnull
    obtain ⟨s', hs', _⟩ := makeApply_ok w fuel0 b n s hn hr hnull
    exact ⟨s', hs'⟩

/-- C7, at a concrete state: `makeApply(1)` on a 64-bit machine with an accumulator that has
no recorded `ClosureInfo` and one stack entry. -/
theorem makeApply_direct_only_when_bare_witness :
    ∃ res arr,
      emittedCalls (blockWith (.const 1) [.const 3])
          (makeApply 64 1 0 1 (blockWith (.const 1) [.const 3])).state =
        [.call res (.rt .apply)
          [((blockWith (.const 1) [.const 3]).Blocks 0).Accu, ConstInt 64 (1 : Nat), arr]] :=
  (makeApply_direct_only_when_bare 64 1 0 1 (blockWith (.const 1) [.const 3])).2.2.2.1
    (makeApply 64 1 0 1 (blockWith (.const 1) [.const 3])).state rfl rfl

/-! ## The previous-stack cache is never overwritten -/

theorem cacheKept_refl (s : GenFunction) : CacheKept s s := fun _ _ _ h => h

theorem cacheKept_trans {s s' s'' : GenFunction} (h : CacheKept s s') (h' : CacheKept s' s'') :
    CacheKept s s'' := fun b d c hc => h' b d c (h b d c hc)

theorem cacheKept_of_eq (s s' : GenFunction)
    (h : ∀ c, (s'.Blocks c).PrevStackCache = (s.Blocks c).PrevStackCache) : CacheKept s s' := by
  intro b d c hc
  rw [h b]
  exact hc

theorem cacheKept_seq {α β : Type} (s : GenFunction) (r : Res α)
    (f : α → GenFunction → Res β) (h : CacheKept s r.state)
    (hf : ∀ a s1, CacheKept s1 (f a s1).state) : CacheKept s (r.bind f).state := by
  cases r with
  | ok a s1 => exact cacheKept_trans h (hf a s1)
  | err e s1 => exact h

theorem setBlock_cache (s : GenFunction) (b c : Nat) (B : GenBlock)
    (h : B.PrevStackCache = (s.Blocks b).PrevStackCache) :
    ((s.setBlock b B).Blocks c).PrevStackCache = (s.Blocks c).PrevStackCache := by
  by_cases hc : c = b
  · subst hc; simp [h]
  · simp [GenFunction.setBlock, hc]

theorem mapFind_filter_ne {κ β : Type} [DecidableEq κ] (k k' : κ) (m : List (κ × β))
    (h : k' ≠ k) : mapFind k (m.filter (fun p => decide (p.1 ≠ k'))) = mapFind k m := by
  induction m with
  | nil => rfl
  | cons p m ih =>
    obtain ⟨a, c⟩ := p
    by_cases hp : a = k'
    · have hk : ¬ a = k := by rw [hp]; exact h
      have hf : ((a, c) :: m).filter (fun p => decide (p.1 ≠ k'))
          = m.filter (fun p => decide (p.1 ≠ k')) :=
        List.filter_cons_of_neg (by simp [hp])
      rw [hf, ih]
      simp only [mapFind]
      rw [if_neg hk]
    · have hf : ((a, c) :: m).filter (fun p => decide (p.1 ≠ k'))
          = (a, c) :: m.filter (fun p => decide (p.1 ≠ k')) :=
        List.filter_cons_of_pos (by simp [hp])
      rw [hf]
      simp only [mapFind, ih]

theorem mapFind_mapSet_of_ne {κ β : Type} [DecidableEq κ] (k k' : κ) (v : β)
    (m : List (κ × β)) (h : k' ≠ k) : mapFind k (mapSet k' v m) = mapFind k m := by
  unfold mapSet
  simp only [mapFind]
  rw [if_neg h]
  exact mapFind_filter_ne k k' m h

/-- Writing a cache entry of block `b` at a depth that was free keeps all the entries that a
state `s` before it had, when the state written to keeps them. -/
theorem cacheKept_mapSet (s s1 : GenFunction) (b : Nat) (d : Int) (r : Value) (B : GenBlock)
    (hfree : mapFind d (s.Blocks b).PrevStackCache = none) (h : CacheKept s s1)
    (hB : B.PrevStackCache = mapSet d r (s1.Blocks b).PrevStackCache) :
    CacheKept s (s1.setBlock b B) := by
  intro b2 d2 c hc
  by_cases hb : b2 = b
  · subst hb
    have hd : d ≠ d2 := by
      intro hdd
      rw [hdd, hc] at hfree
      cases hfree
    simp only [setBlock_Blocks_self, hB]
    rw [mapFind_mapSet_of_ne d2 d r _ hd]
    exact h b2 d2 c hc
  · simp only [GenFunction.setBlock, hb, if_false]
    exact h b2 d2 c hc

theorem getStackAt_cacheKept (fuel : Nat) : ∀ (b n : Nat) (ig : Option Nat) (s : GenFunction),
    CacheKept s (getStackAt fuel b n ig s).state := by
  induction fuel with
  | zero => intro b n ig s; exact cacheKept_refl s
  | succ fuel ih =>
    intro b n ig s
    unfold getStackAt
    dsimp only
    apply cacheKept_seq
    · by_cases hn : (s.Blocks b).Stack.length ≤ n
      · simp only [hn, if_true]
        cases hc : mapFind (((n - (s.Blocks b).Stack.length : Nat) : Int))
            (s.Blocks b).PrevStackCache with
        | some r => exact cacheKept_refl s
        | none =>
          dsimp only
          split
          · exact cacheKept_refl s
          · rename_i p _
            cases hr : getStackAt fuel p (n - (s.Blocks b).Stack.length) none s with
            | ok r s1 =>
              have h1 : CacheKept s s1 := by
                have := ih p (n - (s.Blocks b).Stack.length) none s
                rwa [hr] at this
              exact cacheKept_mapSet s s1 b _ r _ hc h1 rfl
            | err e s1 =>
              have := ih p (n - (s.Blocks b).Stack.length) none s
              rwa [hr] at this
          · exact cacheKept_mapSet s _ b _ _ _ hc (cacheKept_of_eq s _ (fun _ => rfl)) rfl
      · simp only [hn, if_false]
        exact cacheKept_refl s
    · intro a s1
      split
      · exact cacheKept_refl s1
      · exact cacheKept_refl s1

@[simp] theorem CreateCall_Blocks (callee : Callee) (args : List Value) (s : GenFunction) :
    (CreateCall callee args s).2.Blocks = s.Blocks := rfl

@[simp] theorem CreateICmp_Blocks (p : Pred) (a c : Value) (s : GenFunction) :
    (CreateICmp p a c s).2.Blocks = s.Blocks := rfl

@[simp] theorem emit_Blocks (s : GenFunction) (i : Instr) : (s.emit i).Blocks = s.Blocks := rfl

@[simp] theorem SetInsertPoint_Blocks (bb : BBId) (s : GenFunction) :
    (SetInsertPoint bb s).Blocks = s.Blocks := rfl

@[simp] theorem CreateIntCastI1_Blocks (V : Value) (s : GenFunction) :
    (CreateIntCastI1 V s).2.Blocks = s.Blocks := by
  unfold CreateIntCastI1
  split <;> rfl

@[simp] theorem setAccu_cache (b : Nat) (v : Value) (s : GenFunction) (c : Nat) :
    ((setAccu b v s).Blocks c).PrevStackCache = (s.Blocks c).PrevStackCache :=
  setBlock_cache s b c _ rfl

@[simp] theorem push_cache (b : Nat) (p : Bool) (s : GenFunction) (c : Nat) :
    ((push b p s).Blocks c).PrevStackCache = (s.Blocks c).PrevStackCache := by
  unfold push
  dsimp only
  split
  · exact setBlock_cache _ b c _ rfl
  · exact setBlock_cache s b c _ rfl

@[simp] theorem addBlock_cache (b : Nat) (s : GenFunction) (c : Nat) :
    (((addBlock b s).2).Blocks c).PrevStackCache = (s.Blocks c).PrevStackCache :=
  setBlock_cache _ b c _ rfl

@[simp] theorem castToInt_cache (v : Value) (s : GenFunction) (c : Nat) :
    (((castToInt v s).2).Blocks c).PrevStackCache = (s.Blocks c).PrevStackCache := by
  rw [castToInt_Blocks]

@[simp] theorem makeCheckedCall_cache (b : Nat) (callee : Callee) (Args : List Value)
    (s : GenFunction) (c : Nat) :
    ((makeCheckedCall b callee Args s).Blocks c).PrevStackCache = (s.Blocks c).PrevStackCache := by
  simp [makeCheckedCall]

@[simp] theorem setConst_cache (w b : Nat) (n : Int) (s : GenFunction) (c : Nat) :
    ((setConst w b n s).Blocks c).PrevStackCache = (s.Blocks c).PrevStackCache := by
  simp [setConst]

@[simp] theorem callToAccu_cache (b : Nat) (f : RtFn) (args : List Value) (s : GenFunction)
    (c : Nat) :
    ((callToAccu b f args s).Blocks c).PrevStackCache = (s.Blocks c).PrevStackCache := by
  simp [callToAccu]

@[simp] theorem createRetAccu_cache (b : Nat) (s : GenFunction) (c : Nat) :
    ((createRetAccu b s).Blocks c).PrevStackCache = (s.Blocks c).PrevStackCache := by
  simp [createRetAccu]

@[simp] theorem envAcc_cache (w b : Nat) (n : Int) (s : GenFunction) (c : Nat) :
    ((envAcc w b n s).Blocks c).PrevStackCache = (s.Blocks c).PrevStackCache := by
  simp [envAcc]

@[simp] theorem makeGetField_cache (w b : Nat) (n : Int) (s : GenFunction) (c : Nat) :
    ((makeGetField w b n s).Blocks c).PrevStackCache = (s.Blocks c).PrevStackCache := by
  simp [makeGetField]

theorem stackPop_cacheKept (fuel b : Nat) (s : GenFunction) :
    CacheKept s (stackPop fuel b s).state := by
  unfold stackPop
  apply cacheKept_seq
  · exact getStackAt_cacheKept fuel b 0 none s
  · intro a s1
    split
    · exact cacheKept_refl s1
    · exact cacheKept_of_eq _ _ (fun c => setBlock_cache s1 b c _ rfl)

theorem popN_cacheKept (fuel b : Nat) : ∀ (k : Nat) (s : GenFunction),
    CacheKept s (popN fuel b k s).state := by
  intro k
  induction k with
  | zero => intro s; exact cacheKept_refl s
  | succ k ih =>
    intro s
    unfold popN
    exact cacheKept_seq _ _ _ (stackPop_cacheKept fuel b s) (fun _ s1 => ih s1)

theorem acc_cacheKept (fuel b n : Nat) (s : GenFunction) :
    CacheKept s (acc fuel b n s).state := by
  unfold acc
  exact cacheKept_seq _ _ _ (getStackAt_cacheKept fuel b n none s)
    (fun v s1 => cacheKept_of_eq _ _ (fun c => by simp [Res.state]))

theorem pushAcc_cacheKept (fuel b n : Nat) (s : GenFunction) :
    CacheKept s (pushAcc fuel b n s).state := by
  unfold pushAcc
  exact cacheKept_trans (cacheKept_of_eq _ _ (fun c => by simp)) (acc_cacheKept fuel b n _)

theorem applyArgs_cacheKept (fuel b : Nat) : ∀ (k : Nat) (ArgsV : List Value) (s : GenFunction),
    CacheKept s (applyArgs fuel b k ArgsV s).state := by
  intro k
  induction k with
  | zero => intro ArgsV s; exact cacheKept_refl s
  | succ k ih =>
    intro ArgsV s
    unfold applyArgs
    exact cacheKept_seq _ _ _ (getStackAt_cacheKept fuel b k none s) (fun v s1 => ih _ s1)

theorem applyStores_cacheKept (w fuel b n : Nat) (Array : Value) :
    ∀ (k : Nat) (s : GenFunction), CacheKept s (applyStores w fuel b n Array k s).state := by
  intro k
  induction k with
  | zero => intro s; exact cacheKept_refl s
  | succ k ih =>
    intro s
    simp only [applyStores]
    refine @cacheKept_trans _ ((s.emitVal
      (fun id => Value.gep id Array (ConstInt w 0) (ConstInt w ((n - (k + 1) : Nat))))).2) _
      (cacheKept_of_eq _ _ (fun c => rfl)) ?_
    apply cacheKept_seq
    · exact getStackAt_cacheKept fuel b k none _
    · intro v s1
      exact @cacheKept_trans _ (s1.emit (.store v _)) _ (cacheKept_of_eq _ _ (fun c => rfl)) (ih _)

theorem popArgs_cacheKept (fuel b : Nat) : ∀ (k : Nat) (Args : List Value) (s : GenFunction),
    CacheKept s (popArgs fuel b k Args s).state := by
  intro k
  induction k with
  | zero => intro Args s; exact cacheKept_refl s
  | succ k ih =>
    intro Args s
    unfold popArgs
    exact cacheKept_seq _ _ _ (stackPop_cacheKept fuel b s) (fun v s1 => ih _ s1)

theorem closureFields_cacheKept (w fuel b : Nat) (Closure : Value) (NbFields : Nat) :
    ∀ (k : Nat) (s : GenFunction),
      CacheKept s (closureFields w fuel b Closure NbFields k s).state := by
  intro k
  induction k with
  | zero => intro s; exact cacheKept_refl s
  | succ k ih =>
    intro s
    unfold closureFields
    apply cacheKept_seq
    · exact stackPop_cacheKept fuel b s
    · intro v s1
      exact cacheKept_trans (cacheKept_of_eq s1 (CreateCall (.rt .closureSetVar)
        [Closure, ConstInt w ((NbFields - (k + 1) : Nat)), v] s1).2 (fun c => rfl)) (ih _)

theorem makeApply_cacheKept (w fuel b n : Nat) (s : GenFunction) :
    CacheKept s (makeApply w fuel b n s).state := by
  have h0 : CacheKept s (closureInfoOf (s.Blocks b).Accu s).2 :=
    cacheKept_of_eq _ _ (fun c => by rw [closureInfoOf_Blocks])
  simp only [makeApply]
  generalize (closureInfoOf (s.Blocks b).Accu s).1 = CI
  generalize (closureInfoOf (s.Blocks b).Accu s).2 = s0 at h0
  have tramp : CacheKept s0 (applyTrampoline w fuel b n s0).state := by
    simp only [applyTrampoline]
    refine @cacheKept_trans _ ((s0.emitVal (fun id => Value.alloca id n)).2) _
      (cacheKept_of_eq _ _ (fun c => rfl)) ?_
    apply cacheKept_seq
    · exact applyStores_cacheKept w fuel b n _ n _
    · intro _ s2
      exact cacheKept_of_eq _ _ (fun c => by simp [Res.state])
  have direct : ∀ f, CacheKept s0 (applyDirect fuel b n f s0).state := by
    intro f
    unfold applyDirect
    exact cacheKept_seq _ _ _ (applyArgs_cacheKept fuel b n [] s0)
      (fun _ s1 => cacheKept_of_eq _ _ (fun c => by simp [Res.state]))
  apply cacheKept_trans h0
  apply cacheKept_seq
  · split
    · split
      · exact cacheKept_refl s0
      · split
        · exact direct _
        · exact tramp
    · exact tramp
  · intro _ s1
    exact popN_cacheKept fuel b n s1

theorem makePrimCall_cacheKept (w fuel b n : Nat) (NumPrim : Int) (s : GenFunction) :
    CacheKept s (makePrimCall w fuel b n NumPrim s).state := by
  unfold makePrimCall
  split
  · exact cacheKept_seq _ _ _ (popArgs_cacheKept fuel b _ _ s)
      (fun _ s1 => cacheKept_of_eq _ _ (fun c => by simp [Res.state]))
  · exact cacheKept_of_eq _ _ (fun c => by simp [Res.state])

theorem makeClosure_cacheKept (w fuel b : Nat) (NbFields FnId : Int) (s : GenFunction) :
    CacheKept s (makeClosure w fuel b NbFields FnId s).state := by
  simp only [makeClosure]
  refine @cacheKept_trans _ (if 0 < NbFields then push b true _ else _) _ ?_
    (cacheKept_seq _ _ _ (closureFields_cacheKept w fuel b _ _ _ _)
      (fun _ s4 => cacheKept_of_eq _ _ (fun c => by simp [Res.state])))
  apply cacheKept_of_eq
  intro c
  split <;> simp [SetInsertPoint, GenFunction.emitVal, CreateCall]

theorem makeSetField_cacheKept (w fuel b : Nat) (n : Int) (s : GenFunction) :
    CacheKept s (makeSetField w fuel b n s).state := by
  unfold makeSetField
  exact cacheKept_seq _ _ _ (stackPop_cacheKept fuel b s)
    (fun _ s1 => cacheKept_of_eq _ _ (fun c => by simp [Res.state]))

theorem makebr_cacheKept (b : Nat) (TmpVal : Value) (s : GenFunction) :
    CacheKept s (makebr b TmpVal s).state := by
  unfold makebr
  split
  · exact cacheKept_of_eq _ _ (fun c => by simp [Res.state])
  · exact cacheKept_refl s

theorem cmpBranch_cacheKept (w b : Nat) (p : Pred) (I : ZInstruction) (s : GenFunction) :
    CacheKept s (cmpBranch w b p I s).state := by
  simp only [cmpBranch]
  exact @cacheKept_trans _ ((CreateICmp p (ConstInt w (Val_int (I.arg 0)))
    (s.Blocks b).Accu s).2) _ (cacheKept_of_eq _ _ (fun c => rfl)) (makebr_cacheKept b _ _)

/-- No instruction removes or overwrites an entry of a previous-stack cache. -/
theorem GenCodeForInst_cacheKept (w fuel b : Nat) (I : ZInstruction) (s : GenFunction) :
    CacheKept s (GenCodeForInst w fuel b I s).state := by
  unfold GenCodeForInst
  split
  · exact cacheKept_of_eq _ _ (fun c => by simp [Res.state])
  · exact cacheKept_of_eq _ _ (fun c => by simp [Res.state])
  · exact cacheKept_of_eq _ _ (fun c => by simp [Res.state])
  · exact cacheKept_of_eq _ _ (fun c => by simp [Res.state])
  · exact cacheKept_of_eq _ _ (fun c => by simp [Res.state])
  · exact cacheKept_of_eq _ _ (fun c => by simp [Res.state])
  · exact cacheKept_of_eq _ _ (fun c => by simp [Res.state])
  · exact cacheKept_of_eq _ _ (fun c => by simp [Res.state])
  · exact cacheKept_of_eq _ _ (fun c => by simp [Res.state])
  · exact cacheKept_of_eq _ _ (fun c => by simp [Res.state])
  · exact popN_cacheKept fuel b _ s
  · exact cacheKept_of_eq _ _ (fun c => by simp [Res.state])
  · exact cacheKept_of_eq _ _ (fun c => by simp [Res.state])
  · exact cacheKept_of_eq _ _ (fun c => by simp [Res.state])
  · exact cacheKept_trans (cacheKept_of_eq s (CreateCall (.rt .removeExceptionContext) [] s).2
      (fun c => rfl)) (popN_cacheKept fuel b 4 _)
  · exact cacheKept_of_eq _ _ (fun c => by simp [Res.state])
  · exact acc_cacheKept fuel b _ s
  · exact acc_cacheKept fuel b _ s
  · exact acc_cacheKept fuel b _ s
  · exact acc_cacheKept fuel b _ s
  · exact acc_cacheKept fuel b _ s
  · exact acc_cacheKept fuel b _ s
  · exact acc_cacheKept fuel b _ s
  · exact acc_cacheKept fuel b _ s
  · exact acc_cacheKept fuel b _ s
  · exact pushAcc_cacheKept fuel b _ s
  · exact pushAcc_cacheKept fuel b _ s
  · exact pushAcc_cacheKept fuel b _ s
  · exact pushAcc_cacheKept fuel b _ s
  · exact pushAcc_cacheKept fuel b _ s
  · exact pushAcc_cacheKept fuel b _ s
  · exact pushAcc_cacheKept fuel b _ s
  · exact pushAcc_cacheKept fuel b _ s
  · exact pushAcc_cacheKept fuel b _ s
  · exact cacheKept_of_eq _ _ (fun c => by simp [Res.state])
  · exact cacheKept_of_eq _ _ (fun c => by simp [Res.state])
  · exact cacheKept_of_eq _ _ (fun c => by simp [Res.state])
  · exact cacheKept_of_eq _ _ (fun c => by simp [Res.state])
  · exact cacheKept_of_eq _ _ (fun c => by simp [Res.state])
  · exact cacheKept_of_eq _ _ (fun c => by simp [Res.state])
  · exact cacheKept_of_eq _ _ (fun c => by simp [Res.state])
  · exact cacheKept_of_eq _ _ (fun c => by simp [Res.state])
  · exact cacheKept_of_eq _ _ (fun c => by simp [Res.state])
  · exact cacheKept_of_eq _ _ (fun c => by simp [Res.state])
  · exact cacheKept_seq _ _ _ (stackPop_cacheKept fuel b s)
      (fun _ s1 => cacheKept_of_eq _ _ (fun c => by simp [Res.state]))
  · exact cacheKept_of_eq _ _ (fun c => by simp [Res.state])
  · exact cacheKept_seq _ _ _ (stackPop_cacheKept fuel b s)
      (fun _ s1 => cacheKept_of_eq _ _ (fun c => by simp [Res.state]))
  · exact cacheKept_seq _ _ _ (stackPop_cacheKept fuel b s)
      (fun _ s1 => cacheKept_of_eq _ _ (fun c => by simp [Res.state]))
  · exact cacheKept_seq _ _ _ (stackPop_cacheKept fuel b s)
      (fun _ s1 => cacheKept_of_eq _ _ (fun c => by simp [Res.state]))
  · exact cacheKept_seq _ _ _ (stackPop_cacheKept fuel b s)
      (fun _ s1 => cacheKept_of_eq _ _ (fun c => by simp [Res.state]))
  · exact cacheKept_of_eq _ _ (fun c => by simp [Res.state])
  · exact cacheKept_seq _ _ _ (stackPop_cacheKept fuel b s)
      (fun _ s1 => cacheKept_of_eq _ _ (fun c => by simp [Res.state]))
  · exact cacheKept_seq _ _ _ (stackPop_cacheKept fuel b s)
      (fun _ s1 => cacheKept_of_eq _ _ (fun c => by simp [Res.state]))
  · exact cacheKept_seq _ _ _ (getStackAt_cacheKept fuel b _ none s)
      (fun _ s1 => cacheKept_of_eq _ _ (fun c => setBlock_cache s1 b c _ rfl))
  · exact cacheKept_of_eq _ _ (fun c => by simp [Res.state])
  · exact cacheKept_of_eq _ _ (fun c => by simp [Res.state])
  · exact cacheKept_of_eq _ _ (fun c => by simp [Res.state])
  · exact cacheKept_of_eq _ _ (fun c => by simp [Res.state])
  · exact cacheKept_of_eq _ _ (fun c => by simp [Res.state])
  · exact cacheKept_of_eq _ _ (fun c => by simp [Res.state])
  · exact cacheKept_of_eq _ _ (fun c => by simp [Res.state])
  · exact cacheKept_of_eq _ _ (fun c => by simp [Res.state])
  · exact cacheKept_seq _ _ _ (getStackAt_cacheKept fuel b _ none s)
      (fun _ s1 => cacheKept_trans (cacheKept_of_eq s1 _ (fun c => callToAccu_cache b _ _ s1 c))
        (popN_cacheKept fuel b 1 _))
  · exact cacheKept_seq _ _ _ (getStackAt_cacheKept fuel b _ none s)
      (fun _ s1 => cacheKept_seq _ _ _ (getStackAt_cacheKept fuel b _ none s1)
        (fun _ s2 => cacheKept_trans (cacheKept_of_eq s2 _ (fun c => callToAccu_cache b _ _ s2 c))
          (popN_cacheKept fuel b 2 _)))
  · exact makeSetField_cacheKept w fuel b _ s
  · exact makeSetField_cacheKept w fuel b _ s
  · exact makeSetField_cacheKept w fuel b _ s
  · exact makeSetField_cacheKept w fuel b _ s
  · exact makeSetField_cacheKept w fuel b _ s
  · exact cacheKept_of_eq _ _ (fun c => by simp [Res.state])
  · exact cacheKept_of_eq _ _ (fun c => by simp [Res.state])
  · exact cacheKept_of_eq _ _ (fun c => by simp [Res.state])
  · exact cacheKept_of_eq _ _ (fun c => by simp [Res.state])
  · exact cacheKept_of_eq _ _ (fun c => by simp [Res.state])
  · split
    · exact cacheKept_seq _ _ _ (makeClosure_cacheKept w fuel b _ _ s)
        (fun _ s1 => cacheKept_of_eq _ _ (fun c => by simp [Res.state]))
    · exact cacheKept_refl s
  · exact makeClosure_cacheKept w fuel b _ _ s
  · exact cacheKept_of_eq _ _ (fun c => by simp [Res.state])
  · exact cacheKept_of_eq _ _ (fun c => by simp [Res.state])
  · exact makePrimCall_cacheKept w fuel b _ _ s
  · exact makePrimCall_cacheKept w fuel b _ _ s
  · exact makePrimCall_cacheKept w fuel b _ _ s
  · exact makePrimCall_cacheKept w fuel b _ _ s
  · exact makePrimCall_cacheKept w fuel b _ _ s
  · exact makeApply_cacheKept w fuel b _ s
  · exact makeApply_cacheKept w fuel b _ s
  · exact makeApply_cacheKept w fuel b _ s
  · exact makeApply_cacheKept w fuel b _ s
  · exact cacheKept_seq _ _ _ (makeApply_cacheKept w fuel b _ s)
      (fun _ s1 => cacheKept_of_eq _ _ (fun c => by simp [Res.state]))
  · exact cacheKept_seq _ _ _ (makeApply_cacheKept w fuel b _ s)
      (fun _ s1 => cacheKept_of_eq _ _ (fun c => by simp [Res.state]))
  · exact cacheKept_seq _ _ _ (makeApply_cacheKept w fuel b _ s)
      (fun _ s1 => cacheKept_of_eq _ _ (fun c => by simp [Res.state]))
  · exact cacheKept_seq _ _ _ (makeApply_cacheKept w fuel b _ s)
      (fun _ s1 => cacheKept_of_eq _ _ (fun c => by simp [Res.state]))
  · exact cacheKept_of_eq _ _ (fun c => by simp [Res.state])
  · exact cacheKept_of_eq _ _ (fun c => by simp [Res.state])
  · split
    · exact cacheKept_of_eq _ _ (fun c => by simp [Res.state])
    · exact cacheKept_refl s
  · dsimp only
    split
    · exact cacheKept_of_eq _ _ (fun c => by simp [Res.state])
    · exact cacheKept_of_eq _ _ (fun c => by simp [Res.state])
  · dsimp only
    split
    · exact cacheKept_of_eq _ _ (fun c => by simp [Res.state])
    · exact cacheKept_of_eq _ _ (fun c => by simp [Res.state])
  · exact cacheKept_seq _ _ _ (stackPop_cacheKept fuel b s)
      (fun _ s1 => cacheKept_of_eq _ _ (fun c => by simp [Res.state]))
  · exact cmpBranch_cacheKept w b _ I s
  · exact cmpBranch_cacheKept w b _ I s
  · exact cmpBranch_cacheKept w b _ I s
  · exact cmpBranch_cacheKept w b _ I s
  · exact cmpBranch_cacheKept w b _ I s
  · exact cmpBranch_cacheKept w b _ I s
  · exact cmpBranch_cacheKept w b _ I s
  · exact cmpBranch_cacheKept w b _ I s
  · exact cacheKept_refl s
  · exact cacheKept_refl s

theorem genInsts_cacheKept (w fuel b : Nat) : ∀ (l : List ZInstruction) (s : GenFunction),
    CacheKept s (genInsts w fuel b l s).state := by
  intro l
  induction l with
  | nil => intro s; exact cacheKept_refl s
  | cons I rest ih =>
    intro s
    unfold genInsts
    exact cacheKept_seq _ _ _ (GenCodeForInst_cacheKept w fuel b I s) (fun _ s1 => ih s1)

/-- C8: in a block with at least two predecessors, a read of a stack slot beyond the local
stack at an exposed depth `d` that is not cached reaches a state `s1` in which exactly one
join node has been appended to the current backend block of the block, exactly one pending
request `(node, d)` has been recorded, and no other block has changed; the read returns the
node looked up through the mutation map (the node itself when the map has no entry for it).
After it and after any further instruction list generated in any block, whatever the local
stack has become, a read in the block that resolves to the same `d` returns that node looked
up through the mutation map and leaves the state, hence the pending requests, unchanged. A
read at a depth that is already cached returns the cached value looked up through the
mutation map and changes nothing. -/
theorem getStackAt_join_once (fuel b n : Nat) (s : GenFunction)
    (hp : 2 ≤ (s.Blocks b).PreviousBlocks.length)
    (hn : (s.Blocks b).Stack.length ≤ n) :
    (mapFind (((n - (s.Blocks b).Stack.length : Nat) : Int)) (s.Blocks b).PrevStackCache = none →
      ∃ s1, (getStackAt (fuel + 1) b n none s).state = s1 ∧
        s1.Insts = s.Insts ++ [((s.Blocks b).LlvmBlock, Instr.val (Value.phi s.NextId))] ∧
        (s1.Blocks b).PHINodes = (s.Blocks b).PHINodes ++
          [(Value.phi s.NextId, ((n - (s.Blocks b).Stack.length : Nat) : Int))] ∧
        (∀ c, c ≠ b → s1.Blocks c = s.Blocks c) ∧
        (getStackAt (fuel + 1) b n none s =
          match getMutatedValue (s.Blocks b).MutatedVals (fuel + 1) (Value.phi s.NextId) with
          | some v => .ok v s1
          | none => .err .outOfFuel s1) ∧
        (mapFind (Value.phi s.NextId) (s.Blocks b).MutatedVals = none →
          getStackAt (fuel + 1) b n none s = .ok (Value.phi s.NextId) s1) ∧
        ∀ (w fuel1 b1 : Nat) (l : List ZInstruction) (m : Nat),
          ((genInsts w fuel1 b1 l s1).state.Blocks b).Stack.length ≤ m →
          m - ((genInsts w fuel1 b1 l s1).state.Blocks b).Stack.length
            = n - (s.Blocks b).Stack.length →
          getStackAt (fuel + 1) b m none (genInsts w fuel1 b1 l s1).state =
            match getMutatedValue ((genInsts w fuel1 b1 l s1).state.Blocks b).MutatedVals
                (fuel + 1) (Value.phi s.NextId) with
            | some v => .ok v (genInsts w fuel1 b1 l s1).state
            | none => .err .outOfFuel (genInsts w fuel1 b1 l s1).state) ∧
    (∀ c, mapFind (((n - (s.Blocks b).Stack.length : Nat) : Int)) (s.Blocks b).PrevStackCache
        = some c →
      getStackAt (fuel + 1) b n none s =
        match getMutatedValue (s.Blocks b).MutatedVals (fuel + 1) c with
        | some v => .ok v s
        | none => .err .outOfFuel s) := by
  refine ⟨fun hmiss => ?_, fun c hc => getStackAt_cached fuel b n none s c hn hc⟩
  obtain ⟨p, q, rest, hpq⟩ : ∃ p q rest, (s.Blocks b).PreviousBlocks = p :: q :: rest := by
    match h : (s.Blocks b).PreviousBlocks, hp with
    | p :: q :: rest, _ => exact ⟨p, q, rest, rfl⟩
    | [_], hp => simp at hp
    | [], hp => simp at hp
  have hfirst : getStackAt (fuel + 1) b n none s =
      match getMutatedValue (s.Blocks b).MutatedVals (fuel + 1) (Value.phi s.NextId) with
      | some v => .ok v
          (({ s with Insts := s.Insts ++ [((s.Blocks b).LlvmBlock, Instr.val (Value.phi s.NextId))],
                     NextId := s.NextId + 1 }).setBlock b
            { s.Blocks b with
              PHINodes := (s.Blocks b).PHINodes ++
                [(Value.phi s.NextId, ((n - (s.Blocks b).Stack.length : Nat) : Int))],
              PrevStackCache := mapSet (((n - (s.Blocks b).Stack.length : Nat) : Int))
                (Value.phi s.NextId) (s.Blocks b).PrevStackCache })
      | none => .err .outOfFuel
          (({ s with Insts := s.Insts ++ [((s.Blocks b).LlvmBlock, Instr.val (Value.phi s.NextId))],
                     NextId := s.NextId + 1 }).setBlock b
            { s.Blocks b with
              PHINodes := (s.Blocks b).PHINodes ++
                [(Value.phi s.NextId, ((n - (s.Blocks b).Stack.length : Nat) : Int))],
              PrevStackCache := mapSet (((n - (s.Blocks b).Stack.length : Nat) : Int))
                (Value.phi s.NextId) (s.Blocks b).PrevStackCache }) := by
    simp only [getStackAt, hn, if_true, hmiss, hpq, Res.bind, setBlock_Blocks_self]
  refine ⟨_, rfl, ?_, ?_, ?_, ?_, ?_, ?_⟩
  · rw [hfirst]
    cases getMutatedValue (s.Blocks b).MutatedVals (fuel + 1) (Value.phi s.NextId) <;>
      simp [Res.state]
  · rw [hfirst]
    cases getMutatedValue (s.Blocks b).MutatedVals (fuel + 1) (Value.phi s.NextId) <;>
      simp [Res.state]
  · intro c hc
    rw [hfirst]
    cases getMutatedValue (s.Blocks b).MutatedVals (fuel + 1) (Value.phi s.NextId) <;>
      simp [Res.state, GenFunction.setBlock, hc]
  · rw [hfirst]
    cases getMutatedValue (s.Blocks b).MutatedVals (fuel + 1) (Value.phi s.NextId) <;>
      simp [Res.state]
  · intro hfree
    rw [hfirst]
    simp [getMutatedValue, hfree, Res.state]
  · intro w fuel1 b1 l m hm hd
    have hcache : mapFind (((n - (s.Blocks b).Stack.length : Nat) : Int))
        ((getStackAt (fuel + 1) b n none s).state.Blocks b).PrevStackCache
          = some (Value.phi s.NextId) := by
      rw [hfirst]
      cases getMutatedValue (s.Blocks b).MutatedVals (fuel + 1) (Value.phi s.NextId) <;>
        simp [Res.state, mapFind_mapSet_self]
    have hkept := genInsts_cacheKept w fuel1 b1 l (getStackAt (fuel + 1) b n none s).state
      b _ _ hcache
    exact getStackAt_cached fuel b m none _ (Value.phi s.NextId) hm (by rw [hd]; exact hkept)

/-- C8, at a concrete state: the first read of slot 0 in block 4 of the two-merge function,
which has two predecessors and an empty local stack. -/
theorem getStackAt_join_once_witness :
    ∃ s1, (getStackAt 1 4 0 none progTwoMerges).state = s1 ∧
      s1.Insts = progTwoMerges.Insts ++
        [((progTwoMerges.Blocks 4).LlvmBlock, Instr.val (Value.phi progTwoMerges.NextId))] ∧
      (s1.Blocks 4).PHINodes = (progTwoMerges.Blocks 4).PHINodes ++
        [(Value.phi progTwoMerges.NextId, ((0 - (progTwoMerges.Blocks 4).Stack.length : Nat) : Int))] ∧
      getStackAt 1 4 0 none progTwoMerges = .ok (Value.phi progTwoMerges.NextId) s1 :=
  match (getStackAt_join_once 0 4 0 progTwoMerges (by decide) (by decide)).1 (by decide) with
  | ⟨s1, h1, h2, h3, _, _, h6, _⟩ => ⟨s1, h1, h2, h3, h6 (by decide)⟩

/-! ## Failure of a stack read -/

/-- One step of `getStackAt`, with the predecessor list named. -/
theorem getStackAt_succ (fuel b n : Nat) (ig : Option Nat) (s : GenFunction) :
    getStackAt (fuel + 1) b n ig s =
      (if (s.Blocks b).Stack.length ≤ n then
        match mapFind (((n - (s.Blocks b).Stack.length : Nat) : Int))
            (s.Blocks b).PrevStackCache with
        | some Ret => Res.ok Ret s
        | none =>
          match prBlocks s b ig with
          | [] => Res.err Err.badStackAccess s
          | [p] =>
            (getStackAt fuel p (n - (s.Blocks b).Stack.length) none s).bind fun Ret s1 =>
              Res.ok Ret (s1.setBlock b
                { s1.Blocks b with
                  PrevStackCache := mapSet (((n - (s.Blocks b).Stack.length : Nat) : Int)) Ret
                    (s1.Blocks b).PrevStackCache })
          | _ :: _ :: _ =>
            Res.ok (Value.phi s.NextId)
              (({ s with Insts := s.Insts ++ [((s.Blocks b).LlvmBlock, Instr.val (Value.phi s.NextId))],
                         NextId := s.NextId + 1 }).setBlock b
                { s.Blocks b with
                  PHINodes := (s.Blocks b).PHINodes ++
                    [(Value.phi s.NextId, ((n - (s.Blocks b).Stack.length : Nat) : Int))],
                  PrevStackCache := mapSet (((n - (s.Blocks b).Stack.length : Nat) : Int))
                    (Value.phi s.NextId) (s.Blocks b).PrevStackCache })
      else Res.ok ((s.Blocks b).Stack.getD n Value.null) s).bind fun Ret s2 =>
        match getMutatedValue (s2.Blocks b).MutatedVals (fuel + 1) Ret with
        | some v => Res.ok v s2
        | none => Res.err Err.outOfFuel s2 := by
  cases ig <;> rfl

theorem Res.bind_lookup_ne_bad (r : Res Value) (fuel b : Nat) (s' : GenFunction)
    (h : ∀ s1, r ≠ .err .badStackAccess s1) :
    (r.bind fun Ret s2 =>
      match getMutatedValue (s2.Blocks b).MutatedVals (fuel + 1) Ret with
      | some v => Res.ok v s2
      | none => Res.err Err.outOfFuel s2) ≠ .err .badStackAccess s' := by
  cases r with
  | ok a s1 =>
    simp only [Res.bind]
    split <;> simp
  | err e s1 =>
    simp only [Res.bind]
    intro hh
    exact h s' hh

/-- C11: `getStackAt(n, ignored)` fails with the bad-stack-access error exactly when `n` is
beyond the local stack, no value is cached for the depth `d = n - |local stack|`, and either
the predecessor list without the ignored block is empty, in which case the whole state, and
so the stack, cache, pending requests and mutation map of the block, is unchanged, or that
list has exactly one block and the read of depth `d` in it fails with that error. -/
theorem getStackAt_bad_access_iff (fuel b n : Nat) (ig : Option Nat) (s s' : GenFunction) :
    getStackAt (fuel + 1) b n ig s = .err .badStackAccess s' ↔
      (s.Blocks b).Stack.length ≤ n ∧
      mapFind (((n - (s.Blocks b).Stack.length : Nat) : Int)) (s.Blocks b).PrevStackCache
        = none ∧
      ((prBlocks s b ig = [] ∧ s' = s) ∨
        ∃ p, prBlocks s b ig = [p] ∧
          getStackAt fuel p (n - (s.Blocks b).Stack.length) none s = .err .badStackAccess s') := by
  rw [getStackAt_succ]
  by_cases hn : (s.Blocks b).Stack.length ≤ n
  · simp only [hn, if_true, true_and]
    cases hc : mapFind (((n - (s.Blocks b).Stack.length : Nat) : Int))
        (s.Blocks b).PrevStackCache with
    | some r =>
      constructor
      · intro h
        refine absurd h ?_
        apply Res.bind_lookup_ne_bad
        simp
      · rintro ⟨h, _⟩
        cases h
    | none =>
      simp only [true_and]
      generalize prBlocks s b ig = Pr
      match Pr with
      | [] =>
        simp only [Res.bind, true_and, Res.err.injEq]
        constructor
        · intro h
          exact Or.inl h.symm
        · rintro (h | ⟨p, hp, _⟩)
          · exact h.symm
          · simp at hp
      | [p] =>
        dsimp only
        cases hr : getStackAt fuel p (n - (s.Blocks b).Stack.length) none s with
        | ok r s1 =>
          constructor
          · intro h
            refine absurd h ?_
            apply Res.bind_lookup_ne_bad
            simp [Res.bind]
          · rintro (⟨h, _⟩ | ⟨q, hq, h⟩)
            · simp at h
            · simp only [List.cons.injEq, and_true] at hq
              subst hq
              rw [hr] at h
              cases h
        | err e s1 =>
          simp only [Res.bind]
          constructor
          · intro h
            exact Or.inr ⟨p, rfl, hr.trans h⟩
          · rintro (⟨h, _⟩ | ⟨q, hq, h⟩)
            · simp at h
            · simp only [List.cons.injEq, and_true] at hq
              subst hq
              exact hr.symm.trans h
      | p :: q :: rest =>
        dsimp only
        constructor
        · intro h
          refine absurd h ?_
          apply Res.bind_lookup_ne_bad
          simp
        · rintro (⟨h, _⟩ | ⟨q, hq, _⟩)
          · simp at h
          · simp at hq
  · simp only [hn, if_false, false_and, iff_false]
    apply Res.bind_lookup_ne_bad
    simp

/-! ## Mutation-map lookup -/

theorem follow_add (M : List (Value × Value)) (i j : Nat) (v : Value) :
    follow M (i + j) v = (follow M i v).bind (follow M j) := by
  induction i generalizing v with
  | zero => simp [follow]
  | succ i ih =>
    rw [Nat.add_right_comm]
    simp only [follow]
    cases mapFind v M with
    | none => rfl
    | some u => exact ih u

theorem mapFind_mem_keys {κ β : Type} [DecidableEq κ] (k : κ) (m : List (κ × β)) (v : β)
    (h : mapFind k m = some v) : k ∈ m.map Prod.fst := by
  induction m with
  | nil => simp [mapFind] at h
  | cons p m ih =>
    obtain ⟨k', v'⟩ := p
    simp only [mapFind] at h
    by_cases hk : k' = k
    · simp [hk]
    · simp only [hk, if_false] at h
      simp [ih h]

/-- The lookup returns `r` within `fuel` calls exactly when `r` is reached by following less
than `fuel` entries and is not a key. -/
theorem getMutatedValue_eq_some_iff (M : List (Value × Value)) (fuel : Nat) (v r : Value) :
    getMutatedValue M fuel v = some r ↔
      ∃ k, k < fuel ∧ follow M k v = some r ∧ mapFind r M = none := by
  induction fuel generalizing v with
  | zero => simp [getMutatedValue]
  | succ fuel ih =>
    simp only [getMutatedValue]
    cases hf : mapFind v M with
    | some u =>
      simp only [ih]
      constructor
      · rintro ⟨k, hk, h1, h2⟩
        exact ⟨k + 1, by omega, by simp [follow, hf, h1], h2⟩
      · rintro ⟨k, hk, h1, h2⟩
        cases k with
        | zero =>
          simp only [follow, Option.some.injEq] at h1
          subst h1
          rw [hf] at h2
          cases h2
        | succ k =>
          simp only [follow, hf] at h1
          exact ⟨k, by omega, h1, h2⟩
    | none =>
      simp only [Option.some.injEq]
      constructor
      · intro h
        subst h
        exact ⟨0, by omega, rfl, hf⟩
      · rintro ⟨k, hk, h1, h2⟩
        cases k with
        | zero => simpa [follow] using h1
        | succ k => simp [follow, hf] at h1

/-- In an acyclic map a chain of `k` followed entries visits `k` different keys. -/
theorem follow_length_le (M : List (Value × Value)) (hM : Acyclic M) (k : Nat) (v r : Value)
    (h : follow M k v = some r) : k ≤ mapSize M := by
  have hdef : ∀ i, i ≤ k → ∃ x, follow M i v = some x := by
    intro i hi
    obtain ⟨d, rfl⟩ := Nat.exists_eq_add_of_le hi
    rw [follow_add] at h
    cases hx : follow M i v with
    | none => simp [hx] at h
    | some x => exact ⟨x, rfl⟩
  have hkey : ∀ i, i < k → ∀ x, follow M i v = some x → x ∈ (M.map Prod.fst).toFinset := by
    intro i hi x hx
    obtain ⟨y, hy⟩ := hdef (i + 1) hi
    rw [follow_add, hx] at hy
    simp only [Option.some_bind, follow] at hy
    cases hf : mapFind x M with
    | none => simp [hf] at hy
    | some u => exact List.mem_toFinset.mpr (mapFind_mem_keys x M u hf)
  have hinj : ∀ i j, i < j → j < k → follow M i v ≠ follow M j v := by
    intro i j hij hj heq
    obtain ⟨x, hx⟩ := hdef i (by omega)
    obtain ⟨d, rfl⟩ : ∃ d, j = i + (d + 1) := ⟨j - i - 1, by omega⟩
    rw [follow_add, hx] at heq
    exact hM x d heq.symm
  have hcard : (Finset.range k).card ≤ ((M.map Prod.fst).toFinset).card := by
    apply Finset.card_le_card_of_injOn (fun i => (follow M i v).getD v)
    · intro i hi
      have hi' : i < k := Finset.mem_range.mp hi
      obtain ⟨x, hx⟩ := hdef i (by omega)
      simp only [hx, Option.getD_some]
      exact hkey i hi' x hx
    · intro i hi j hj hij
      have hi' : i < k := Finset.mem_range.mp hi
      have hj' : j < k := Finset.mem_range.mp hj
      obtain ⟨x, hx⟩ := hdef i (by omega)
      obtain ⟨y, hy⟩ := hdef j (by omega)
      simp only [hx, hy, Option.getD_some] at hij
      subst hij
      by_contra hne
      rcases Nat.lt_or_gt_of_ne hne with hlt | hlt
      · exact hinj i j hlt hj' (hx.trans hy.symm)
      · exact hinj j i hlt hi' (hy.trans hx.symm)
  rw [Finset.card_range, List.card_toFinset] at hcard
  exact hcard

/-- From every value a chain of `n` entries can be followed, or the chain ends before. -/
theorem follow_total (M : List (Value × Value)) (v : Value) (n : Nat) :
    (∃ k r, k ≤ n ∧ follow M k v = some r ∧ mapFind r M = none) ∨
      ∃ x, follow M n v = some x := by
  induction n with
  | zero => exact Or.inr ⟨v, rfl⟩
  | succ n ih =>
    rcases ih with ⟨k, r, hk, h1, h2⟩ | ⟨x, hx⟩
    · exact Or.inl ⟨k, r, by omega, h1, h2⟩
    · cases hf : mapFind x M with
      | none => exact Or.inl ⟨n, x, by omega, hx, hf⟩
      | some u =>
        refine Or.inr ⟨u, ?_⟩
        rw [follow_add, hx]
        simp [follow, hf]

/-- C12: for every acyclic mutation map `M` and every value `v`, `getMutatedValue(v)` returns
a value `r` after following `k ≤ |M|` entries (so `|M| + 1` calls are enough, and every
larger bound gives the same result), `r` is not a key of `M`, and the lookup of `r` returns
`r` at once: `getMutatedValue(getMutatedValue(v)) = getMutatedValue(v)`. -/
theorem getMutatedValue_fixed_point (M : List (Value × Value)) (hM : Acyclic M) (v : Value) :
    ∃ r k, k ≤ mapSize M ∧ follow M k v = some r ∧
      (∀ fuel, k < fuel → getMutatedValue M fuel v = some r) ∧
      mapFind r M = none ∧
      (∀ fuel, (getMutatedValue M (fuel + 1) v).bind (getMutatedValue M (fuel + 1))
        = getMutatedValue M (fuel + 1) v) ∧
      getMutatedValue M 1 r = some r := by
  have hterm : ∃ k r, follow M k v = some r ∧ mapFind r M = none := by
    rcases follow_total M v (mapSize M + 1) with ⟨k, r, _, h1, h2⟩ | ⟨x, hx⟩
    · exact ⟨k, r, h1, h2⟩
    · have := follow_length_le M hM _ v x hx
      omega
  obtain ⟨k, r, h1, h2⟩ := hterm
  have hfix : ∀ x, mapFind x M = none → ∀ fuel, getMutatedValue M (fuel + 1) x = some x := by
    intro x hx fuel
    simp [getMutatedValue, hx]
  refine ⟨r, k, follow_length_le M hM k v r h1, h1, ?_, h2, ?_, hfix r h2 0⟩
  · intro fuel hk
    exact (getMutatedValue_eq_some_iff M fuel v r).mpr ⟨k, hk, h1, h2⟩
  · intro fuel
    cases hg : getMutatedValue M (fuel + 1) v with
    | none => rfl
    | some x =>
      obtain ⟨_, _, _, hx⟩ := (getMutatedValue_eq_some_iff M (fuel + 1) v x).mp hg
      simp [hfix x hx fuel]

theorem getMutatedValue_fixed_point_witness :
    Acyclic [(.phi 0, .phi 1), (.phi 1, .phi 2)] ∧
    ∃ r k, k ≤ mapSize [(Value.phi 0, Value.phi 1), (.phi 1, .phi 2)] ∧
      follow [(.phi 0, .phi 1), (.phi 1, .phi 2)] k (.phi 0) = some r ∧
      (∀ fuel, k < fuel →
        getMutatedValue [(.phi 0, .phi 1), (.phi 1, .phi 2)] fuel (.phi 0) = some r) ∧
      mapFind r [(Value.phi 0, Value.phi 1), (.phi 1, .phi 2)] = none ∧
      (∀ fuel, (getMutatedValue [(.phi 0, .phi 1), (.phi 1, .phi 2)] (fuel + 1) (.phi 0)).bind
          (getMutatedValue [(.phi 0, .phi 1), (.phi 1, .phi 2)] (fuel + 1))
        = getMutatedValue [(.phi 0, .phi 1), (.phi 1, .phi 2)] (fuel + 1) (.phi 0)) ∧
      getMutatedValue [(.phi 0, .phi 1), (.phi 1, .phi 2)] 1 r = some r :=
  have hA : Acyclic [(.phi 0, .phi 1), (.phi 1, .phi 2)] := by
    intro v k h
    simp only [follow, mapFind] at h
    by_cases h0 : Value.phi 0 = v
    · subst h0
      rcases k with _ | _ | k <;> simp [follow, mapFind] at h
    · by_cases h1 : Value.phi 1 = v
      · subst h1
        rcases k with _ | k <;> simp [follow, mapFind] at h
      · simp [h0, h1] at h
  ⟨hA, getMutatedValue_fixed_point _ hA (.phi 0)⟩

/-! ## Cycles in the mutation map -/

/-- A map that sends `v` to itself has no terminating lookup of `v`. -/
theorem getMutatedValue_self_loop (M : List (Value × Value)) (v : Value)
    (h : mapFind v M = some v) (fuel : Nat) : getMutatedValue M fuel v = none := by
  induction fuel with
  | zero => rfl
  | succ fuel ih => simp only [getMutatedValue, h, ih]

/-- C13 (failing input): the block `CONST1; PUSH; ACC0; ASSIGN 0` is generated without error
(with every bound on the nesting of the stack reads) and leaves the mutation map that sends
the constant `c` of slot 0 to `c` itself: the map is not acyclic, the lookup of `c` does not
return within any number of calls, and a following `ACC0` does not return either. -/
theorem assign_same_value_makes_cycle (w : Nat) :
    ∃ s', (∀ fuel, CodeGen w (fuel + 1) 0 progSelfAssign = .ok () s') ∧
      (s'.Blocks 0).Stack = [ConstInt w (Val_int 1)] ∧
      (s'.Blocks 0).MutatedVals = [(ConstInt w (Val_int 1), ConstInt w (Val_int 1))] ∧
      ¬ Acyclic (s'.Blocks 0).MutatedVals ∧
      (∀ fuel, getMutatedValue (s'.Blocks 0).MutatedVals fuel (ConstInt w (Val_int 1)) = none) ∧
      ∀ fuel, GenCodeForInst w fuel 0 (op .ACC0) s' = .err .outOfFuel s' := by
  have hM : ∀ fuel, getMutatedValue [(ConstInt w (Val_int 1), ConstInt w (Val_int 1))] fuel
      (ConstInt w (Val_int 1)) = none :=
    getMutatedValue_self_loop _ _ (by simp [mapFind])
  have hcg : ∀ fuel, CodeGen w (fuel + 1) 0 progSelfAssign
      = .ok () (CodeGen w 1 0 progSelfAssign).state := by
    intro fuel
    rfl
  have hst : ((CodeGen w 1 0 progSelfAssign).state.Blocks 0).Stack
      = [ConstInt w (Val_int 1)] :=
    rfl
  have hmv : ((CodeGen w 1 0 progSelfAssign).state.Blocks 0).MutatedVals
      = [(ConstInt w (Val_int 1), ConstInt w (Val_int 1))] :=
    rfl
  refine ⟨(CodeGen w 1 0 progSelfAssign).state, hcg, hst, hmv, ?_, ?_, ?_⟩
  · intro hA
    rw [hmv] at hA
    exact hA (ConstInt w (Val_int 1)) 0 (by simp [follow, mapFind])
  · intro fuel
    rw [hmv]
    exact hM fuel
  · intro fuel
    cases fuel with
    | zero => rfl
    | succ fuel =>
      have hl : 0 < ((CodeGen w 1 0 progSelfAssign).state.Blocks 0).Stack.length := by
        rw [hst]; simp
      simp only [GenCodeForInst, op, acc]
      rw [getStackAt_local fuel 0 0 none _ hl, hst, hmv]
      simp only [List.getD_cons_zero, hM, Res.bind]

/-! ## Termination of a block that falls through -/

theorem setNext_NextBlocks (b X : Nat) (f : Bool) (s : GenFunction) :
    ((setNext b X f s).Blocks b).NextBlocks = (s.Blocks b).NextBlocks ++ [X] := by
  unfold setNext
  by_cases h : X = b
  · subst h
    cases f <;> simp
  · cases f <;> simp [setBlock_Blocks_of_ne, h, Ne.symm h]

/-- The call `setNext` changes the adjacency fields of the blocks and nothing else. -/
theorem setNext_Blocks (b X : Nat) (f : Bool) (s : GenFunction) (c : Nat) :
    ∃ P N Br NoBr, (setNext b X f s).Blocks c =
      { s.Blocks c with PreviousBlocks := P, NextBlocks := N, BrBlock := Br, NoBrBlock := NoBr } := by
  unfold setNext
  rcases eq_or_ne c b with rfl | hb
  · rcases eq_or_ne X c with rfl | hX
    · cases f <;> simp only [GenFunction.setBlock, if_true, Bool.false_eq_true, if_false] <;>
        exact ⟨_, _, _, _, rfl⟩
    · cases f <;>
        simp only [GenFunction.setBlock, if_true, Bool.false_eq_true, if_false, hX, hX.symm] <;>
        exact ⟨_, _, _, _, rfl⟩
  · rcases eq_or_ne X c with rfl | hX
    · cases f <;>
        simp only [GenFunction.setBlock, if_true, Bool.false_eq_true, if_false, hb, hb.symm] <;>
        exact ⟨_, _, _, _, rfl⟩
    · cases f <;>
        simp only [GenFunction.setBlock, if_true, Bool.false_eq_true, if_false, hb, hX.symm] <;>
        exact ⟨_, _, _, _, rfl⟩

theorem setNext_Instructions (b X : Nat) (f : Bool) (s : GenFunction) (c : Nat) :
    ((setNext b X f s).Blocks c).Instructions = (s.Blocks c).Instructions := by
  obtain ⟨P, N, Br, NoBr, h⟩ := setNext_Blocks b X f s c
  rw [h]

theorem setNext_LlvmBlock (b X : Nat) (f : Bool) (s : GenFunction) (c : Nat) :
    ((setNext b X f s).Blocks c).LlvmBlock = (s.Blocks c).LlvmBlock := by
  obtain ⟨P, N, Br, NoBr, h⟩ := setNext_Blocks b X f s c
  rw [h]

theorem setNext_Insts (b X : Nat) (f : Bool) (s : GenFunction) :
    (setNext b X f s).Insts = s.Insts := by
  unfold setNext
  cases f <;> simp

theorem declareNext_NextBlocks (b : Nat) (cs : List (Nat × Bool)) (s : GenFunction) :
    ((declareNext b cs s).Blocks b).NextBlocks = (s.Blocks b).NextBlocks ++ cs.map Prod.fst := by
  induction cs generalizing s with
  | nil => simp [declareNext]
  | cons c cs ih => simp [declareNext, ih, setNext_NextBlocks]

theorem declareNext_Instructions (b : Nat) (cs : List (Nat × Bool)) (s : GenFunction) (c : Nat) :
    ((declareNext b cs s).Blocks c).Instructions = (s.Blocks c).Instructions := by
  induction cs generalizing s with
  | nil => rfl
  | cons d cs ih => simp [declareNext, ih, setNext_Instructions]

theorem declareNext_LlvmBlock (b : Nat) (cs : List (Nat × Bool)) (s : GenFunction) (c : Nat) :
    ((declareNext b cs s).Blocks c).LlvmBlock = (s.Blocks c).LlvmBlock := by
  induction cs generalizing s with
  | nil => rfl
  | cons d cs ih => simp [declareNext, ih, setNext_LlvmBlock]

theorem declareNext_Insts (b : Nat) (cs : List (Nat × Bool)) (s : GenFunction) :
    (declareNext b cs s).Insts = s.Insts := by
  induction cs generalizing s with
  | nil => rfl
  | cons d cs ih => simp [declareNext, ih, setNext_Insts]

/-- C14 (failing input): block 0 ends in `CONST0`, which is neither a jump nor a return, and
has the declared fall-through successor 1 (backend block 1), registered after the taken
successor 2 (backend block 2); `genTermInst` emits one branch and its target is backend
block 2, not the backend block of the fall-through successor. In the same state the
conditional branch of `BRANCHIF` falls through to backend block 1, the block of `NoBrBlock`. -/
theorem genTermInst_branches_to_taken_successor :
    ∃ s' s'', genTermInst 0 progTakenFirst = .ok () s' ∧
      (progTakenFirst.Blocks 0).NextBlocks = [2, 1] ∧
      (progTakenFirst.Blocks 0).NoBrBlock = some 1 ∧
      (progTakenFirst.Blocks 0).BrBlock = some 2 ∧
      s'.Insts = progTakenFirst.Insts ++ [((progTakenFirst.Blocks 0).LlvmBlock, .br 2)] ∧
      (s'.Blocks 1).LlvmBlock = 1 ∧ (s'.Blocks 2).LlvmBlock = 2 ∧
      s'.instsOf 0 ≠ [.br (s'.Blocks 1).LlvmBlock] ∧
      (∀ w fuel, GenCodeForInst w fuel 0 (opJump .BRANCHIF 2) progTakenFirst = .ok () s'') ∧
      s''.Insts = progTakenFirst.Insts ++
        [((progTakenFirst.Blocks 0).LlvmBlock, .val (.cast 0 .trunc .null)),
         ((progTakenFirst.Blocks 0).LlvmBlock, .condBr (.cast 0 .trunc .null) 2 1)] :=
  ⟨_, (GenCodeForInst 0 0 0 (opJump .BRANCHIF 2) progTakenFirst).state,
    rfl, rfl, rfl, rfl, rfl, rfl, rfl, by decide, fun _ _ => rfl, rfl⟩

/-- What `genTermInst` does with `NextBlocks.front()->LlvmBlock`: let the successors of block
`b` be declared by a non-empty sequence of `setNext` calls, the first of them with the block
`c.1`. If the last instruction of `b` is neither a jump nor a return, `genTermInst` emits
exactly one instruction, an unconditional branch in the current backend block of `b` to the
current backend block of `c.1`, whatever the flag `c.2`: the field `NoBrBlock` is not read. If
the last instruction is a jump or a return, `genTermInst` emits nothing. In both cases only
the insertion point changes besides. -/
theorem genTermInst_first_successor (b : Nat) (s : GenFunction) (c : Nat × Bool)
    (cs : List (Nat × Bool)) (Inst : ZInstruction)
    (hfresh : (s.Blocks b).NextBlocks = [])
    (hlast : (s.Blocks b).Instructions.getLast? = some Inst) :
    ∃ s', genTermInst b (declareNext b (c :: cs) s) = .ok () s' ∧
      s'.Blocks = (declareNext b (c :: cs) s).Blocks ∧
      s'.Insts = s.Insts ++
        (if Inst.isJumpInst = false ∧ Inst.isReturn = false then
          [((s.Blocks b).LlvmBlock, .br (s.Blocks c.1).LlvmBlock)]
        else []) := by
  have hN := declareNext_NextBlocks b (c :: cs) s
  have hI := declareNext_Instructions b (c :: cs) s b
  have hL := declareNext_LlvmBlock b (c :: cs) s
  have hE := declareNext_Insts b (c :: cs) s
  rw [hfresh] at hN
  simp only [List.map_cons, List.nil_append] at hN
  generalize declareNext b (c :: cs) s = s0 at hN hI hL hE
  unfold genTermInst
  simp only [SetInsertPoint, hI, hlast, hN]
  cases hj : Inst.isJumpInst <;> cases hr : Inst.isReturn <;>
    simp [GenFunction.emit, hE, hL]

theorem genTermInst_first_successor_witness :
    ((GenBlock.create 2 (GenBlock.create 1 (GenBlock.create 0 GenFunction.empty))).Blocks 0).NextBlocks
        = [] ∧
    (((withInstructions 0 [op .CONST0]
      (GenBlock.create 2 (GenBlock.create 1 (GenBlock.create 0 GenFunction.empty)))).Blocks 0
        ).Instructions.getLast? = some (op .CONST0)) ∧
    ∃ s', genTermInst 0 (declareNext 0 [(1, false), (2, true)]
        (withInstructions 0 [op .CONST0]
          (GenBlock.create 2 (GenBlock.create 1 (GenBlock.create 0 GenFunction.empty))))) = .ok () s' ∧
      s'.Blocks = (declareNext 0 [(1, false), (2, true)]
        (withInstructions 0 [op .CONST0]
          (GenBlock.create 2 (GenBlock.create 1 (GenBlock.create 0 GenFunction.empty))))).Blocks ∧
      s'.Insts = (withInstructions 0 [op .CONST0]
          (GenBlock.create 2 (GenBlock.create 1 (GenBlock.create 0 GenFunction.empty)))).Insts ++
        (if (op .CONST0).isJumpInst = false ∧ (op .CONST0).isReturn = false then
          [(((withInstructions 0 [op .CONST0]
              (GenBlock.create 2 (GenBlock.create 1 (GenBlock.create 0 GenFunction.empty)))).Blocks 0
                ).LlvmBlock,
            .br ((withInstructions 0 [op .CONST0]
              (GenBlock.create 2 (GenBlock.create 1 (GenBlock.create 0 GenFunction.empty)))).Blocks 1
                ).LlvmBlock)]
        else []) :=
  ⟨rfl, rfl, genTermInst_first_successor 0 _ (1, false) [(2, true)] (op .CONST0) rfl rfl⟩

/-! ## The branch of `PUSHTRAP` -/

/-- C15 (failing input): in the code generated for block 0 of `CONST1; PUSHTRAP 2` the
conditional branch tests the jump-buffer save result truncated to one bit. With the handler
block's backend block 2 and the continuation block 3, a run in which the save returns `r`
goes to the handler exactly when `r` is odd; the nonzero result 2 goes to the
continuation. -/
theorem pushtrap_branches_on_low_bit :
    ∃ s', CodeGen 64 1 0 progTrap = .ok () s' ∧
      front (s'.Blocks 2).LlvmBlocks = 2 ∧ (s'.Blocks 0).LlvmBlocks = [0, 3] ∧
      (s'.instsOf 0).find? Instr.isTerminator
        = some (.condBr (.cast 3 .trunc (.call 2 .i32)) 2 3) ∧
      (∀ r : Nat, (run 64 (fun _ => r) s' 1 0).1 = [0, if r % 2 = 1 then 2 else 3]) ∧
      (run 64 (fun _ => 2) s' 1 0).1 = [0, 3] := by
  refine ⟨_, rfl, rfl, rfl, rfl, ?_, rfl⟩
  intro r
  have h : ∀ s' : GenFunction, (s'.instsOf 0).find? Instr.isTerminator
        = some (.condBr (.cast 3 .trunc (.call 2 .i32)) 2 3) →
      (run 64 (fun _ => r) s' 1 0).1 = [0, if r % 2 = 1 then 2 else 3] := by
    intro s' hs
    have hr : r % 2 ^ 64 % 2 = r % 2 := by omega
    simp only [run, hs, eval, Option.map_some', condBrTarget, hr, Nat.mod_mod]
  exact h _ rfl

/-! ## Push followed by pop -/

theorem setBlock_setBlock_self (s : GenFunction) (b : Nat) (B : GenBlock) :
    (s.setBlock b B).setBlock b (s.Blocks b) = s := by
  obtain ⟨Blocks, _, _, _, _, _, _, _, _⟩ := s
  simp only [GenFunction.setBlock, GenFunction.mk.injEq, and_true]
  funext i
  by_cases h : i = b <;> simp [h]

/-- C16 (counterexample): in a fresh block, whose accumulator is unset, `push` creates a join
node; after the `stackPop` that follows, the accumulator is that join node and the list of
pending requests holds the request `(join, -1)`, where both were empty before, and the popped
value is the join node, not the looked-up accumulator of before the push. -/
theorem push_pop_unset_accumulator :
    ((GenBlock.create 0 GenFunction.empty).Blocks 0).Accu = .null ∧
    ((GenBlock.create 0 GenFunction.empty).Blocks 0).PHINodes = [] ∧
    getMutatedValue ((GenBlock.create 0 GenFunction.empty).Blocks 0).MutatedVals 1 .null
      = some .null ∧
    ∃ s', stackPop 1 0 (push 0 true (GenBlock.create 0 GenFunction.empty)) = .ok (.phi 0) s' ∧
      (s'.Blocks 0).Accu = .phi 0 ∧ (s'.Blocks 0).PHINodes = [(.phi 0, -1)] ∧
      (s'.Blocks 0).Stack = [] :=
  ⟨rfl, rfl, rfl, _, rfl, rfl, rfl, rfl⟩

/-- C16 (amended): in every state in which the accumulator of block `b` is set (or the push is
`push(false)`) and the lookup of the accumulator through the mutation map returns `t`,
`push` followed by `stackPop` returns `t` and leaves the state it started from: stack,
accumulator, mutation map, join cache and pending requests of the block are those of before
the push. -/
theorem push_stackPop_restores (fuel b : Nat) (CreatePhi : Bool) (s : GenFunction) (t : Value)
    (hacc : (s.Blocks b).Accu ≠ .null ∨ CreatePhi = false)
    (hm : getMutatedValue (s.Blocks b).MutatedVals (fuel + 1) (s.Blocks b).Accu = some t) :
    stackPop (fuel + 1) b (push b CreatePhi s) = .ok t s := by
  have hp : push b CreatePhi s
      = s.setBlock b { s.Blocks b with Stack := (s.Blocks b).Accu :: (s.Blocks b).Stack } := by
    unfold push
    have hc : ¬ ((s.Blocks b).Accu = .null ∧ CreatePhi = true) := by
      rintro ⟨h1, h2⟩
      rcases hacc with h | h
      · exact h h1
      · rw [h] at h2
        cases h2
    simp only [hc, if_false]
  rw [hp, stackPop_cons fuel b _ (s.Blocks b).Accu t (s.Blocks b).Stack (by simp) (by simpa using hm)]
  simp only [setBlock_Blocks_self]
  exact congrArg _ (setBlock_setBlock_self s b _)

theorem push_stackPop_restores_witness :
    ((blockWith (.const 3) [.const 5]).Blocks 0).Accu ≠ .null ∧
    getMutatedValue ((blockWith (.const 3) [.const 5]).Blocks 0).MutatedVals 1
      ((blockWith (.const 3) [.const 5]).Blocks 0).Accu = some (.const 3) ∧
    stackPop 1 0 (push 0 true (blockWith (.const 3) [.const 5]))
      = .ok (.const 3) (blockWith (.const 3) [.const 5]) :=
  ⟨by decide, rfl,
    push_stackPop_restores 0 0 true (blockWith (.const 3) [.const 5]) (.const 3)
      (Or.inl (by decide)) rfl⟩

/-! ## The low bit of the results of the integer instructions -/

theorem wrap_mod_two (w : Nat) (hw : 0 < w) (z : Int) : ((wrap w z : Nat) : Int) % 2 = z % 2 := by
  rw [wrap_cast]
  have hd : (2 : Int) ∣ (2 : Int) ^ w := dvd_pow_self 2 (by omega)
  exact Int.emod_emod_of_dvd _ hd

theorem eval_lt (w : Nat) (hw : 0 < w) (ρ : Nat → Nat) (v : Value) (x : Nat)
    (h : eval w ρ v = some x) : x < 2 ^ w := by
  have h2 : 2 ≤ 2 ^ w := by
    calc 2 = 2 ^ 1 := by norm_num
      _ ≤ 2 ^ w := Nat.pow_le_pow_right (by norm_num) hw
  have hp : 0 < 2 ^ w := by omega
  induction v generalizing x with
  | null => simp [eval] at h
  | const n => simp only [eval, Option.some.injEq] at h; subst h; exact Nat.mod_lt _ hp
  | func f => simp [eval] at h
  | applier f => simp [eval] at h
  | bin id op a c iha ihc =>
    simp only [eval] at h
    cases ha : eval w ρ a with
    | none => simp [ha] at h
    | some xa =>
      cases hc : eval w ρ c with
      | none => simp [ha, hc] at h
      | some xc =>
        simp only [ha, hc] at h
        have hxa := iha xa ha
        cases op with
        | add => simp only [evalBin, Option.some.injEq] at h; subst h; exact wrap_lt w _
        | sub => simp only [evalBin, Option.some.injEq] at h; subst h; exact wrap_lt w _
        | mul => simp only [evalBin, Option.some.injEq] at h; subst h; exact wrap_lt w _
        | shl =>
          simp only [evalBin] at h
          split at h
          · simp only [Option.some.injEq] at h; subst h; exact wrap_lt w _
          · cases h
        | lshr =>
          simp only [evalBin] at h
          split at h
          · simp only [Option.some.injEq] at h; subst h
            exact lt_of_le_of_lt (Nat.div_le_self _ _) hxa
          · cases h
        | sdiv =>
          simp only [evalBin] at h
          split at h
          · cases h
          · split at h
            · cases h
            · simp only [Option.some.injEq] at h; subst h; exact wrap_lt w _
        | srem =>
          simp only [evalBin] at h
          split at h
          · cases h
          · split at h
            · cases h
            · simp only [Option.some.injEq] at h; subst h; exact wrap_lt w _
  | icmp id p a c iha ihc =>
    simp only [eval] at h
    cases ha : eval w ρ a with
    | none => simp [ha] at h
    | some xa =>
      cases hc : eval w ρ c with
      | none => simp [ha, hc] at h
      | some xc =>
        simp only [ha, hc, Option.some.injEq] at h
        subst h
        split <;> omega
  | cast id op a iha =>
    cases op with
    | trunc =>
      simp only [eval] at h
      cases ha : eval w ρ a with
      | none => simp [ha] at h
      | some xa =>
        simp only [ha, Option.map_some', Option.some.injEq] at h
        subst h
        have := Nat.mod_lt xa (by norm_num : 0 < 2)
        omega
    | ptrToInt => exact iha x (by simpa [eval] using h)
    | intToPtr => exact iha x (by simpa [eval] using h)
    | bitCast => exact iha x (by simpa [eval] using h)
    | pointerCast => exact iha x (by simpa [eval] using h)
  | phi id => simp only [eval, Option.some.injEq] at h; subst h; exact Nat.mod_lt _ hp
  | call id ty => simp only [eval, Option.some.injEq] at h; subst h; exact Nat.mod_lt _ hp
  | alloca id n => simp only [eval, Option.some.injEq] at h; subst h; exact Nat.mod_lt _ hp
  | gep id arr i j _ _ _ => simp only [eval, Option.some.injEq] at h; subst h; exact Nat.mod_lt _ hp

/-- Sum and difference of two words: defined, with the parity of the integer sum or
difference. -/
theorem eval_add_parity (w : Nat) (hw : 0 < w) (ρ : Nat → Nat) (id : Nat) (A B : Value)
    (x y : Nat) (hA : eval w ρ A = some x) (hB : eval w ρ B = some y) :
    ∃ r : Nat, eval w ρ (.bin id .add A B) = some r ∧ (r : Int) % 2 = ((x : Int) + y) % 2 := by
  refine ⟨wrap w ((x : Int) + y), ?_, wrap_mod_two w hw _⟩
  rw [eval_bin_some w ρ id .add A B x y hA hB]
  rfl

theorem eval_sub_parity (w : Nat) (hw : 0 < w) (ρ : Nat → Nat) (id : Nat) (A B : Value)
    (x y : Nat) (hA : eval w ρ A = some x) (hB : eval w ρ B = some y) :
    ∃ r : Nat, eval w ρ (.bin id .sub A B) = some r ∧ (r : Int) % 2 = ((x : Int) - y) % 2 := by
  refine ⟨wrap w ((x : Int) - y), ?_, wrap_mod_two w hw _⟩
  rw [eval_bin_some w ρ id .sub A B x y hA hB]
  rfl

/-- The accumulator that `valInt` builds is an odd word. -/
theorem eval_valInt_odd (w : Nat) (hw : 1 < w) (ρ : Nat → Nat) (s : GenFunction) (v : Value)
    (x : Nat) (hv : eval w ρ v = some x) :
    ∃ r : Nat, eval w ρ (valInt w v s).1 = some r ∧ r % 2 = 1 := by
  refine ⟨_, eval_valInt w hw ρ s v x hv, ?_⟩
  have h := wrap_mod_two w (by omega) (2 * (x : Int) + 1)
  omega

/-- An untagged word read as a signed number is the word itself. -/
theorem toSigned_half (w : Nat) (hw : 0 < w) (x : Nat) (hx : x < 2 ^ w) :
    toSigned w (x / 2) = ((x / 2 : Nat) : Int) := by
  have hp : 2 ^ w = 2 * 2 ^ (w - 1) := by
    obtain ⟨k, rfl⟩ : ∃ k, w = k + 1 := ⟨w - 1, by omega⟩
    simp [pow_succ, mul_comm]
  have : x / 2 < 2 ^ (w - 1) := by omega
  simp [toSigned, this]

/-- Quotient and remainder of two untagged words, the divisor not being zero, are defined. -/
theorem eval_sdiv_srem_defined (w : Nat) (hw : 0 < w) (ρ : Nat → Nat) (id : Nat) (op : BinOp)
    (hop : op = .sdiv ∨ op = .srem) (X Y : Value) (x y : Nat) (hy : y < 2 ^ w)
    (hy2 : 2 ≤ y) (hX : eval w ρ X = some (x / 2)) (hY : eval w ρ Y = some (y / 2)) :
    ∃ p, eval w ρ (.bin id op X Y) = some p := by
  have h1 : toSigned w (y / 2) ≠ 0 := by
    rw [toSigned_half w hw y hy]
    have : 0 < y / 2 := by omega
    exact_mod_cast this.ne'
  have h2 : ¬ (toSigned w (x / 2) = -(2 : Int) ^ (w - 1) ∧ toSigned w (y / 2) = -1) := by
    rintro ⟨_, h⟩
    rw [toSigned_half w hw y hy] at h
    omega
  rw [eval_bin_some w ρ id op X Y _ _ hX hY]
  rcases hop with rfl | rfl
  · simp only [evalBin, h1, h2, if_false]
    exact ⟨_, rfl⟩
  · simp only [evalBin, h1, h2, if_false]
    exact ⟨_, rfl⟩

/-- After a completed `stackPop` the accumulator is the one of before. -/
theorem stackPop_Accu (fuel b : Nat) (s s1 : GenFunction) (v : Value)
    (h : stackPop fuel b s = .ok v s1) : (s1.Blocks b).Accu = (s.Blocks b).Accu := by
  have hf := stackPop_frame fuel b s
  rw [h] at hf
  exact hf.2.1 b

/-- C17: let `GenCodeForInst` complete on one of `CONST0..3`, `CONSTINT`, `PUSHCONST0..3`,
`PUSHCONSTINT`, `ADDINT`, `SUBINT`, `MULINT`, `DIVINT`, `MODINT`, `NEGINT`, `OFFSETINT`, on a
machine of at least two bits. If the accumulator (for the arithmetic instructions) and the
stack operand the instruction pops (for the five binary ones) are odd run-time words, the
divisor of `DIVINT` and `MODINT` not being the encoding 1 of zero, then the accumulator
after the instruction is an odd run-time word. -/
theorem tagged_ops_keep_low_bit (w fuel b : Nat) (ρ : Nat → Nat) (I : ZInstruction)
    (s s' : GenFunction) (hw : 2 ≤ w)
    (hop : I.OpNum ∈ [Opcode.CONST0, .CONST1, .CONST2, .CONST3, .CONSTINT,
      .PUSHCONST0, .PUSHCONST1, .PUSHCONST2, .PUSHCONST3, .PUSHCONSTINT,
      .ADDINT, .SUBINT, .MULINT, .DIVINT, .MODINT, .NEGINT, .OFFSETINT])
    (hrun : GenCodeForInst w fuel b I s = .ok () s')
    (hacc : I.OpNum ∈ [Opcode.ADDINT, .SUBINT, .MULINT, .DIVINT, .MODINT, .NEGINT, .OFFSETINT] →
      ∃ a, eval w ρ (s.Blocks b).Accu = some a ∧ a % 2 = 1)
    (hstk : I.OpNum ∈ [Opcode.ADDINT, .SUBINT, .MULINT, .DIVINT, .MODINT] →
      ∀ v s1, stackPop fuel b s = .ok v s1 → ∃ y, eval w ρ v = some y ∧ y % 2 = 1)
    (hdiv : I.OpNum ∈ [Opcode.DIVINT, .MODINT] →
      ∀ v s1, stackPop fuel b s = .ok v s1 → eval w ρ v ≠ some 1) :
    ∃ r, eval w ρ (s'.Blocks b).Accu = some r ∧ r % 2 = 1 := by
  have hw0 : 0 < w := by omega
  have hw1 : 1 < w := by omega
  have hconst : ∀ n : Int, ∃ r, eval w ρ (ConstInt w (Val_int n)) = some r ∧ r % 2 = 1 := by
    intro n
    refine ⟨_, eval_ConstInt w ρ _, ?_⟩
    have h := wrap_mod_two w hw0 (Val_int n)
    unfold Val_int at h ⊢
    omega
  simp only [List.mem_cons, List.mem_singleton, List.not_mem_nil, or_false] at hop hacc hstk hdiv
  rcases hop with h | h | h | h | h | h | h | h | h | h | h | h | h | h | h | h | h
  all_goals simp only [h, GenCodeForInst, reduceCtorEq, or_false, false_or, or_true, true_or,
    forall_const, false_implies, implies_true] at hrun hacc hstk hdiv
  · cases hrun; simpa [setConst, setAccu] using hconst 0
  · cases hrun; simpa [setConst, setAccu] using hconst 1
  · cases hrun; simpa [setConst, setAccu] using hconst 2
  · cases hrun; simpa [setConst, setAccu] using hconst 3
  · cases hrun; simpa [setConst, setAccu] using hconst (I.arg 0)
  · cases hrun; simpa [setConst, setAccu] using hconst 0
  · cases hrun; simpa [setConst, setAccu] using hconst 1
  · cases hrun; simpa [setConst, setAccu] using hconst 2
  · cases hrun; simpa [setConst, setAccu] using hconst 3
  · cases hrun; simpa [setConst, setAccu] using hconst (I.arg 0)
  · -- ADDINT
    obtain ⟨a, ha, haodd⟩ := hacc
    cases hp : stackPop fuel b s with
    | err e s1 => simp [hp, Res.bind] at hrun
    | ok v s1 =>
      obtain ⟨y, hy, hyodd⟩ := hstk v s1 hp
      have hA := stackPop_Accu fuel b s s1 v hp
      simp only [hp, Res.bind, Res.ok.injEq, true_and] at hrun
      subst hrun
      simp only [setAccu, setBlock_Blocks_self, CreateBin, GenFunction.emitVal, castToInt_Blocks, hA]
      obtain ⟨d, hd, hdpar⟩ := eval_sub_parity w hw0 ρ
        (castToInt (s.Blocks b).Accu (castToInt v s1).2).2.NextId (castToInt v s1).1
        (ConstInt w 1) y (wrap w 1) (by rw [eval_castToInt]; exact hy) (eval_ConstInt w ρ 1)
      obtain ⟨r, hr, hrpar⟩ := eval_add_parity w hw0 ρ
        ((castToInt (s.Blocks b).Accu (castToInt v s1).2).2.NextId + 1)
        (castToInt (s.Blocks b).Accu (castToInt v s1).2).1 _ a d
        (by rw [eval_castToInt]; exact ha) hd
      refine ⟨r, hr, ?_⟩
      have h1 := wrap_mod_two w hw0 1
      omega
  · -- SUBINT
    obtain ⟨a, ha, haodd⟩ := hacc
    cases hp : stackPop fuel b s with
    | err e s1 => simp [hp, Res.bind] at hrun
    | ok v s1 =>
      obtain ⟨y, hy, hyodd⟩ := hstk v s1 hp
      have hA := stackPop_Accu fuel b s s1 v hp
      simp only [hp, Res.bind, Res.ok.injEq, true_and] at hrun
      subst hrun
      simp only [setAccu, setBlock_Blocks_self, CreateBin, GenFunction.emitVal, hA]
      obtain ⟨d, hd, hdpar⟩ := eval_add_parity w hw0 ρ s1.NextId v (ConstInt w 1) y (wrap w 1)
        hy (eval_ConstInt w ρ 1)
      obtain ⟨r, hr, hrpar⟩ := eval_sub_parity w hw0 ρ (s1.NextId + 1) (s.Blocks b).Accu _ a d
        ha hd
      refine ⟨r, hr, ?_⟩
      have h1 := wrap_mod_two w hw0 1
      omega
  · -- MULINT
    obtain ⟨a, ha, haodd⟩ := hacc
    cases hp : stackPop fuel b s with
    | err e s1 => simp [hp, Res.bind] at hrun
    | ok v s1 =>
      obtain ⟨y, hy, hyodd⟩ := hstk v s1 hp
      have hA := stackPop_Accu fuel b s s1 v hp
      simp only [hp, Res.bind, Res.ok.injEq, true_and] at hrun
      subst hrun
      simp only [setAccu, setBlock_Blocks_self, CreateBin, GenFunction.emitVal, intVal_Blocks, hA]
      have hP := eval_bin_some w ρ (intVal v (intVal (s.Blocks b).Accu s1).2).2.NextId .mul _ _ _ _
        (eval_intVal w hw1 ρ s1 (s.Blocks b).Accu a ha)
        (eval_intVal w hw1 ρ (intVal (s.Blocks b).Accu s1).2 v y hy)
      exact eval_valInt_odd w hw1 ρ _ _ _ hP
  · -- DIVINT
    obtain ⟨a, ha, haodd⟩ := hacc
    cases hp : stackPop fuel b s with
    | err e s1 => simp [hp, Res.bind] at hrun
    | ok v s1 =>
      obtain ⟨y, hy, hyodd⟩ := hstk v s1 hp
      have hA := stackPop_Accu fuel b s s1 v hp
      simp only [hp, Res.bind, Res.ok.injEq, true_and] at hrun
      subst hrun
      have hy1 : y ≠ 1 := fun h1 => hdiv v s1 hp (by rw [hy, h1])
      have hylt := eval_lt w hw0 ρ v y hy
      simp only [setAccu, setBlock_Blocks_self, CreateBin, GenFunction.emitVal, intVal_Blocks, hA]
      obtain ⟨p, hp2⟩ := eval_sdiv_srem_defined w hw0 ρ _ .sdiv (by simp) _ _ a y hylt (by omega)
        (eval_intVal w hw1 ρ s1 (s.Blocks b).Accu a ha)
        (eval_intVal w hw1 ρ (intVal (s.Blocks b).Accu s1).2 v y hy)
      exact eval_valInt_odd w hw1 ρ _ _ p hp2
  · -- MODINT
    obtain ⟨a, ha, haodd⟩ := hacc
    cases hp : stackPop fuel b s with
    | err e s1 => simp [hp, Res.bind] at hrun
    | ok v s1 =>
      obtain ⟨y, hy, hyodd⟩ := hstk v s1 hp
      have hA := stackPop_Accu fuel b s s1 v hp
      simp only [hp, Res.bind, Res.ok.injEq, true_and] at hrun
      subst hrun
      have hy1 : y ≠ 1 := fun h1 => hdiv v s1 hp (by rw [hy, h1])
      have hylt := eval_lt w hw0 ρ v y hy
      simp only [setAccu, setBlock_Blocks_self, CreateBin, GenFunction.emitVal, intVal_Blocks, hA]
      obtain ⟨p, hp2⟩ := eval_sdiv_srem_defined w hw0 ρ _ .srem (by simp) _ _ a y hylt (by omega)
        (eval_intVal w hw1 ρ s1 (s.Blocks b).Accu a ha)
        (eval_intVal w hw1 ρ (intVal (s.Blocks b).Accu s1).2 v y hy)
      exact eval_valInt_odd w hw1 ρ _ _ p hp2
  · -- NEGINT
    obtain ⟨a, ha, haodd⟩ := hacc
    cases hrun
    simp only [setAccu, setBlock_Blocks_self, CreateBin, GenFunction.emitVal]
    obtain ⟨r, hr, hrpar⟩ := eval_sub_parity w hw0 ρ s.NextId (ConstInt w 2) (s.Blocks b).Accu
      (wrap w 2) a (eval_ConstInt w ρ 2) ha
    refine ⟨r, hr, ?_⟩
    have h1 := wrap_mod_two w hw0 2
    omega
  · -- OFFSETINT
    obtain ⟨a, ha, haodd⟩ := hacc
    cases hrun
    simp only [setAccu, setBlock_Blocks_self, CreateBin, GenFunction.emitVal]
    obtain ⟨r, hr, hrpar⟩ := eval_add_parity w hw0 ρ s.NextId (s.Blocks b).Accu
      (ConstInt w (I.arg 0 * 2)) a (wrap w (I.arg 0 * 2)) ha (eval_ConstInt w ρ _)
    refine ⟨r, hr, ?_⟩
    have h1 := wrap_mod_two w hw0 (I.arg 0 * 2)
    omega

/-- C17 at a concrete state: `DIVINT` on the accumulator 7 (word 15) and the stack top 2
(word 5) of a 64-bit machine. -/
theorem tagged_ops_keep_low_bit_witness :
    GenCodeForInst 64 1 0 (op .DIVINT) (blockWith (.const 15) [.const 5])
      = .ok () (GenCodeForInst 64 1 0 (op .DIVINT) (blockWith (.const 15) [.const 5])).state ∧
    stackPop 1 0 (blockWith (.const 15) [.const 5])
      = .ok (.const 5) (stackPop 1 0 (blockWith (.const 15) [.const 5])).state ∧
    ∃ r, eval 64 (fun _ => 0)
        (((GenCodeForInst 64 1 0 (op .DIVINT) (blockWith (.const 15) [.const 5])).state.Blocks 0
          ).Accu) = some r ∧ r % 2 = 1 :=
  have hpop : stackPop 1 0 (blockWith (.const 15) [.const 5])
      = .ok (.const 5) (stackPop 1 0 (blockWith (.const 15) [.const 5])).state := rfl
  ⟨rfl, hpop,
    tagged_ops_keep_low_bit 64 1 0 (fun _ => 0) (op .DIVINT) (blockWith (.const 15) [.const 5]) _
      (by decide) (by simp [op]) rfl
      (fun _ => ⟨15, by decide, by decide⟩)
      (fun _ v s1 h => by
        rw [hpop] at h
        cases h
        exact ⟨5, by decide, by decide⟩)
      (fun _ v s1 h => by
        rw [hpop] at h
        cases h
        decide)⟩

/-! ## Accumulator joins of a block -/

/-- C18 (failing input): block 1 `ASSIGN 0; PUSH; ACC1; PUSH` is entered from block 0
`CONST1; PUSH` with its accumulator not yet defined locally. `ASSIGN 0` records the unset
accumulator as the new value of the slot, the first `PUSH` creates the accumulator join,
`ACC1` reads the slot and unsets the accumulator again, and the second `PUSH` records a
second request of depth -1. The same happens in `PUSHTRAP 1; PUSH; ACC1; PUSH`, where `ACC1`
reads one of the unset entries that `PUSHTRAP` pushed with `push(false)`. -/
theorem accumulator_join_requested_twice :
    (∃ s', ((CodeGen 64 1 0 progAssignUnset).bind fun _ s1 => CodeGen 64 2 1 s1) = .ok () s' ∧
      (s'.Blocks 1).MutatedVals = [(ConstInt 64 (Val_int 1), .null)] ∧
      (s'.Blocks 1).PHINodes = [(.phi 0, -1), (.phi 1, -1)] ∧
      ((s'.Blocks 1).PHINodes.filter (fun p => decide (p.2 = -1))).length = 2) ∧
    (∃ s', CodeGen 64 1 0 progTrapSlots = .ok () s' ∧
      (s'.Blocks 0).PHINodes = [(.phi 6, -1), (.phi 7, -1)] ∧
      ((s'.Blocks 0).PHINodes.filter (fun p => decide (p.2 = -1))).length = 2) :=
  ⟨⟨_, rfl, rfl, rfl, rfl⟩, ⟨_, rfl, rfl, rfl⟩⟩

/-! ## Assignment to a slot whose value is shared -/

/-- C20 (failing input): after `CONST1; PUSH; PUSH; CONST2` slots 0 and 1 both hold the
constant of 1 and the accumulator holds the constant of 2. `ASSIGN 0` leaves the stack as it
is and adds the entry "constant of 1 is now constant of 2" to the mutation map, so the read
of slot 1, which returned the constant of 1 before, returns the constant of 2 after, like
the read of slot 0; the block `CONST1; PUSH; PUSH; CONST2; ASSIGN 0; ACC1; RETURN` returns
the encoding of 2 where slot 1 holds 1. -/
theorem assign_changes_slot_of_equal_value (ρ : Nat → Nat) :
    (∃ s1, genInsts 64 2 0 [op .CONST1, op .PUSH, op .PUSH, op .CONST2]
          (GenBlock.create 0 GenFunction.empty) = .ok () s1 ∧
        (s1.Blocks 0).Stack = [ConstInt 64 (Val_int 1), ConstInt 64 (Val_int 1)] ∧
        (s1.Blocks 0).Accu = ConstInt 64 (Val_int 2) ∧
        getStackAt 2 0 1 none s1 = .ok (ConstInt 64 (Val_int 1)) s1 ∧
        ∃ s2, GenCodeForInst 64 2 0 (op1 .ASSIGN 0) s1 = .ok () s2 ∧
          (s2.Blocks 0).Stack = (s1.Blocks 0).Stack ∧
          (s2.Blocks 0).MutatedVals = [(ConstInt 64 (Val_int 1), ConstInt 64 (Val_int 2))] ∧
          getStackAt 2 0 0 none s2 = .ok (ConstInt 64 (Val_int 2)) s2 ∧
          getStackAt 2 0 1 none s2 = .ok (ConstInt 64 (Val_int 2)) s2) ∧
    (∃ s', CodeGen 64 2 0 progAlias = .ok () s' ∧
        (run 64 ρ s' 1 (s'.Blocks 0).LlvmBlock).2 = some (tag 64 2)) ∧
    tag 64 2 ≠ tag 64 1 :=
  ⟨⟨_, rfl, rfl, rfl, rfl, _, rfl, rfl, rfl, rfl, rfl⟩, ⟨_, rfl, rfl⟩, by decide⟩

/-! ## Terminators of the backend blocks of a block -/

theorem quiet_refl (b : Nat) (s : GenFunction) : Quiet b s s :=
  ⟨Or.inl rfl, rfl, fun _ => ⟨rfl, rfl, rfl, rfl, rfl⟩, [], by simp, by simp⟩

theorem quiet_trans {b : Nat} {s s1 s2 : GenFunction} (h1 : Quiet b s s1) (h2 : Quiet b s1 s2) :
    Quiet b s s2 := by
  obtain ⟨hi1, hn1, hb1, new1, he1, hp1⟩ := h1
  obtain ⟨hi2, hn2, hb2, new2, he2, hp2⟩ := h2
  refine ⟨?_, hn2.trans hn1, fun c => ?_, new1 ++ new2, ?_, ?_⟩
  · rcases hi2 with h | h
    · rw [h]; exact hi1
    · rw [h, (hb1 b).1]; exact Or.inr rfl
  · obtain ⟨a1, a2, a3, a4, a5⟩ := hb1 c
    obtain ⟨c1, c2, c3, c4, c5⟩ := hb2 c
    exact ⟨c1.trans a1, c2.trans a2, c3.trans a3, c4.trans a4, c5.trans a5⟩
  · rw [he2, he1, List.append_assoc]
  · intro p hp
    rcases List.mem_append.mp hp with h | h
    · exact hp1 p h
    · obtain ⟨ht, htar⟩ := hp2 p h
      refine ⟨ht, ?_⟩
      rcases htar with h' | h' | ⟨c, hc2, h'⟩
      · rcases hi1 with hi | hi
        · exact Or.inl (h'.trans hi)
        · exact Or.inr (Or.inl (h'.trans hi))
      · exact Or.inr (Or.inl (h'.trans (hb1 b).1))
      · rw [(hb1 c).2.2.2.2] at hc2
        exact Or.inr (Or.inr ⟨c, hc2, h'.trans (hb1 c).1⟩)

theorem quiet_seq {α β : Type} {b : Nat} (s : GenFunction) (r : Res α)
    (f : α → GenFunction → Res β) (h : Quiet b s r.state)
    (hf : ∀ a s1, Quiet b s1 (f a s1).state) : Quiet b s (r.bind f).state := by
  cases r with
  | ok a s1 => exact quiet_trans h (hf a s1)
  | err e s1 => exact h

/-- A step that touches neither the log nor the backend data of the blocks. -/
theorem quiet_of_eq {b : Nat} {s s' : GenFunction} (hI : s'.InsertBlock = s.InsertBlock)
    (hN : s'.NextBB = s.NextBB) (hL : s'.Insts = s.Insts)
    (hB : ∀ c, (s'.Blocks c).LlvmBlock = (s.Blocks c).LlvmBlock ∧
      (s'.Blocks c).LlvmBlocks = (s.Blocks c).LlvmBlocks ∧
      (s'.Blocks c).Instructions = (s.Blocks c).Instructions ∧
      (s'.Blocks c).NextBlocks = (s.Blocks c).NextBlocks ∧
      (s'.Blocks c).PreviousBlocks = (s.Blocks c).PreviousBlocks) : Quiet b s s' :=
  ⟨Or.inl hI, hN, hB, [], by simp [hL], by simp⟩

/-- The state of one block is replaced by one with the same backend data. -/
theorem quiet_setBlock {b : Nat} (s : GenFunction) (c : Nat) (B : GenBlock)
    (h1 : B.LlvmBlock = (s.Blocks c).LlvmBlock) (h2 : B.LlvmBlocks = (s.Blocks c).LlvmBlocks)
    (h3 : B.Instructions = (s.Blocks c).Instructions)
    (h4 : B.NextBlocks = (s.Blocks c).NextBlocks)
    (h5 : B.PreviousBlocks = (s.Blocks c).PreviousBlocks) : Quiet b s (s.setBlock c B) := by
  refine quiet_of_eq rfl rfl rfl (fun d => ?_)
  by_cases hd : d = c
  · subst hd
    simp [h1, h2, h3, h4, h5]
  · simp [setBlock_Blocks_of_ne, hd]

/-- An instruction that is no terminator is emitted at the insertion point. -/
theorem quiet_emit {b : Nat} (s : GenFunction) (i : Instr) (h : i.isTerminator = false) :
    Quiet b s (s.emit i) :=
  ⟨Or.inl rfl, rfl, fun _ => ⟨rfl, rfl, rfl, rfl, rfl⟩, [(s.InsertBlock, i)], rfl, by simp [h]⟩

theorem quiet_emitVal {b : Nat} (s : GenFunction) (mk : Nat → Value) :
    Quiet b s (s.emitVal mk).2 :=
  ⟨Or.inl rfl, rfl, fun _ => ⟨rfl, rfl, rfl, rfl, rfl⟩, [(s.InsertBlock, .val (mk s.NextId))], rfl,
    by simp [Instr.isTerminator]⟩

theorem quiet_CreateCall {b : Nat} (callee : Callee) (args : List Value) (s : GenFunction) :
    Quiet b s (CreateCall callee args s).2 :=
  ⟨Or.inl rfl, rfl, fun _ => ⟨rfl, rfl, rfl, rfl, rfl⟩,
    [(s.InsertBlock, .call (.call s.NextId callee.retTy) callee args)], rfl,
    by simp [Instr.isTerminator]⟩

/-- Composition, the last step first. -/
theorem quiet_then {b : Nat} {s m s' : GenFunction} (h2 : Quiet b m s') (h1 : Quiet b s m) :
    Quiet b s s' := quiet_trans h1 h2

theorem quiet_setAccu {b : Nat} (c : Nat) (v : Value) (s : GenFunction) :
    Quiet b s (setAccu c v s) :=
  quiet_setBlock s c _ rfl rfl rfl rfl rfl

theorem quiet_push {b : Nat} (c : Nat) (p : Bool) (s : GenFunction) : Quiet b s (push c p s) := by
  unfold push
  dsimp only
  split
  · refine quiet_then (quiet_setBlock _ c _ rfl rfl rfl rfl rfl) ?_
    exact ⟨Or.inl rfl, rfl, fun _ => ⟨rfl, rfl, rfl, rfl, rfl⟩,
      [(s.InsertBlock, .val (.phi s.NextId))], rfl, by simp [Instr.isTerminator]⟩
  · exact quiet_setBlock s c _ rfl rfl rfl rfl rfl

theorem quiet_castToInt {b : Nat} (v : Value) (s : GenFunction) : Quiet b s (castToInt v s).2 := by
  unfold castToInt
  split
  · exact quiet_emitVal s _
  · exact quiet_refl b s

theorem quiet_intVal {b : Nat} (v : Value) (s : GenFunction) : Quiet b s (intVal v s).2 :=
  quiet_emitVal s _

theorem quiet_valInt {b : Nat} (w : Nat) (v : Value) (s : GenFunction) :
    Quiet b s (valInt w v s).2 :=
  quiet_trans (quiet_emitVal s (fun id => Value.bin id .shl v (.const 1)))
    (quiet_emitVal _ (fun id => Value.bin id .add _ (ConstInt w 1)))

theorem quiet_CreateBin {b : Nat} (op : BinOp) (a c : Value) (s : GenFunction) :
    Quiet b s (CreateBin op a c s).2 :=
  quiet_emitVal s _

theorem quiet_CreateICmp {b : Nat} (p : Pred) (a c : Value) (s : GenFunction) :
    Quiet b s (CreateICmp p a c s).2 :=
  quiet_emitVal s _

theorem quiet_CreateIntCastI1 {b : Nat} (V : Value) (s : GenFunction) :
    Quiet b s (CreateIntCastI1 V s).2 := by
  unfold CreateIntCastI1
  split
  · exact quiet_refl b s
  · exact quiet_emitVal s _

theorem quiet_setConst {b : Nat} (w c : Nat) (n : Int) (s : GenFunction) :
    Quiet b s (setConst w c n s) :=
  quiet_setAccu c _ s

theorem quiet_makeCheckedCall {b : Nat} (c : Nat) (callee : Callee) (Args : List Value)
    (s : GenFunction) : Quiet b s (makeCheckedCall c callee Args s) :=
  quiet_then (quiet_setAccu c _ _) (quiet_CreateCall callee Args s)

theorem quiet_callToAccu {b : Nat} (c : Nat) (f : RtFn) (args : List Value) (s : GenFunction) :
    Quiet b s (callToAccu c f args s) :=
  quiet_then (quiet_setAccu c _ _) (quiet_CreateCall (.rt f) args s)

theorem quiet_envAcc {b : Nat} (w c : Nat) (n : Int) (s : GenFunction) :
    Quiet b s (envAcc w c n s) :=
  quiet_then (quiet_setAccu c _ _)
    (quiet_then (quiet_CreateCall (.rt .getField) _ _) (quiet_CreateCall (.rt .getEnv) [] s))

theorem quiet_makeGetField {b : Nat} (w c : Nat) (n : Int) (s : GenFunction) :
    Quiet b s (makeGetField w c n s) :=
  quiet_makeCheckedCall c _ _ s

theorem quiet_closureInfoOf {b : Nat} (Accu : Value) (s : GenFunction) :
    Quiet b s (closureInfoOf Accu s).2 := by
  unfold closureInfoOf
  split
  · exact quiet_refl b s
  · exact quiet_of_eq rfl rfl rfl (fun _ => ⟨rfl, rfl, rfl, rfl, rfl⟩)

/-- The insertion point is set to the current backend block of `b`. -/
theorem quiet_SetInsertPoint (b : Nat) (s : GenFunction) :
    Quiet b s (SetInsertPoint (s.Blocks b).LlvmBlock s) :=
  ⟨Or.inr rfl, rfl, fun _ => ⟨rfl, rfl, rfl, rfl, rfl⟩, [], by simp [SetInsertPoint], by simp⟩

theorem getStackAt_quiet {b : Nat} (fuel : Nat) :
    ∀ (c n : Nat) (ig : Option Nat) (s : GenFunction),
      Quiet b s (getStackAt fuel c n ig s).state := by
  induction fuel with
  | zero => intro c n ig s; exact quiet_refl b s
  | succ fuel ih =>
    intro c n ig s
    unfold getStackAt
    dsimp only
    apply quiet_seq
    · by_cases hn : (s.Blocks c).Stack.length ≤ n
      · simp only [hn, if_true]
        cases hc : mapFind (((n - (s.Blocks c).Stack.length : Nat) : Int))
            (s.Blocks c).PrevStackCache with
        | some r => exact quiet_refl b s
        | none =>
          dsimp only
          split
          · exact quiet_refl b s
          · rename_i p _
            apply quiet_seq
            · exact ih p _ none s
            · intro r s1
              exact quiet_setBlock s1 c _ rfl rfl rfl rfl rfl
          · rename_i p q rest hpq
            have h2 : 2 ≤ (s.Blocks c).PreviousBlocks.length := by
              have hlen := congrArg List.length hpq
              simp only [List.length_cons] at hlen
              cases ig with
              | none =>
                simp only at hlen
                omega
              | some i =>
                simp only at hlen
                have := List.length_filter_le (fun p => decide (p ≠ i)) (s.Blocks c).PreviousBlocks
                omega
            refine quiet_then (quiet_setBlock _ c _ rfl rfl rfl rfl rfl) ?_
            exact ⟨Or.inl rfl, rfl, fun _ => ⟨rfl, rfl, rfl, rfl, rfl⟩,
              [((s.Blocks c).LlvmBlock, .val (.phi s.NextId))], rfl,
              by simp only [List.mem_singleton, forall_eq, Instr.isTerminator, true_and]
                 exact Or.inr (Or.inr ⟨c, h2, rfl⟩)⟩
      · simp only [hn, if_false]
        exact quiet_refl b s
    · intro a s1
      split
      · exact quiet_refl b s1
      · exact quiet_refl b s1

theorem stackPop_quiet {b : Nat} (fuel c : Nat) (s : GenFunction) :
    Quiet b s (stackPop fuel c s).state := by
  unfold stackPop
  apply quiet_seq
  · exact getStackAt_quiet fuel c 0 none s
  · intro a s1
    split
    · exact quiet_refl b s1
    · exact quiet_setBlock s1 c _ rfl rfl rfl rfl rfl

theorem popN_quiet {b : Nat} (fuel c : Nat) : ∀ (k : Nat) (s : GenFunction),
    Quiet b s (popN fuel c k s).state := by
  intro k
  induction k with
  | zero => intro s; exact quiet_refl b s
  | succ k ih =>
    intro s
    unfold popN
    exact quiet_seq _ _ _ (stackPop_quiet fuel c s) (fun _ s1 => ih s1)

theorem acc_quiet {b : Nat} (fuel c n : Nat) (s : GenFunction) :
    Quiet b s (acc fuel c n s).state := by
  unfold acc
  exact quiet_seq _ _ _ (getStackAt_quiet fuel c n none s) (fun v s1 => quiet_setAccu c v s1)

theorem pushAcc_quiet {b : Nat} (fuel c n : Nat) (s : GenFunction) :
    Quiet b s (pushAcc fuel c n s).state := by
  unfold pushAcc
  exact quiet_trans (quiet_push c true s) (acc_quiet fuel c n _)

theorem applyArgs_quiet {b : Nat} (fuel c : Nat) :
    ∀ (k : Nat) (ArgsV : List Value) (s : GenFunction),
      Quiet b s (applyArgs fuel c k ArgsV s).state := by
  intro k
  induction k with
  | zero => intro ArgsV s; exact quiet_refl b s
  | succ k ih =>
    intro ArgsV s
    unfold applyArgs
    exact quiet_seq _ _ _ (getStackAt_quiet fuel c k none s) (fun v s1 => ih _ s1)

theorem applyStores_quiet {b : Nat} (w fuel c n : Nat) (Array : Value) :
    ∀ (k : Nat) (s : GenFunction), Quiet b s (applyStores w fuel c n Array k s).state := by
  intro k
  induction k with
  | zero => intro s; exact quiet_refl b s
  | succ k ih =>
    intro s
    simp only [applyStores]
    refine quiet_trans (quiet_emitVal s
      (fun id => Value.gep id Array (ConstInt w 0) (ConstInt w ((n - (k + 1) : Nat))))) ?_
    apply quiet_seq
    · exact getStackAt_quiet fuel c k none _
    · intro v s1
      exact quiet_trans (quiet_emit s1 (.store v _) rfl) (ih _)

theorem popArgs_quiet {b : Nat} (fuel c : Nat) :
    ∀ (k : Nat) (Args : List Value) (s : GenFunction),
      Quiet b s (popArgs fuel c k Args s).state := by
  intro k
  induction k with
  | zero => intro Args s; exact quiet_refl b s
  | succ k ih =>
    intro Args s
    unfold popArgs
    exact quiet_seq _ _ _ (stackPop_quiet fuel c s) (fun v s1 => ih _ s1)

theorem closureFields_quiet {b : Nat} (w fuel c : Nat) (Closure : Value) (NbFields : Nat) :
    ∀ (k : Nat) (s : GenFunction),
      Quiet b s (closureFields w fuel c Closure NbFields k s).state := by
  intro k
  induction k with
  | zero => intro s; exact quiet_refl b s
  | succ k ih =>
    intro s
    unfold closureFields
    apply quiet_seq
    · exact stackPop_quiet fuel c s
    · intro v s1
      exact quiet_trans (quiet_CreateCall (.rt .closureSetVar)
        [Closure, ConstInt w ((NbFields - (k + 1) : Nat)), v] s1) (ih _)

theorem makeApply_quiet {b : Nat} (w fuel c n : Nat) (s : GenFunction) :
    Quiet b s (makeApply w fuel c n s).state := by
  have h0 : Quiet b s (closureInfoOf (s.Blocks c).Accu s).2 := quiet_closureInfoOf _ s
  simp only [makeApply]
  generalize (closureInfoOf (s.Blocks c).Accu s).1 = CI
  generalize (closureInfoOf (s.Blocks c).Accu s).2 = s0 at h0
  have tramp : Quiet b s0 (applyTrampoline w fuel c n s0).state := by
    simp only [applyTrampoline]
    refine quiet_trans (quiet_emitVal s0 (fun id => Value.alloca id n)) ?_
    apply quiet_seq
    · exact applyStores_quiet w fuel c n _ n _
    · intro _ s2
      exact quiet_trans (quiet_emitVal s2 _) (quiet_makeCheckedCall c _ _ _)
  have direct : ∀ f, Quiet b s0 (applyDirect fuel c n f s0).state := by
    intro f
    unfold applyDirect
    exact quiet_seq _ _ _ (applyArgs_quiet fuel c n [] s0)
      (fun _ s1 => quiet_makeCheckedCall c _ _ s1)
  apply quiet_trans h0
  apply quiet_seq
  · split
    · split
      · exact quiet_refl b s0
      · split
        · exact direct _
        · exact tramp
    · exact tramp
  · intro _ s1
    exact popN_quiet fuel c n s1

theorem makePrimCall_quiet {b : Nat} (w fuel c n : Nat) (NumPrim : Int) (s : GenFunction) :
    Quiet b s (makePrimCall w fuel c n NumPrim s).state := by
  unfold makePrimCall
  split
  · exact quiet_seq _ _ _ (popArgs_quiet fuel c _ _ s)
      (fun _ s1 => quiet_makeCheckedCall c _ _ s1)
  · exact quiet_makeCheckedCall c _ _ s

theorem makeSetField_quiet {b : Nat} (w fuel c : Nat) (n : Int) (s : GenFunction) :
    Quiet b s (makeSetField w fuel c n s).state := by
  unfold makeSetField
  exact quiet_seq _ _ _ (stackPop_quiet fuel c s)
    (fun _ s1 => quiet_CreateCall _ _ s1)

/-- The call `makeClosure` of block `b` itself: its first step sets the insertion point to
the current backend block of `b`. -/
theorem makeClosure_quiet (w fuel b : Nat) (NbFields FnId : Int) (s : GenFunction) :
    Quiet b s (makeClosure w fuel b NbFields FnId s).state := by
  simp only [makeClosure]
  refine quiet_trans (quiet_SetInsertPoint b s) ?_
  generalize SetInsertPoint (s.Blocks b).LlvmBlock s = s0
  refine quiet_trans (quiet_emitVal s0 (fun id => Value.cast id .ptrToInt (.applier FnId))) ?_
  generalize (s0.emitVal (fun id => Value.cast id .ptrToInt (.applier FnId))) = p1
  refine quiet_trans (quiet_CreateCall (.rt .makeClosure)
    [ConstInt w NbFields, p1.1, ConstInt w (s.Functions FnId).argSize] p1.2) ?_
  generalize CreateCall (.rt .makeClosure)
    [ConstInt w NbFields, p1.1, ConstInt w (s.Functions FnId).argSize] p1.2 = p2
  refine quiet_trans (?_ : Quiet b p2.2 (if 0 < NbFields then push b true p2.2 else p2.2)) ?_
  · split
    · exact quiet_push b true _
    · exact quiet_refl b _
  · apply quiet_seq
    · exact closureFields_quiet w fuel b _ _ _ _
    · intro _ s4
      exact quiet_trans (quiet_setAccu b _ s4)
        (quiet_of_eq rfl rfl rfl (fun _ => ⟨rfl, rfl, rfl, rfl, rfl⟩))

/-- Every instruction that is neither a branch, nor a return, nor `PUSHTRAP` emits no
terminator and keeps the backend blocks of the blocks. -/
theorem GenCodeForInst_quiet (w fuel b : Nat) (I : ZInstruction) (s : GenFunction)
    (hb : I.OpNum.isBranch = false) (hr : I.OpNum.isReturning = false)
    (hp : I.OpNum ≠ .PUSHTRAP) : Quiet b s (GenCodeForInst w fuel b I s).state := by
  unfold GenCodeForInst
  split
  · -- CONST0
    exact quiet_setConst w b _ s
  · -- CONST1
    exact quiet_setConst w b _ s
  · -- CONST2
    exact quiet_setConst w b _ s
  · -- CONST3
    exact quiet_setConst w b _ s
  · -- CONSTINT
    exact quiet_setConst w b _ s
  · -- PUSHCONST0
    exact quiet_trans (quiet_push b true s) (quiet_setConst w b _ _)
  · -- PUSHCONST1
    exact quiet_trans (quiet_push b true s) (quiet_setConst w b _ _)
  · -- PUSHCONST2
    exact quiet_trans (quiet_push b true s) (quiet_setConst w b _ _)
  · -- PUSHCONST3
    exact quiet_trans (quiet_push b true s) (quiet_setConst w b _ _)
  · -- PUSHCONSTINT
    exact quiet_trans (quiet_push b true s) (quiet_setConst w b _ _)
  · -- POP
    exact popN_quiet fuel b _ s
  · -- PUSH
    exact quiet_push b true s
  · -- PUSH_RETADDR
    exact quiet_trans (quiet_trans (quiet_push b true s) (quiet_push b true _)) (quiet_push b true _)
  · -- PUSHTRAP
    rename_i h
    exact absurd h hp
  · -- POPTRAP
    exact quiet_trans (quiet_CreateCall (.rt .removeExceptionContext) [] s) (popN_quiet fuel b 4 _)
  · -- RAISE
    rename_i h
    simp [h, Opcode.isReturning] at hr
  · -- ACC0
    exact acc_quiet fuel b _ s
  · -- ACC1
    exact acc_quiet fuel b _ s
  · -- ACC2
    exact acc_quiet fuel b _ s
  · -- ACC3
    exact acc_quiet fuel b _ s
  · -- ACC4
    exact acc_quiet fuel b _ s
  · -- ACC5
    exact acc_quiet fuel b _ s
  · -- ACC6
    exact acc_quiet fuel b _ s
  · -- ACC7
    exact acc_quiet fuel b _ s
  · -- ACC
    exact acc_quiet fuel b _ s
  · -- PUSHACC0
    exact pushAcc_quiet fuel b _ s
  · -- PUSHACC1
    exact pushAcc_quiet fuel b _ s
  · -- PUSHACC2
    exact pushAcc_quiet fuel b _ s
  · -- PUSHACC3
    exact pushAcc_quiet fuel b _ s
  · -- PUSHACC4
    exact pushAcc_quiet fuel b _ s
  · -- PUSHACC5
    exact pushAcc_quiet fuel b _ s
  · -- PUSHACC6
    exact pushAcc_quiet fuel b _ s
  · -- PUSHACC7
    exact pushAcc_quiet fuel b _ s
  · -- PUSHACC
    exact pushAcc_quiet fuel b _ s
  · -- ENVACC1
    exact quiet_envAcc w b _ s
  · -- ENVACC2
    exact quiet_envAcc w b _ s
  · -- ENVACC3
    exact quiet_envAcc w b _ s
  · -- ENVACC4
    exact quiet_envAcc w b _ s
  · -- ENVACC
    exact quiet_envAcc w b _ s
  · -- PUSHENVACC1
    exact quiet_trans (quiet_push b true s) (quiet_envAcc w b _ _)
  · -- PUSHENVACC2
    exact quiet_trans (quiet_push b true s) (quiet_envAcc w b _ _)
  · -- PUSHENVACC3
    exact quiet_trans (quiet_push b true s) (quiet_envAcc w b _ _)
  · -- PUSHENVACC4
    exact quiet_trans (quiet_push b true s) (quiet_envAcc w b _ _)
  · -- PUSHENVACC
    exact quiet_trans (quiet_push b true s) (quiet_envAcc w b _ _)
  · -- ADDINT
    apply quiet_seq
    · exact stackPop_quiet fuel b s
    · intro v s1
      refine quiet_then (quiet_setAccu b _ _) ?_
      refine quiet_then (quiet_CreateBin _ _ _ _) ?_
      refine quiet_then (quiet_CreateBin _ _ _ _) ?_
      refine quiet_then (quiet_castToInt _ _) ?_
      exact quiet_castToInt _ _
  · -- NEGINT
    refine quiet_then (quiet_setAccu b _ _) ?_
    exact quiet_CreateBin _ _ _ s
  · -- SUBINT
    apply quiet_seq
    · exact stackPop_quiet fuel b s
    · intro v s1
      refine quiet_then (quiet_setAccu b _ _) ?_
      refine quiet_then (quiet_CreateBin _ _ _ _) ?_
      exact quiet_CreateBin _ _ _ _
  · -- MULINT
    apply quiet_seq
    · exact stackPop_quiet fuel b s
    · intro v s1
      refine quiet_then (quiet_setAccu b _ _) ?_
      refine quiet_then (quiet_valInt _ _ _) ?_
      refine quiet_then (quiet_CreateBin _ _ _ _) ?_
      refine quiet_then (quiet_intVal _ _) ?_
      exact quiet_intVal _ _
  · -- DIVINT
    apply quiet_seq
    · exact stackPop_quiet fuel b s
    · intro v s1
      refine quiet_then (quiet_setAccu b _ _) ?_
      refine quiet_then (quiet_valInt _ _ _) ?_
      refine quiet_then (quiet_CreateBin _ _ _ _) ?_
      refine quiet_then (quiet_intVal _ _) ?_
      exact quiet_intVal _ _
  · -- MODINT
    apply quiet_seq
    · exact stackPop_quiet fuel b s
    · intro v s1
      refine quiet_then (quiet_setAccu b _ _) ?_
      refine quiet_then (quiet_valInt _ _ _) ?_
      refine quiet_then (quiet_CreateBin _ _ _ _) ?_
      refine quiet_then (quiet_intVal _ _) ?_
      exact quiet_intVal _ _
  · -- OFFSETINT
    refine quiet_then (quiet_setAccu b _ _) ?_
    exact quiet_CreateBin _ _ _ s
  · -- GTINT
    apply quiet_seq
    · exact stackPop_quiet fuel b s
    · intro v s1
      refine quiet_then (quiet_setAccu b _ _) ?_
      exact quiet_CreateICmp _ _ _ _
  · -- NEQ
    apply quiet_seq
    · exact stackPop_quiet fuel b s
    · intro v s1
      refine quiet_then (quiet_setAccu b _ _) ?_
      exact quiet_CreateICmp _ _ _ _
  · -- ASSIGN
    apply quiet_seq
    · exact getStackAt_quiet fuel b _ none s
    · intro k s1
      exact quiet_setBlock s1 b _ rfl rfl rfl rfl rfl
  · -- PUSHGETGLOBAL
    exact quiet_trans (quiet_push b true s) (quiet_callToAccu b _ _ _)
  · -- GETGLOBAL
    exact quiet_callToAccu b _ _ s
  · -- SETGLOBAL
    exact quiet_CreateCall _ _ s
  · -- PUSHATOM0
    exact quiet_trans (quiet_push b true s) (quiet_callToAccu b _ _ _)
  · -- ATOM0
    exact quiet_callToAccu b _ _ s
  · -- PUSHATOM
    exact quiet_trans (quiet_push b true s) (quiet_callToAccu b _ _ _)
  · -- ATOM
    exact quiet_callToAccu b _ _ s
  · -- MAKEBLOCK1
    exact quiet_callToAccu b _ _ s
  · -- MAKEBLOCK2
    apply quiet_seq
    · exact getStackAt_quiet fuel b 0 none s
    · intro v0 s1
      exact quiet_trans (quiet_callToAccu b _ _ s1) (popN_quiet fuel b 1 _)
  · -- MAKEBLOCK3
    apply quiet_seq
    · exact getStackAt_quiet fuel b 0 none s
    · intro v0 s1
      apply quiet_seq
      · exact getStackAt_quiet fuel b 1 none s1
      · intro v1 s2
        exact quiet_trans (quiet_callToAccu b _ _ s2) (popN_quiet fuel b 2 _)
  · -- SETFIELD0
    exact makeSetField_quiet w fuel b _ s
  · -- SETFIELD1
    exact makeSetField_quiet w fuel b _ s
  · -- SETFIELD2
    exact makeSetField_quiet w fuel b _ s
  · -- SETFIELD3
    exact makeSetField_quiet w fuel b _ s
  · -- SETFIELD
    exact makeSetField_quiet w fuel b _ s
  · -- GETFIELD0
    exact quiet_makeGetField w b _ s
  · -- GETFIELD1
    exact quiet_makeGetField w b _ s
  · -- GETFIELD2
    exact quiet_makeGetField w b _ s
  · -- GETFIELD3
    exact quiet_makeGetField w b _ s
  · -- GETFIELD
    exact quiet_makeGetField w b _ s
  · -- CLOSUREREC
    split
    · apply quiet_seq
      · exact makeClosure_quiet w fuel b _ _ s
      · intro _ s1
        exact quiet_push b true s1
    · exact quiet_refl b s
  · -- CLOSURE
    exact makeClosure_quiet w fuel b _ _ s
  · -- PUSHOFFSETCLOSURE0
    exact quiet_trans (quiet_trans (quiet_trans (quiet_push b true s)
      (quiet_CreateCall (.rt .getEnv) [] _)) (quiet_setAccu b _ _))
      (quiet_of_eq rfl rfl rfl (fun _ => ⟨rfl, rfl, rfl, rfl, rfl⟩))
  · -- OFFSETCLOSURE0
    exact quiet_trans (quiet_trans (quiet_CreateCall (.rt .getEnv) [] s) (quiet_setAccu b _ _))
      (quiet_of_eq rfl rfl rfl (fun _ => ⟨rfl, rfl, rfl, rfl, rfl⟩))
  · -- C_CALL1
    exact makePrimCall_quiet w fuel b _ _ s
  · -- C_CALL2
    exact makePrimCall_quiet w fuel b _ _ s
  · -- C_CALL3
    exact makePrimCall_quiet w fuel b _ _ s
  · -- C_CALL4
    exact makePrimCall_quiet w fuel b _ _ s
  · -- C_CALL5
    exact makePrimCall_quiet w fuel b _ _ s
  · -- APPLY1
    exact makeApply_quiet w fuel b _ s
  · -- APPLY2
    exact makeApply_quiet w fuel b _ s
  · -- APPLY3
    exact makeApply_quiet w fuel b _ s
  · -- APPLY
    exact makeApply_quiet w fuel b _ s
  · -- APPTERM1
    rename_i h
    simp [h, Opcode.isReturning] at hr
  · -- APPTERM2
    rename_i h
    simp [h, Opcode.isReturning] at hr
  · -- APPTERM3
    rename_i h
    simp [h, Opcode.isReturning] at hr
  · -- APPTERM
    rename_i h
    simp [h, Opcode.isReturning] at hr
  · -- STOP
    rename_i h
    simp [h, Opcode.isReturning] at hr
  · -- RETURN
    rename_i h
    simp [h, Opcode.isReturning] at hr
  · -- BRANCH
    rename_i h
    simp [h, Opcode.isBranch] at hb
  · -- BRANCHIF
    rename_i h
    simp [h, Opcode.isBranch] at hb
  · -- BRANCHIFNOT
    rename_i h
    simp [h, Opcode.isBranch] at hb
  · -- EQ
    apply quiet_seq
    · exact stackPop_quiet fuel b s
    · intro v s1
      refine quiet_then (quiet_setAccu b _ _) ?_
      exact quiet_CreateICmp _ _ _ _
  · -- BEQ
    rename_i h
    simp [h, Opcode.isBranch] at hb
  · -- BNEQ
    rename_i h
    simp [h, Opcode.isBranch] at hb
  · -- BLTINT
    rename_i h
    simp [h, Opcode.isBranch] at hb
  · -- BLEINT
    rename_i h
    simp [h, Opcode.isBranch] at hb
  · -- BGTINT
    rename_i h
    simp [h, Opcode.isBranch] at hb
  · -- BGEINT
    rename_i h
    simp [h, Opcode.isBranch] at hb
  · -- BULTINT
    rename_i h
    simp [h, Opcode.isBranch] at hb
  · -- BUGEINT
    rename_i h
    simp [h, Opcode.isBranch] at hb
  · -- CHECK_SIGNALS
    exact quiet_refl b s
  · -- OTHER
    exact quiet_refl b s

/-- A completed compare-and-branch emits a comparison and then a conditional branch. -/
theorem cmpBranch_terminator (w b : Nat) (p : Pred) (I : ZInstruction) (s s' : GenFunction)
    (h : cmpBranch w b p I s = .ok () s') :
    ∃ s1 t, Quiet b s s1 ∧ s' = s1.emit t ∧ t.isTerminator = true := by
  simp only [cmpBranch, makebr] at h
  have hq := @quiet_CreateICmp b p (ConstInt w (Val_int (I.arg 0))) (s.Blocks b).Accu s
  generalize CreateICmp p (ConstInt w (Val_int (I.arg 0))) (s.Blocks b).Accu s = p1 at h hq
  cases hB : (p1.2.Blocks b).BrBlock with
  | none => simp [hB] at h
  | some t =>
    cases hN : (p1.2.Blocks b).NoBrBlock with
    | none => simp [hB, hN] at h
    | some f =>
      simp only [hB, hN, Res.ok.injEq, true_and] at h
      subst h
      exact ⟨p1.2, _, hq, rfl, rfl⟩

/-- A completed branch or return instruction emits instructions that are no terminators
and then exactly one terminator, at the insertion point. -/
theorem GenCodeForInst_terminator (w fuel b : Nat) (I : ZInstruction) (s s' : GenFunction)
    (ht : I.OpNum.isBranch = true ∨ I.OpNum.isReturning = true)
    (h : GenCodeForInst w fuel b I s = .ok () s') :
    ∃ s1 t, Quiet b s s1 ∧ s' = s1.emit t ∧ t.isTerminator = true := by
  cases hop : I.OpNum
  all_goals first
    | (simp [hop, Opcode.isBranch, Opcode.isReturning] at ht; done)
    | skip
  case RAISE =>
    simp only [GenCodeForInst, hop, Res.ok.injEq, true_and] at h
    subst h
    exact ⟨_, _, quiet_CreateCall (.rt .throwException) [(s.Blocks b).Accu] s, rfl, rfl⟩
  case STOP =>
    simp only [GenCodeForInst, hop, Res.ok.injEq, true_and] at h
    subst h
    exact ⟨s, _, quiet_refl b s, rfl, rfl⟩
  case RETURN =>
    simp only [GenCodeForInst, hop, Res.ok.injEq, true_and] at h
    subst h
    exact ⟨s, _, quiet_refl b s, rfl, rfl⟩
  case APPTERM1 =>
    simp only [GenCodeForInst, hop] at h
    cases hm : makeApply w fuel b 1 s with
    | err e s1 => simp [hm, Res.bind] at h
    | ok u s1 =>
      simp only [hm, Res.bind, Res.ok.injEq, true_and] at h
      subst h
      have hq := @makeApply_quiet b w fuel b 1 s
      rw [hm] at hq
      exact ⟨s1, _, hq, rfl, rfl⟩
  case APPTERM2 =>
    simp only [GenCodeForInst, hop] at h
    cases hm : makeApply w fuel b 2 s with
    | err e s1 => simp [hm, Res.bind] at h
    | ok u s1 =>
      simp only [hm, Res.bind, Res.ok.injEq, true_and] at h
      subst h
      have hq := @makeApply_quiet b w fuel b 2 s
      rw [hm] at hq
      exact ⟨s1, _, hq, rfl, rfl⟩
  case APPTERM3 =>
    simp only [GenCodeForInst, hop] at h
    cases hm : makeApply w fuel b 3 s with
    | err e s1 => simp [hm, Res.bind] at h
    | ok u s1 =>
      simp only [hm, Res.bind, Res.ok.injEq, true_and] at h
      subst h
      have hq := @makeApply_quiet b w fuel b 3 s
      rw [hm] at hq
      exact ⟨s1, _, hq, rfl, rfl⟩
  case APPTERM =>
    simp only [GenCodeForInst, hop] at h
    cases hm : makeApply w fuel b (I.arg 0).toNat s with
    | err e s1 => simp [hm, Res.bind] at h
    | ok u s1 =>
      simp only [hm, Res.bind, Res.ok.injEq, true_and] at h
      subst h
      have hq := @makeApply_quiet b w fuel b (I.arg 0).toNat s
      rw [hm] at hq
      exact ⟨s1, _, hq, rfl, rfl⟩
  case BRANCH =>
    simp only [GenCodeForInst, hop] at h
    cases hB : (s.Blocks b).BrBlock with
    | none => simp [hB] at h
    | some t =>
      simp only [hB, Res.ok.injEq, true_and] at h
      subst h
      exact ⟨s, _, quiet_refl b s, rfl, rfl⟩
  case BRANCHIF =>
    simp only [GenCodeForInst, hop] at h
    have hq := @quiet_CreateIntCastI1 b (s.Blocks b).Accu s
    generalize CreateIntCastI1 (s.Blocks b).Accu s = p1 at h hq
    cases hB : (p1.2.Blocks b).BrBlock with
    | none => simp [hB] at h
    | some t =>
      cases hN : (p1.2.Blocks b).NoBrBlock with
      | none => simp [hB, hN] at h
      | some f =>
        simp only [hB, hN, Res.ok.injEq, true_and] at h
        subst h
        exact ⟨p1.2, _, hq, rfl, rfl⟩
  case BRANCHIFNOT =>
    simp only [GenCodeForInst, hop] at h
    have hq := @quiet_CreateIntCastI1 b (s.Blocks b).Accu s
    generalize CreateIntCastI1 (s.Blocks b).Accu s = p1 at h hq
    cases hB : (p1.2.Blocks b).BrBlock with
    | none => simp [hB] at h
    | some t =>
      cases hN : (p1.2.Blocks b).NoBrBlock with
      | none => simp [hB, hN] at h
      | some f =>
        simp only [hB, hN, Res.ok.injEq, true_and] at h
        subst h
        exact ⟨p1.2, _, hq, rfl, rfl⟩
  case BEQ =>
    simp only [GenCodeForInst, hop] at h
    exact cmpBranch_terminator w b _ I s s' h
  case BNEQ =>
    simp only [GenCodeForInst, hop] at h
    exact cmpBranch_terminator w b _ I s s' h
  case BLTINT =>
    simp only [GenCodeForInst, hop] at h
    exact cmpBranch_terminator w b _ I s s' h
  case BLEINT =>
    simp only [GenCodeForInst, hop] at h
    exact cmpBranch_terminator w b _ I s s' h
  case BGTINT =>
    simp only [GenCodeForInst, hop] at h
    exact cmpBranch_terminator w b _ I s s' h
  case BGEINT =>
    simp only [GenCodeForInst, hop] at h
    exact cmpBranch_terminator w b _ I s s' h
  case BULTINT =>
    simp only [GenCodeForInst, hop] at h
    exact cmpBranch_terminator w b _ I s s' h
  case BUGEINT =>
    simp only [GenCodeForInst, hop] at h
    exact cmpBranch_terminator w b _ I s s' h

theorem instsOf_append (s s' : GenFunction) (new : List (BBId × Instr)) (bb : BBId)
    (h : s'.Insts = s.Insts ++ new) :
    s'.instsOf bb = s.instsOf bb ++ (new.filter (fun p => decide (p.1 = bb))).map Prod.snd := by
  simp [GenFunction.instsOf, h]

/-- Instructions emitted in other backend blocks leave the block `bb` as it is. -/
theorem instsOf_append_of_ne (s s' : GenFunction) (new : List (BBId × Instr)) (bb : BBId)
    (h : s'.Insts = s.Insts ++ new) (hne : ∀ p ∈ new, p.1 ≠ bb) :
    s'.instsOf bb = s.instsOf bb := by
  rw [instsOf_append s s' new bb h]
  have : new.filter (fun p => decide (p.1 = bb)) = [] := by
    rw [List.filter_eq_nil_iff]
    intro p hp
    simpa using hne p hp
  simp [this]

theorem closed_of_instsOf_eq {s s' : GenFunction} {bb : BBId}
    (h : s'.instsOf bb = s.instsOf bb) (hc : Closed s bb) : Closed s' bb := by
  unfold Closed at hc ⊢
  rw [h]
  exact hc

theorem unterminated_append {s s' : GenFunction} {new : List (BBId × Instr)} {bb : BBId}
    (h : s'.Insts = s.Insts ++ new) (hn : ∀ p ∈ new, p.2.isTerminator = false)
    (hu : Unterminated s bb) : Unterminated s' bb := by
  intro i hi
  rw [instsOf_append s s' new bb h] at hi
  rcases List.mem_append.mp hi with h1 | h1
  · exact hu i h1
  · obtain ⟨p, hp, rfl⟩ := List.mem_map.mp h1
    exact hn p (List.mem_filter.mp hp).1

/-- A terminator appended to a block without terminator closes it. -/
theorem closed_of_unterminated {s s' : GenFunction} {bb : BBId} (t : Instr)
    (h : s'.instsOf bb = s.instsOf bb ++ [t]) (ht : t.isTerminator = true)
    (hu : Unterminated s bb) : Closed s' bb := by
  unfold Closed
  rw [h]
  have hf : (s.instsOf bb).filter Instr.isTerminator = [] := by
    rw [List.filter_eq_nil_iff]
    intro i hi
    simp [hu i hi]
  refine ⟨by simp [ht], ?_⟩
  rw [List.filter_append, hf]
  simp [ht]

theorem not_closed_of_unterminated {s : GenFunction} {bb : BBId} (hu : Unterminated s bb) :
    ¬ Closed s bb := by
  intro hc
  have hf : (s.instsOf bb).filter Instr.isTerminator = [] := by
    rw [List.filter_eq_nil_iff]
    intro i hi
    simp [hu i hi]
  have := hc.2
  rw [hf] at this
  simp at this

/-- The instructions without terminator keep a block ungenerated, with the insertion point
in its current backend block. -/
theorem ungenerated_quiet {b : Nat} {s s' : GenFunction} (hU : Ungenerated b s)
    (hI : s.InsertBlock = (s.Blocks b).LlvmBlock) (hq : Quiet b s s') :
    Ungenerated b s' ∧ s'.InsertBlock = (s'.Blocks b).LlvmBlock := by
  obtain ⟨⟨init, hinit, hclosed⟩, hopen, hown, htrap, halloc, hlist, hlog⟩ := hU
  obtain ⟨hi, hn, hb, new, he, hp⟩ := hq
  have htarget : ∀ p ∈ new, p.1 = (s.Blocks b).LlvmBlock ∨
      ∃ c, c ≠ b ∧ 2 ≤ (s.Blocks c).PreviousBlocks.length ∧ p.1 = (s.Blocks c).LlvmBlock := by
    intro p hpn
    rcases (hp p hpn).2 with h | h | ⟨c, hc2, h⟩
    · exact Or.inl (h.trans hI)
    · exact Or.inl h
    · by_cases hcb : c = b
      · subst hcb
        exact Or.inl h
      · exact Or.inr ⟨c, hcb, hc2, h⟩
  have hnotinit : ∀ p ∈ new, ∀ bb ∈ init, p.1 ≠ bb := by
    intro p hpn bb hbb heq
    rcases htarget p hpn with hc | ⟨c, hcb, hc2, hc⟩
    · rw [heq] at hc
      rw [hc] at hbb
      exact not_closed_of_unterminated hopen (hclosed _ hbb)
    · apply hown c hcb hc2
      rw [hinit, ← hc, heq]
      exact List.mem_append_left _ hbb
  refine ⟨⟨⟨init, ?_, ?_⟩, ?_, ?_, ?_, ?_, ?_, ?_⟩, ?_⟩
  · rw [(hb b).2.1, (hb b).1]
    exact hinit
  · intro bb hbb
    exact closed_of_instsOf_eq
      (instsOf_append_of_ne s s' new bb he (fun p hpn => hnotinit p hpn bb hbb)) (hclosed bb hbb)
  · rw [(hb b).1]
    exact unterminated_append he (fun p hpn => (hp p hpn).1) hopen
  · intro c hc hc2
    rw [(hb c).2.2.2.2] at hc2
    rw [(hb c).1, (hb b).2.1]
    exact hown c hc hc2
  · intro I hI' hop hne
    rw [(hb b).2.2.1] at hI'
    rw [(hb _).1, (hb b).2.1]
    exact htrap I hI' hop hne
  · intro c
    rw [(hb c).1, hn]
    exact halloc c
  · intro bb hbb
    rw [(hb b).2.1] at hbb
    rw [hn]
    exact hlist bb hbb
  · intro p hpm
    rw [he] at hpm
    rw [hn]
    rcases List.mem_append.mp hpm with h | h
    · exact hlog p h
    · rcases htarget p h with hc | ⟨c, _, _, hc⟩
      · rw [hc]
        exact halloc b
      · rw [hc]
        exact halloc c
  · rw [(hb b).1]
    rcases hi with h | h
    · rw [h]; exact hI
    · exact h

theorem push_false_eq (c : Nat) (s : GenFunction) : push c false s
    = s.setBlock c { s.Blocks c with Stack := (s.Blocks c).Accu :: (s.Blocks c).Stack } := by
  simp [push]

/-- What the part of `PUSHTRAP` from the creation of the new backend block on does to a
state `s4`: it closes the insertion block with a conditional branch, emits two calls in the
current backend block of the handler `h`, and makes the new backend block the current one
of `b` and the insertion point. -/
theorem pushtrap_tail_facts (b h : Nat) (BoolVal : Value) (s4 s' : GenFunction)
    (hs : push b false (push b false (push b false (push b false
      (SetInsertPoint (addBlock b s4).1.2
        (CreateCall (.rt .removeExceptionContext) []
          (callToAccu h .getExceptionValue []
            (SetInsertPoint
              ((((addBlock b s4).2.emit (.condBr BoolVal
                (front ((addBlock b s4).2.Blocks h).LlvmBlocks) (addBlock b s4).1.2)).Blocks h).LlvmBlock)
              ((addBlock b s4).2.emit (.condBr BoolVal
                (front ((addBlock b s4).2.Blocks h).LlvmBlocks) (addBlock b s4).1.2))))).2)))) = s') :
    s'.NextBB = s4.NextBB + 1 ∧ s'.InsertBlock = s4.NextBB ∧
    (s'.Blocks b).LlvmBlock = s4.NextBB ∧
    (s'.Blocks b).LlvmBlocks = (s4.Blocks b).LlvmBlocks ++ [s4.NextBB] ∧
    (∀ c, c ≠ b → (s'.Blocks c).LlvmBlock = (s4.Blocks c).LlvmBlock) ∧
    (∀ c, (s'.Blocks c).Instructions = (s4.Blocks c).Instructions ∧
      (s'.Blocks c).NextBlocks = (s4.Blocks c).NextBlocks ∧
      (s'.Blocks c).PreviousBlocks = (s4.Blocks c).PreviousBlocks) ∧
    ∃ t i1 i2, s'.Insts = s4.Insts ++ [(s4.InsertBlock, t),
        (if h = b then s4.NextBB else (s4.Blocks h).LlvmBlock, i1),
        (if h = b then s4.NextBB else (s4.Blocks h).LlvmBlock, i2)] ∧
      t.isTerminator = true ∧ i1.isTerminator = false ∧ i2.isTerminator = false := by
  have hA : ∀ c, ((addBlock b s4).2.Blocks c).LlvmBlock
        = (if c = b then s4.NextBB else (s4.Blocks c).LlvmBlock) ∧
      ((addBlock b s4).2.Blocks c).LlvmBlocks
        = (if c = b then (s4.Blocks b).LlvmBlocks ++ [s4.NextBB] else (s4.Blocks c).LlvmBlocks) ∧
      ((addBlock b s4).2.Blocks c).Instructions = (s4.Blocks c).Instructions ∧
      ((addBlock b s4).2.Blocks c).NextBlocks = (s4.Blocks c).NextBlocks ∧
      ((addBlock b s4).2.Blocks c).PreviousBlocks = (s4.Blocks c).PreviousBlocks := by
    intro c
    by_cases hc : c = b
    · subst hc
      simp [addBlock]
    · simp [addBlock, GenFunction.setBlock, hc]
  -- the steps after the conditional branch keep the backend data of the blocks
  have hK : ∀ (sB : GenFunction) (N : BBId) (c : Nat),
      ((push b false (push b false (push b false (push b false
        (SetInsertPoint N
          (CreateCall (.rt .removeExceptionContext) []
            (callToAccu h .getExceptionValue []
              (SetInsertPoint (sB.Blocks h).LlvmBlock sB))).2))))).Blocks c).LlvmBlock
        = (sB.Blocks c).LlvmBlock ∧
      ((push b false (push b false (push b false (push b false
        (SetInsertPoint N
          (CreateCall (.rt .removeExceptionContext) []
            (callToAccu h .getExceptionValue []
              (SetInsertPoint (sB.Blocks h).LlvmBlock sB))).2))))).Blocks c).LlvmBlocks
        = (sB.Blocks c).LlvmBlocks ∧
      ((push b false (push b false (push b false (push b false
        (SetInsertPoint N
          (CreateCall (.rt .removeExceptionContext) []
            (callToAccu h .getExceptionValue []
              (SetInsertPoint (sB.Blocks h).LlvmBlock sB))).2))))).Blocks c).Instructions
        = (sB.Blocks c).Instructions ∧
      ((push b false (push b false (push b false (push b false
        (SetInsertPoint N
          (CreateCall (.rt .removeExceptionContext) []
            (callToAccu h .getExceptionValue []
              (SetInsertPoint (sB.Blocks h).LlvmBlock sB))).2))))).Blocks c).NextBlocks
        = (sB.Blocks c).NextBlocks ∧
      ((push b false (push b false (push b false (push b false
        (SetInsertPoint N
          (CreateCall (.rt .removeExceptionContext) []
            (callToAccu h .getExceptionValue []
              (SetInsertPoint (sB.Blocks h).LlvmBlock sB))).2))))).Blocks c).PreviousBlocks
        = (sB.Blocks c).PreviousBlocks := by
    intro sB N c
    have q1 : Quiet h sB (CreateCall (.rt .removeExceptionContext) []
        (callToAccu h .getExceptionValue [] (SetInsertPoint (sB.Blocks h).LlvmBlock sB))).2 :=
      quiet_trans (quiet_trans (quiet_SetInsertPoint h sB) (quiet_callToAccu h _ _ _))
        (quiet_CreateCall _ _ _)
    generalize (CreateCall (.rt .removeExceptionContext) []
        (callToAccu h .getExceptionValue [] (SetInsertPoint (sB.Blocks h).LlvmBlock sB))).2 = sE
      at q1
    have q2 : Quiet h (SetInsertPoint N sE) (push b false (push b false (push b false
        (push b false (SetInsertPoint N sE))))) :=
      quiet_trans (quiet_trans (quiet_trans (quiet_push b false _) (quiet_push b false _))
        (quiet_push b false _)) (quiet_push b false _)
    obtain ⟨a1, a2, a3, a4, a5⟩ := q1.2.2.1 c
    obtain ⟨c1, c2, c3, c4, c5⟩ := q2.2.2.1 c
    simp only [SetInsertPoint_Blocks] at c1 c2 c3 c4 c5
    exact ⟨c1.trans a1, c2.trans a2, c3.trans a3, c4.trans a4, c5.trans a5⟩
  subst hs
  have hK' := hK ((addBlock b s4).2.emit (.condBr BoolVal
    (front ((addBlock b s4).2.Blocks h).LlvmBlocks) (addBlock b s4).1.2)) (addBlock b s4).1.2
  refine ⟨?_, ?_, ?_, ?_, ?_, ?_, ?_⟩
  · simp only [push_false_eq]
    rfl
  · simp only [push_false_eq]
    rfl
  · rw [(hK' b).1]
    simpa using (hA b).1
  · rw [(hK' b).2.1]
    simpa using (hA b).2.1
  · intro c hc
    rw [(hK' c).1]
    simpa [hc] using (hA c).1
  · intro c
    rw [(hK' c).2.2.1, (hK' c).2.2.2.1, (hK' c).2.2.2.2]
    exact ⟨(hA c).2.2.1, (hA c).2.2.2.1, (hA c).2.2.2.2⟩
  · refine ⟨Instr.condBr BoolVal
        (front ((addBlock b s4).2.Blocks h).LlvmBlocks) (addBlock b s4).1.2,
      Instr.call (Value.call s4.NextId (Callee.rt RtFn.getExceptionValue).retTy)
          (.rt .getExceptionValue) [],
      Instr.call (Value.call (s4.NextId + 1) (Callee.rt RtFn.removeExceptionContext).retTy)
          (.rt .removeExceptionContext) [], ?_, rfl, rfl, rfl⟩
    rw [← (hA h).1]
    simp only [push_false_eq, setBlock_Insts]
    simp [SetInsertPoint, CreateCall, callToAccu, setAccu, GenFunction.emit, addBlock]

/-- The part of `PUSHTRAP` from the creation of the new backend block on keeps block `b`
ungenerated: the backend block it leaves is closed by the conditional branch, and the new
one is the current backend block and the insertion point. -/
theorem pushtrap_tail_ungenerated (b h : Nat) (BoolVal : Value) (s4 s' : GenFunction)
    (hs : push b false (push b false (push b false (push b false
      (SetInsertPoint (addBlock b s4).1.2
        (CreateCall (.rt .removeExceptionContext) []
          (callToAccu h .getExceptionValue []
            (SetInsertPoint
              ((((addBlock b s4).2.emit (.condBr BoolVal
                (front ((addBlock b s4).2.Blocks h).LlvmBlocks) (addBlock b s4).1.2)).Blocks h).LlvmBlock)
              ((addBlock b s4).2.emit (.condBr BoolVal
                (front ((addBlock b s4).2.Blocks h).LlvmBlocks) (addBlock b s4).1.2))))).2)))) = s')
    (hU : Ungenerated b s4) (hI : s4.InsertBlock = (s4.Blocks b).LlvmBlock)
    (hh : h ≠ b → (s4.Blocks h).LlvmBlock ∉ (s4.Blocks b).LlvmBlocks) :
    Ungenerated b s' ∧ s'.InsertBlock = (s'.Blocks b).LlvmBlock := by
  obtain ⟨hNB, hIB, hL, hLs, hother, hkeep, t, i1, i2, hnew, ht, hi1, hi2⟩ :=
    pushtrap_tail_facts b h BoolVal s4 s' hs
  obtain ⟨⟨init, hinit, hclosed⟩, hopen, hown, htrap, halloc, hlist, hlog⟩ := hU
  rw [hI] at hnew
  have hold : (s4.Blocks b).LlvmBlock < s4.NextBB := halloc b
  have holdmem : (s4.Blocks b).LlvmBlock ∈ (s4.Blocks b).LlvmBlocks := by
    rw [hinit]; simp
  have hH : (if h = b then s4.NextBB else (s4.Blocks h).LlvmBlock) ∉ (s4.Blocks b).LlvmBlocks := by
    by_cases hb : h = b
    · simp only [hb, if_true]
      intro hm
      exact absurd (hlist _ hm) (lt_irrefl _)
    · simp only [hb, if_false]
      exact hh hb
  have hHlt : (if h = b then s4.NextBB else (s4.Blocks h).LlvmBlock) < s4.NextBB + 1 := by
    by_cases hb : h = b
    · rw [if_pos hb]
      exact Nat.lt_succ_self _
    · rw [if_neg hb]
      exact Nat.lt_succ_of_lt (halloc h)
  generalize (if h = b then s4.NextBB else (s4.Blocks h).LlvmBlock) = H at hnew hH hHlt
  have hempty : s4.instsOf s4.NextBB = [] := by
    unfold GenFunction.instsOf
    rw [List.map_eq_nil_iff, List.filter_eq_nil_iff]
    intro p hp
    have hlt := hlog p hp
    simp only [decide_eq_true_eq]
    exact Nat.ne_of_lt hlt
  have hfresh : ∀ c, c ≠ b → (s4.Blocks c).LlvmBlock ∉ (s4.Blocks b).LlvmBlocks →
      (s'.Blocks c).LlvmBlock ∉ (s'.Blocks b).LlvmBlocks := by
    intro c hc hnm
    rw [hother c hc, hLs]
    intro hm
    rcases List.mem_append.mp hm with h1 | h1
    · exact hnm h1
    · simp only [List.mem_singleton] at h1
      exact absurd h1 (Nat.ne_of_lt (halloc c))
  refine ⟨⟨⟨init ++ [(s4.Blocks b).LlvmBlock], ?_, ?_⟩, ?_, ?_, ?_, ?_, ?_, ?_⟩, ?_⟩
  · rw [hLs, hL, hinit]
  · intro bb hbb
    rcases List.mem_append.mp hbb with hbi | hbo
    · have hbm : bb ∈ (s4.Blocks b).LlvmBlocks := by
        rw [hinit]; exact List.mem_append_left _ hbi
      apply closed_of_instsOf_eq _ (hclosed bb hbi)
      apply instsOf_append_of_ne s4 s' _ bb hnew
      intro p hp
      simp only [List.mem_cons, List.mem_singleton, List.not_mem_nil, or_false] at hp
      rcases hp with rfl | rfl | rfl
      · intro heq
        simp only at heq
        rw [← heq] at hbi
        exact not_closed_of_unterminated hopen (hclosed _ hbi)
      · intro heq
        simp only at heq
        exact hH (heq ▸ hbm)
      · intro heq
        simp only at heq
        exact hH (heq ▸ hbm)
    · simp only [List.mem_singleton] at hbo
      subst hbo
      apply closed_of_unterminated t _ ht hopen
      rw [instsOf_append s4 s' _ _ hnew]
      have hne : ¬ H = (s4.Blocks b).LlvmBlock := fun heq => hH (heq ▸ holdmem)
      simp [List.filter_cons, hne]
  · rw [hL]
    intro i hi
    rw [instsOf_append s4 s' _ _ hnew, hempty, List.nil_append] at hi
    obtain ⟨p, hp, rfl⟩ := List.mem_map.mp hi
    obtain ⟨hpn, hpe⟩ := List.mem_filter.mp hp
    simp only [decide_eq_true_eq] at hpe
    simp only [List.mem_cons, List.mem_singleton, List.not_mem_nil, or_false] at hpn
    rcases hpn with rfl | rfl | rfl
    · simp only at hpe
      exact absurd hpe (Nat.ne_of_lt hold)
    · exact hi1
    · exact hi2
  · intro c hc hc2
    rw [(hkeep c).2.2] at hc2
    exact hfresh c hc (hown c hc hc2)
  · intro I hI' hop hne
    rw [(hkeep b).1] at hI'
    exact hfresh _ hne (htrap I hI' hop hne)
  · intro c
    rw [hNB]
    by_cases hc : c = b
    · subst hc
      rw [hL]
      exact Nat.lt_succ_self _
    · rw [hother c hc]
      exact Nat.lt_succ_of_lt (halloc c)
  · intro bb hbb
    rw [hLs] at hbb
    rw [hNB]
    rcases List.mem_append.mp hbb with h1 | h1
    · exact Nat.lt_succ_of_lt (hlist bb h1)
    · simp only [List.mem_singleton] at h1
      rw [h1]
      exact Nat.lt_succ_self _
  · intro p hp
    rw [hnew] at hp
    rw [hNB]
    rcases List.mem_append.mp hp with h1 | h1
    · exact Nat.lt_succ_of_lt (hlog p h1)
    · simp only [List.mem_cons, List.mem_singleton, List.not_mem_nil, or_false] at h1
      rcases h1 with rfl | rfl | rfl
      · exact Nat.lt_succ_of_lt hold
      · exact hHlt
      · exact hHlt
  · rw [hIB, hL]

/-- The instruction `PUSHTRAP` keeps block `b` ungenerated, with one more closed backend
block. -/
theorem pushtrap_ungenerated (w fuel b : Nat) (I : ZInstruction) (s s' : GenFunction)
    (hop : I.OpNum = .PUSHTRAP) (hmem : I ∈ (s.Blocks b).Instructions) (hU : Ungenerated b s)
    (hI : s.InsertBlock = (s.Blocks b).LlvmBlock)
    (h : GenCodeForInst w fuel b I s = .ok () s') :
    (Ungenerated b s' ∧ s'.InsertBlock = (s'.Blocks b).LlvmBlock) ∧
      (s'.Blocks b).Instructions = (s.Blocks b).Instructions ∧
      (s'.Blocks b).NextBlocks = (s.Blocks b).NextBlocks := by
  simp only [GenCodeForInst, hop, Res.ok.injEq, true_and] at h
  have hq1 := @quiet_CreateCall b (.rt .getNewBuffer) [] s
  generalize CreateCall (.rt .getNewBuffer) [] s = p1 at h hq1
  have hq2 := quiet_trans hq1 (@quiet_emitVal b p1.2 (fun id => Value.cast id .bitCast p1.1))
  generalize p1.2.emitVal (fun id => Value.cast id .bitCast p1.1) = p2 at h hq2
  have hq3 := quiet_trans hq2 (@quiet_CreateCall b (.rt .setjmp) [p2.1] p2.2)
  generalize CreateCall (.rt .setjmp) [p2.1] p2.2 = p3 at h hq3
  have hq4 := quiet_trans hq3 (@quiet_CreateIntCastI1 b p3.1 p3.2)
  generalize CreateIntCastI1 p3.1 p3.2 = p4 at h hq4
  have hU4 := ungenerated_quiet hU hI hq4
  have hF := pushtrap_tail_facts b (I.arg 0).toNat p4.1 p4.2 s' h
  have hmem4 : I ∈ (p4.2.Blocks b).Instructions := by
    rw [(hq4.2.2.1 b).2.2.1]
    exact hmem
  refine ⟨pushtrap_tail_ungenerated b (I.arg 0).toNat p4.1 p4.2 s' h hU4.1 hU4.2
    (fun hne => hU4.1.2.2.2.1 I hmem4 hop hne), ?_, ?_⟩
  · rw [(hF.2.2.2.2.2.1 b).1]
    exact (hq4.2.2.1 b).2.2.1
  · rw [(hF.2.2.2.2.2.1 b).2.1]
    exact (hq4.2.2.1 b).2.2.2.1

theorem genInsts_append (w fuel b : Nat) (l1 l2 : List ZInstruction) (s : GenFunction) :
    genInsts w fuel b (l1 ++ l2) s
      = (genInsts w fuel b l1 s).bind fun _ s1 => genInsts w fuel b l2 s1 := by
  induction l1 generalizing s with
  | nil => rfl
  | cons I l1 ih =>
    simp only [List.cons_append, genInsts]
    cases GenCodeForInst w fuel b I s with
    | ok u s1 => simp only [Res.bind]; exact ih s1
    | err e s1 => rfl

/-- One instruction that is neither a branch nor a return keeps block `b` ungenerated. -/
theorem GenCodeForInst_ungenerated (w fuel b : Nat) (I : ZInstruction) (s s' : GenFunction)
    (hb : I.OpNum.isBranch = false) (hr : I.OpNum.isReturning = false)
    (hmem : I ∈ (s.Blocks b).Instructions) (hU : Ungenerated b s) (hI : s.InsertBlock = (s.Blocks b).LlvmBlock)
    (h : GenCodeForInst w fuel b I s = .ok () s') :
    (Ungenerated b s' ∧ s'.InsertBlock = (s'.Blocks b).LlvmBlock) ∧
      (s'.Blocks b).Instructions = (s.Blocks b).Instructions ∧
      (s'.Blocks b).NextBlocks = (s.Blocks b).NextBlocks := by
  by_cases hp : I.OpNum = .PUSHTRAP
  · exact pushtrap_ungenerated w fuel b I s s' hp hmem hU hI h
  · have hq := GenCodeForInst_quiet w fuel b I s hb hr hp
    rw [h] at hq
    exact ⟨ungenerated_quiet hU hI hq, (hq.2.2.1 b).2.2.1, (hq.2.2.1 b).2.2.2.1⟩

/-- A run of instructions without branch and return keeps block `b` ungenerated. -/
theorem genInsts_ungenerated (w fuel b : Nat) (l : List ZInstruction) :
    ∀ (s s' : GenFunction),
      (∀ I ∈ l, I.OpNum.isBranch = false ∧ I.OpNum.isReturning = false) →
      (∀ I ∈ l, I ∈ (s.Blocks b).Instructions) →
      Ungenerated b s → s.InsertBlock = (s.Blocks b).LlvmBlock →
      genInsts w fuel b l s = .ok () s' →
      (Ungenerated b s' ∧ s'.InsertBlock = (s'.Blocks b).LlvmBlock) ∧
        (s'.Blocks b).Instructions = (s.Blocks b).Instructions ∧
        (s'.Blocks b).NextBlocks = (s.Blocks b).NextBlocks := by
  induction l with
  | nil =>
    intro s s' _ _ hU hI h
    simp only [genInsts, Res.ok.injEq, true_and] at h
    subst h
    exact ⟨⟨hU, hI⟩, rfl, rfl⟩
  | cons I l ih =>
    intro s s' hl hm hU hI h
    simp only [genInsts] at h
    cases h1 : GenCodeForInst w fuel b I s with
    | err e s1 => simp [h1, Res.bind] at h
    | ok u s1 =>
      simp only [h1, Res.bind] at h
      obtain ⟨⟨hU1, hI1⟩, hi1, hn1⟩ := GenCodeForInst_ungenerated w fuel b I s s1
        (hl I (List.mem_cons_self _ _)).1 (hl I (List.mem_cons_self _ _)).2
        (hm I (List.mem_cons_self _ _)) hU hI h1
      obtain ⟨hUI, hi2, hn2⟩ := ih s1 s' (fun J hJ => hl J (List.mem_cons_of_mem _ hJ))
        (fun J hJ => by rw [hi1]; exact hm J (List.mem_cons_of_mem _ hJ)) hU1 hI1 h
      exact ⟨hUI, hi2.trans hi1, hn2.trans hn1⟩

/-- A terminator emitted in the current backend block of an ungenerated block closes the
last of its backend blocks. -/
theorem closed_of_ungenerated (b : Nat) (sq s2 : GenFunction) (t : Instr)
    (hU : Ungenerated b sq) (hB : s2.Blocks = sq.Blocks)
    (hE : s2.Insts = sq.Insts ++ [((sq.Blocks b).LlvmBlock, t)]) (ht : t.isTerminator = true) :
    (s2.Blocks b).LlvmBlocks ≠ [] ∧ ∀ bb ∈ (s2.Blocks b).LlvmBlocks, Closed s2 bb := by
  obtain ⟨⟨init, hinit, hclosed⟩, hopen, _, _, _, _, _⟩ := hU
  rw [hB, hinit]
  refine ⟨by simp, fun bb hbb => ?_⟩
  rcases List.mem_append.mp hbb with hbi | hbo
  · apply closed_of_instsOf_eq _ (hclosed bb hbi)
    apply instsOf_append_of_ne sq s2 _ bb hE
    intro p hp heq
    simp only [List.mem_singleton] at hp
    subst hp
    simp only at heq
    rw [← heq] at hbi
    exact not_closed_of_unterminated hopen (hclosed _ hbi)
  · simp only [List.mem_singleton] at hbo
    subst hbo
    apply closed_of_unterminated t _ ht hopen
    rw [instsOf_append sq s2 _ _ hE]
    simp

/-- C21 (failing input): after block 0 `CONST0; PUSH; CONST1; PUSH`, its successor block 1 has
an empty local stack and reads the encoding of 0 at `stack[1]` (through block 0). `POP 1` in
block 1 reads `stack[0]` and then removes the front of the empty local stack: the instruction
does not complete, with any bound on the nesting of the stack reads, so no read of `stack[0]`
after it returns what `stack[1]` returned before. -/
theorem pop_below_local_stack (w : Nat) :
    ∃ s1, (∀ fuel, CodeGen w (fuel + 1) 0 progPopBelow = .ok () s1) ∧
      (s1.Blocks 0).Stack = [ConstInt w (Val_int 1), ConstInt w (Val_int 0)] ∧
      (s1.Blocks 1).Stack = [] ∧
      (∀ fuel, ∃ s2, getStackAt (fuel + 2) 1 1 none s1 = .ok (ConstInt w (Val_int 0)) s2) ∧
      (∀ fuel, ∃ s2, GenCodeForInst w (fuel + 2) 1 (op1 .POP 1) s1 = .err .popFrontEmpty s2) ∧
      ∀ fuel s2, GenCodeForInst w fuel 1 (op1 .POP 1) s1 ≠ .ok () s2 := by
  refine ⟨(CodeGen w 1 0 progPopBelow).state, fun fuel => rfl, rfl, rfl,
    fun fuel => ⟨_, rfl⟩, fun fuel => ⟨_, rfl⟩, ?_⟩
  intro fuel s2
  match fuel with
  | 0 => intro h; cases h
  | 1 => intro h; cases h
  | fuel + 2 =>
    have h : GenCodeForInst w (fuel + 2) 1 (op1 .POP 1) (CodeGen w 1 0 progPopBelow).state
        = .err .popFrontEmpty _ := rfl
    rw [h]
    intro h2
    cases h2

/-! ## Captured fields of `CLOSURE` -/

/-- The field loop of `makeClosure` on a local stack with at least `k` entries: the `k` calls
of `closureSetVar` receive the top `k` entries, looked up through the mutation map, top
first, with the field numbers `N - k, ..., N - 1`; the entries are removed. -/
theorem closureFields_local (w fuel b : Nat) (Closure : Value) (N : Nat) :
    ∀ (k : Nat) (s : GenFunction) (T : Nat → Value),
      k ≤ (s.Blocks b).Stack.length → k ≤ N →
      (∀ i, i < k → getMutatedValue (s.Blocks b).MutatedVals (fuel + 1)
        ((s.Blocks b).Stack.getD i .null) = some (T i)) →
      ∃ s', closureFields w (fuel + 1) b Closure N k s = .ok () s' ∧
        s'.Insts = s.Insts ++ (List.range k).map (fun i =>
          (s.InsertBlock, Instr.call (.call (s.NextId + i) .word) (.rt .closureSetVar)
            [Closure, ConstInt w ((N - k + i : Nat)), T i])) ∧
        (s'.Blocks b).Stack = (s.Blocks b).Stack.drop k ∧
        (s'.Blocks b).Accu = (s.Blocks b).Accu ∧
        s'.ClosuresFunctions = s.ClosuresFunctions ∧ s'.Functions = s.Functions := by
  intro k
  induction k with
  | zero => intro s T _ _ _; exact ⟨s, rfl, by simp, by simp, rfl, rfl, rfl⟩
  | succ k ih =>
    intro s T hk hN hT
    match hS : (s.Blocks b).Stack, hk with
    | [], hk => simp at hk
    | v :: rest, hk =>
      have h0 := hT 0 (by omega)
      rw [hS] at h0
      simp only [List.getD_cons_zero] at h0
      have hpop := stackPop_cons fuel b s v (T 0) rest hS h0
      obtain ⟨s', hs', hI, hSt, hA, hC, hF⟩ := ih
        (CreateCall (.rt .closureSetVar) [Closure, ConstInt w ((N - (k + 1) : Nat)), T 0]
          (s.setBlock b { s.Blocks b with Stack := rest })).2
        (fun i => T (i + 1))
        (by simp [CreateCall] at hk ⊢; omega) (by omega)
        (by
          intro i hi
          have := hT (i + 1) (by omega)
          rw [hS] at this
          simpa [CreateCall] using this)
      refine ⟨s', ?_, ?_, ?_, ?_, ?_, ?_⟩
      · simp only [closureFields, hpop, Res.bind]
        exact hs'
      · rw [hI, List.range_succ_eq_map]
        simp only [CreateCall, GenFunction.setBlock, List.map_cons, List.map_map,
          List.append_assoc, List.singleton_append, Callee.retTy, RtFn.retTy, Nat.add_zero]
        congr 2
        apply List.map_congr_left
        intro i hi
        have hi' : i < k := List.mem_range.mp hi
        simp only [Function.comp]
        have e1 : N - k + i = N - (k + 1) + (i + 1) := by omega
        have e2 : s.NextId + 1 + i = s.NextId + (i + 1) := by omega
        rw [e1, e2]
      · rw [hSt]
        simp [CreateCall]
      · rw [hA]
        simp [CreateCall]
      · rw [hC]; rfl
      · rw [hF]; rfl

/-- C22: `CLOSURE(nvars, target)` in a block whose accumulator is set (when `nvars > 0`) and
whose local stack holds at least `nvars - 1` entries completes. After the pointer cast and
the call of `makeClosure(nvars, applier, arity)` it emits, for `i = 0, ..., nvars - 1` in this
order, `closureSetVar(closure, i, x_i)` where `x_i` is the `i`-th element of the accumulator
followed by the local stack, read as every stack entry is through the mutation map. The local
stack loses exactly its top `nvars - 1` entries (none when `nvars = 0`), the accumulator is the
new closure, and the closure table maps it to the native function of the target with the
is-bare flag that is true exactly when `nvars = 0`. -/
theorem closure_captures_accu_and_stack (w fuel b nvars : Nat) (FnId : Int) (s : GenFunction)
    (I : ZInstruction) (T : Nat → Value)
    (hI : I.OpNum = .CLOSURE) (h0 : I.arg 0 = (nvars : Int)) (h1 : I.arg 1 = FnId)
    (ha : 0 < nvars → (s.Blocks b).Accu ≠ .null)
    (hlen : nvars ≤ (s.Blocks b).Stack.length + 1)
    (hT : ∀ i, i < nvars → getMutatedValue (s.Blocks b).MutatedVals (fuel + 1)
      (((s.Blocks b).Accu :: (s.Blocks b).Stack).getD i .null) = some (T i)) :
    ∃ s', GenCodeForInst w (fuel + 1) b I s = .ok () s' ∧
      s'.Insts = s.Insts ++
        [((s.Blocks b).LlvmBlock, Instr.val (.cast s.NextId .ptrToInt (.applier FnId))),
         ((s.Blocks b).LlvmBlock, Instr.call (.call (s.NextId + 1) .word) (.rt .makeClosure)
            [ConstInt w nvars, .cast s.NextId .ptrToInt (.applier FnId),
             ConstInt w (s.Functions FnId).argSize])] ++
        (List.range nvars).map (fun i =>
          ((s.Blocks b).LlvmBlock, Instr.call (.call (s.NextId + 2 + i) .word)
            (.rt .closureSetVar) [.call (s.NextId + 1) .word, ConstInt w (i : Nat), T i])) ∧
      (s'.Blocks b).Stack = (s.Blocks b).Stack.drop (nvars - 1) ∧
      (s'.Blocks b).Accu = .call (s.NextId + 1) .word ∧
      ∃ CI, mapFind (Value.call (s.NextId + 1) .word) s'.ClosuresFunctions = some CI ∧
        CI.LlvmFunc = some (s.Functions FnId) ∧ (CI.IsBare = true ↔ nvars = 0) := by
  have hcall : GenCodeForInst w (fuel + 1) b I s
      = makeClosure w (fuel + 1) b (nvars : Int) FnId s := by
    simp only [GenCodeForInst, hI, h0, h1]
  rw [hcall]
  unfold makeClosure
  simp only [Int.toNat_ofNat]
  obtain ⟨s2, hs2, hI2, hN2, hB2, hIB2, hC2, hF2⟩ : ∃ s2,
      (CreateCall (.rt .makeClosure)
        [ConstInt w nvars,
          ((SetInsertPoint (s.Blocks b).LlvmBlock s).emitVal
            (fun id => Value.cast id .ptrToInt (.applier FnId))).1,
          ConstInt w (s.Functions FnId).argSize]
        ((SetInsertPoint (s.Blocks b).LlvmBlock s).emitVal
            (fun id => Value.cast id .ptrToInt (.applier FnId))).2).2 = s2 ∧
      s2.Insts = s.Insts ++
        [((s.Blocks b).LlvmBlock, Instr.val (.cast s.NextId .ptrToInt (.applier FnId))),
         ((s.Blocks b).LlvmBlock, Instr.call (.call (s.NextId + 1) .word) (.rt .makeClosure)
            [ConstInt w nvars, .cast s.NextId .ptrToInt (.applier FnId),
             ConstInt w (s.Functions FnId).argSize])] ∧
      s2.NextId = s.NextId + 2 ∧ s2.Blocks = s.Blocks ∧
      s2.InsertBlock = (s.Blocks b).LlvmBlock ∧
      s2.ClosuresFunctions = s.ClosuresFunctions ∧ s2.Functions = s.Functions :=
    ⟨_, rfl, by simp [CreateCall, GenFunction.emitVal, SetInsertPoint, Callee.retTy, RtFn.retTy],
      rfl, rfl, rfl, rfl, rfl⟩
  have hval : (CreateCall (.rt .makeClosure)
        [ConstInt w nvars,
          ((SetInsertPoint (s.Blocks b).LlvmBlock s).emitVal
            (fun id => Value.cast id .ptrToInt (.applier FnId))).1,
          ConstInt w (s.Functions FnId).argSize]
        ((SetInsertPoint (s.Blocks b).LlvmBlock s).emitVal
            (fun id => Value.cast id .ptrToInt (.applier FnId))).2).1
      = .call (s.NextId + 1) .word := rfl
  have hfun : (SetInsertPoint (s.Blocks b).LlvmBlock s).Functions FnId = s.Functions FnId := rfl
  simp only [hs2, hval]
  rcases Nat.eq_zero_or_pos nvars with hz | hpos
  · subst hz
    refine ⟨_, rfl, ?_, ?_, ?_, _, mapFind_mapSet_self _ _ _, rfl, by simp⟩
    · simp [setAccu, hI2]
    · simp [setAccu, hB2]
    · simp [setAccu]
  · have hposI : (0 : Int) < (nvars : Int) := by exact_mod_cast hpos
    have hne : (s2.Blocks b).Accu ≠ .null := by rw [hB2]; exact ha hpos
    have hpush : push b true s2
        = s2.setBlock b { s2.Blocks b with Stack := (s2.Blocks b).Accu :: (s2.Blocks b).Stack } := by
      unfold push
      simp [hne]
    simp only [hposI, if_true, hpush]
    obtain ⟨s4, hs4, hI4, hSt4, hA4, hC4, hF4⟩ := closureFields_local w fuel b
      (.call (s.NextId + 1) .word) nvars nvars
      (s2.setBlock b { s2.Blocks b with Stack := (s2.Blocks b).Accu :: (s2.Blocks b).Stack }) T
      (by simp [hB2]; omega) (le_refl _)
      (by
        intro i hi
        simpa [hB2] using hT i hi)
    rw [hs4]
    refine ⟨_, rfl, ?_, ?_, ?_, _, mapFind_mapSet_self _ _ _, ?_, ?_⟩
    · simp only [setAccu, GenFunction.setBlock] at hI4 ⊢
      rw [hI4, hI2, hIB2, hN2]
      simp
    · simp only [setAccu, setBlock_Blocks_self]
      rw [hSt4]
      simp only [setBlock_Blocks_self, hB2]
      cases nvars with
      | zero => omega
      | succ m => simp
    · simp [setAccu]
    · simp
    · simp
/-- C22, at a concrete state: `CLOSURE(2, 0)` with accumulator 3 and local stack 5, 7 on a
64-bit machine captures 3 and 5 and leaves the stack 7. -/
theorem closure_captures_accu_and_stack_witness :
    ∃ s', GenCodeForInst 64 1 0 { OpNum := .CLOSURE, Args := [2, 0] }
        (blockWith (.const 3) [.const 5, .const 7]) = .ok () s' ∧
      s'.Insts =
        [(0, Instr.val (.cast 0 .ptrToInt (.applier 0))),
         (0, Instr.call (.call 1 .word) (.rt .makeClosure)
            [ConstInt 64 2, .cast 0 .ptrToInt (.applier 0),
             ConstInt 64 ((blockWith (.const 3) [.const 5, .const 7]).Functions 0).argSize]),
         (0, Instr.call (.call 2 .word) (.rt .closureSetVar)
            [.call 1 .word, ConstInt 64 0, .const 3]),
         (0, Instr.call (.call 3 .word) (.rt .closureSetVar)
            [.call 1 .word, ConstInt 64 1, .const 5])] ∧
      (s'.Blocks 0).Stack = [.const 7] ∧
      (s'.Blocks 0).Accu = .call 1 .word ∧
      ∃ CI, mapFind (Value.call 1 .word) s'.ClosuresFunctions = some CI ∧
        CI.LlvmFunc = some ((blockWith (.const 3) [.const 5, .const 7]).Functions 0) ∧
        (CI.IsBare = true ↔ 2 = 0) :=
  closure_captures_accu_and_stack 64 0 0 2 0 (blockWith (.const 3) [.const 5, .const 7])
    { OpNum := .CLOSURE, Args := [2, 0] } (fun i => [Value.const 3, .const 5].getD i .null)
    rfl rfl rfl (fun _ => by decide) (by decide)
    (by
      intro i hi
      match i, hi with
      | 0, _ => rfl
      | 1, _ => rfl)

/-! ## Comparisons of tagged integers -/

/-- The signed reading of the word of an integer in the signed range is that integer. -/
theorem toSigned_wrap (w : Nat) (hw : 0 < w) (z : Int)
    (hlo : -(2 : Int) ^ (w - 1) ≤ z) (hhi : z < (2 : Int) ^ (w - 1)) :
    toSigned w (wrap w z) = z := by
  have hp : (2 : Int) ^ w = 2 * (2 : Int) ^ (w - 1) := by
    conv_lhs => rw [show w = (w - 1) + 1 by omega]
    rw [pow_succ]; ring
  have hpos : (0 : Int) < (2 : Int) ^ (w - 1) := by positivity
  have hc := wrap_cast w z
  unfold toSigned
  by_cases hz : 0 ≤ z
  · have e : z % (2 : Int) ^ w = z := Int.emod_eq_of_lt hz (by omega)
    rw [e] at hc
    have hlt : wrap w z < 2 ^ (w - 1) := by
      have : ((wrap w z : Nat) : Int) < ((2 ^ (w - 1) : Nat) : Int) := by
        rw [hc]; push_cast; exact hhi
      exact_mod_cast this
    rw [if_pos hlt, hc]
  · have e : z % (2 : Int) ^ w = z + (2 : Int) ^ w := by
      rw [← Int.add_emod_self]
      exact Int.emod_eq_of_lt (by omega) (by omega)
    rw [e] at hc
    have hge : ¬ wrap w z < 2 ^ (w - 1) := by
      intro hlt
      have : ((wrap w z : Nat) : Int) < ((2 ^ (w - 1) : Nat) : Int) := by exact_mod_cast hlt
      rw [hc] at this
      push_cast at this
      omega
    rw [if_neg hge, hc]
    ring

/-- The signed reading of the encoding of an integer of the tagged range is `2a + 1`. -/
theorem toSigned_tag (w : Nat) (hw : 2 ≤ w) (a : Int)
    (hlo : -(2 : Int) ^ (w - 2) ≤ a) (hhi : a < (2 : Int) ^ (w - 2)) :
    toSigned w (tag w a) = 2 * a + 1 := by
  have hp : (2 : Int) ^ (w - 1) = 2 * (2 : Int) ^ (w - 2) := by
    conv_lhs => rw [show w - 1 = (w - 2) + 1 by omega]
    rw [pow_succ]; ring
  unfold tag
  exact toSigned_wrap w (by omega) _ (by omega) (by omega)

/-- The encoding is injective on the tagged range. -/
theorem tag_inj (w : Nat) (hw : 2 ≤ w) (a c : Int)
    (ha : -(2 : Int) ^ (w - 2) ≤ a ∧ a < (2 : Int) ^ (w - 2))
    (hc : -(2 : Int) ^ (w - 2) ≤ c ∧ c < (2 : Int) ^ (w - 2)) :
    tag w a = tag w c ↔ a = c := by
  constructor
  · intro h
    have h1 := toSigned_tag w hw a ha.1 ha.2
    have h2 := toSigned_tag w hw c hc.1 hc.2
    rw [h] at h1
    omega
  · intro h; rw [h]

/-- C23: on a machine of at least two bits, let `a` and `c` be integers of the tagged range,
the accumulator hold the encoding `2a+1` and the top of the local stack (read through the
mutation map) the encoding `2c+1`. Then `GTINT`, `EQ` and `NEQ` complete, remove exactly the
top entry and leave as accumulator a 1-bit value whose run-time word is 1 exactly when
`a > c` (signed), `a = c` and `a ≠ c` respectively, and 0 otherwise. -/
theorem compare_tagged (w fuel b : Nat) (hw : 2 ≤ w) (ρ : Nat → Nat) (s : GenFunction)
    (v t : Value) (rest : List Value) (a c : Int)
    (ha : -(2 : Int) ^ (w - 2) ≤ a ∧ a < (2 : Int) ^ (w - 2))
    (hc : -(2 : Int) ^ (w - 2) ≤ c ∧ c < (2 : Int) ^ (w - 2))
    (hs : (s.Blocks b).Stack = v :: rest)
    (hm : getMutatedValue (s.Blocks b).MutatedVals (fuel + 1) v = some t)
    (hA : eval w ρ (s.Blocks b).Accu = some (tag w a))
    (hT : eval w ρ t = some (tag w c)) :
    (∀ I : ZInstruction, I.OpNum = .GTINT →
      ∃ s', GenCodeForInst w (fuel + 1) b I s = .ok () s' ∧ (s'.Blocks b).Stack = rest ∧
        (s'.Blocks b).Accu.ty = .i1 ∧
        eval w ρ (s'.Blocks b).Accu = some (if c < a then 1 else 0)) ∧
    (∀ I : ZInstruction, I.OpNum = .EQ →
      ∃ s', GenCodeForInst w (fuel + 1) b I s = .ok () s' ∧ (s'.Blocks b).Stack = rest ∧
        (s'.Blocks b).Accu.ty = .i1 ∧
        eval w ρ (s'.Blocks b).Accu = some (if a = c then 1 else 0)) ∧
    (∀ I : ZInstruction, I.OpNum = .NEQ →
      ∃ s', GenCodeForInst w (fuel + 1) b I s = .ok () s' ∧ (s'.Blocks b).Stack = rest ∧
        (s'.Blocks b).Accu.ty = .i1 ∧
        eval w ρ (s'.Blocks b).Accu = some (if a ≠ c then 1 else 0)) := by
  have hsa := toSigned_tag w hw a ha.1 ha.2
  have hsc := toSigned_tag w hw c hc.1 hc.2
  have hinj := tag_inj w hw a c ha hc
  refine ⟨fun I hI => ?_, fun I hI => ?_, fun I hI => ?_⟩
  · simp only [GenCodeForInst, hI, stackPop_cons fuel b s v t rest hs hm, Res.bind]
    refine ⟨_, rfl, by simp [setAccu, CreateICmp, GenFunction.emitVal],
      by simp [setAccu, CreateICmp, GenFunction.emitVal, Value.ty], ?_⟩
    simp only [setAccu, CreateICmp, GenFunction.emitVal, setBlock_Blocks_self, eval, hA, hT,
      evalPred, hsa, hsc]
    by_cases h : c < a
    · have : 2 * c + 1 < 2 * a + 1 := by omega
      simp [h, this]
    · have : ¬ 2 * c + 1 < 2 * a + 1 := by omega
      simp [h, this]
  · simp only [GenCodeForInst, hI, stackPop_cons fuel b s v t rest hs hm, Res.bind]
    refine ⟨_, rfl, by simp [setAccu, CreateICmp, GenFunction.emitVal],
      by simp [setAccu, CreateICmp, GenFunction.emitVal, Value.ty], ?_⟩
    simp only [setAccu, CreateICmp, GenFunction.emitVal, setBlock_Blocks_self, eval, hA, hT,
      evalPred]
    by_cases h : a = c
    · simp [h]
    · have : ¬ tag w a = tag w c := fun e => h (hinj.mp e)
      simp [h, this]
  · simp only [GenCodeForInst, hI, stackPop_cons fuel b s v t rest hs hm, Res.bind]
    refine ⟨_, rfl, by simp [setAccu, CreateICmp, GenFunction.emitVal],
      by simp [setAccu, CreateICmp, GenFunction.emitVal, Value.ty], ?_⟩
    simp only [setAccu, CreateICmp, GenFunction.emitVal, setBlock_Blocks_self, eval, hA, hT,
      evalPred]
    by_cases h : a = c
    · simp [h]
    · have : ¬ tag w a = tag w c := fun e => h (hinj.mp e)
      simp [h, this]

/-- C23, at a concrete state: accumulator 3 (word 7) and stack top -2 (word `2^64 - 3`) on a
64-bit machine. -/
theorem compare_tagged_witness :
    (∀ I : ZInstruction, I.OpNum = .GTINT →
      ∃ s', GenCodeForInst 64 1 0 I (blockWith (ConstInt 64 (Val_int 3)) [ConstInt 64 (Val_int (-2))])
          = .ok () s' ∧ (s'.Blocks 0).Stack = [] ∧
        (s'.Blocks 0).Accu.ty = .i1 ∧
        eval 64 (fun _ => 0) (s'.Blocks 0).Accu = some (if (-2 : Int) < 3 then 1 else 0)) ∧
    (∀ I : ZInstruction, I.OpNum = .EQ →
      ∃ s', GenCodeForInst 64 1 0 I (blockWith (ConstInt 64 (Val_int 3)) [ConstInt 64 (Val_int (-2))])
          = .ok () s' ∧ (s'.Blocks 0).Stack = [] ∧
        (s'.Blocks 0).Accu.ty = .i1 ∧
        eval 64 (fun _ => 0) (s'.Blocks 0).Accu = some (if (3 : Int) = -2 then 1 else 0)) ∧
    (∀ I : ZInstruction, I.OpNum = .NEQ →
      ∃ s', GenCodeForInst 64 1 0 I (blockWith (ConstInt 64 (Val_int 3)) [ConstInt 64 (Val_int (-2))])
          = .ok () s' ∧ (s'.Blocks 0).Stack = [] ∧
        (s'.Blocks 0).Accu.ty = .i1 ∧
        eval 64 (fun _ => 0) (s'.Blocks 0).Accu = some (if (3 : Int) ≠ -2 then 1 else 0)) :=
  compare_tagged 64 0 0 (by decide) (fun _ => 0)
    (blockWith (ConstInt 64 (Val_int 3)) [ConstInt 64 (Val_int (-2))])
    (ConstInt 64 (Val_int (-2))) (ConstInt 64 (Val_int (-2))) [] 3 (-2)
    (by decide) (by decide) rfl rfl (by decide) (by decide)

/-! ## Stack reads around a cycle of single-predecessor blocks -/

/-- In a block that is its own single predecessor, with an empty local stack and an empty
previous-stack cache, no bound on the nesting of the calls lets a stack read return: the
read of depth `n` calls the read of depth `n` of the same block. -/
theorem getStackAt_own_predecessor (b : Nat) (s : GenFunction)
    (hp : (s.Blocks b).PreviousBlocks = [b]) (hS : (s.Blocks b).Stack = [])
    (hC : (s.Blocks b).PrevStackCache = []) :
    ∀ fuel n, getStackAt fuel b n none s = .err .outOfFuel s := by
  intro fuel
  induction fuel with
  | zero => intro n; rfl
  | succ fuel ih =>
    intro n
    rw [getStackAt_succ]
    simp only [hS, hC, List.length_nil, Nat.zero_le, if_true, mapFind, prBlocks, hp,
      Nat.sub_zero, ih n, Res.bind]

/-- C24 (failing input): the block `ACC0; BRANCH 0`, whose only predecessor is itself, has an
empty local stack. A read of `stack[n]` in it neither returns a value nor fails with the bad
stack access: whatever the bound on the nesting of the calls, the chain of calls
`getStackAt(n)` of the block on itself is cut by the bound, and so is the generation of the
block. The same read with the block itself as the ignored predecessor, as the discharge of
the joins passes it, fails with the bad stack access at once. -/
theorem getStackAt_self_loop_never_returns (w : Nat) :
    (progSelfLoop.Blocks 0).PreviousBlocks = [0] ∧ (progSelfLoop.Blocks 0).Stack = [] ∧
    (∀ fuel n, getStackAt fuel 0 n none progSelfLoop = .err .outOfFuel progSelfLoop) ∧
    (∀ fuel, ∃ s', CodeGen w fuel 0 progSelfLoop = .err .outOfFuel s') ∧
    ∀ fuel n, getStackAt (fuel + 1) 0 n (some 0) progSelfLoop
      = .err .badStackAccess progSelfLoop := by
  refine ⟨rfl, rfl, getStackAt_own_predecessor 0 progSelfLoop rfl rfl rfl, fun fuel => ?_,
    fun fuel n => ?_⟩
  swap
  · rw [getStackAt_succ]
    have hS : (progSelfLoop.Blocks 0).Stack = [] := rfl
    have hC : (progSelfLoop.Blocks 0).PrevStackCache = [] := rfl
    have hP : prBlocks progSelfLoop 0 (some 0) = [] := rfl
    simp only [hS, hC, hP, List.length_nil, Nat.zero_le, if_true, mapFind, Res.bind]
  have h := getStackAt_own_predecessor 0
    (SetInsertPoint (progSelfLoop.Blocks 0).LlvmBlock progSelfLoop) rfl rfl rfl fuel 0
  refine ⟨SetInsertPoint (progSelfLoop.Blocks 0).LlvmBlock progSelfLoop, ?_⟩
  show genInsts w fuel 0 [op .ACC0, opJump .BRANCH 0]
    (SetInsertPoint (progSelfLoop.Blocks 0).LlvmBlock progSelfLoop) = _
  simp only [genInsts, GenCodeForInst, op, acc, h, Res.bind]

/-! ## Backend block entered by the branches to a successor -/

/-- C25 (failing input): in the loop function whose head, block 1, installs a handler, the
blocks are generated in the order 0, 1, 2, 3, 4 and block 0 is terminated. Block 1 then owns
the backend blocks 1 and 5; its first one, 1, holds the installation of the handler and is
the target `BRANCHIF 1` of block 2 takes. `BRANCH 1` of block 3 and the fall-through branch
that `genTermInst` gives block 0 both go to backend block 5, the current one of block 1, so
they enter block 1 behind the installation of the handler. -/
theorem branch_enters_current_backend_block (w : Nat) :
    ∃ s1 s2, (∀ fuel, forBlocks (CodeGen w fuel) [0, 1, 2, 3, 4] progTrapLoop = .ok () s1) ∧
      genTermInst 0 s1 = .ok () s2 ∧
      (s1.Blocks 1).LlvmBlocks = [1, 5] ∧ front (s1.Blocks 1).LlvmBlocks = 1 ∧
      (s1.Blocks 1).LlvmBlock = 5 ∧
      s1.instsOf 1 =
        [.call (.call 0 .word) (.rt .getNewBuffer) [],
         .val (.cast 1 .bitCast (.call 0 .word)),
         .call (.call 2 .i32) (.rt .setjmp) [.cast 1 .bitCast (.call 0 .word)],
         .val (.cast 3 .trunc (.call 2 .i32)),
         .condBr (.cast 3 .trunc (.call 2 .i32)) 4 5] ∧
      s1.instsOf 2 =
        [.val (.cast 6 .trunc (ConstInt w (Val_int 0))),
         .condBr (.cast 6 .trunc (ConstInt w (Val_int 0))) 1 3] ∧
      s1.instsOf 3 = [.br 5] ∧
      s2.instsOf 0 = [.br 5] :=
  ⟨(forBlocks (CodeGen w 0) [0, 1, 2, 3, 4] progTrapLoop).state,
    (genTermInst 0 (forBlocks (CodeGen w 0) [0, 1, 2, 3, 4] progTrapLoop).state).state,
    fun _ => rfl, rfl, rfl, rfl, rfl, rfl, rfl, rfl, rfl⟩

/-! ## Stack reads of an exception handler -/

/-- C26 (failing input): block 0 `CONST2; PUSH; CONST0; PUSHTRAP 1; CONST1; RAISE` is the only
predecessor of the handler block 1 `ACC0; RETURN`. Immediately before the `PUSHTRAP`,
`stack[0]` of block 0 is the encoding of 2. After the generation of both blocks the local
stack of block 0 is four copies of its accumulator at the `PUSHTRAP` (the encoding of 0) on
top of the encoding of 2, and the read of `stack[0]` in the handler, whose local stack is
empty, returned the topmost sentinel, the encoding of 0, not the encoding of 2. -/
theorem handler_reads_trap_frame (w : Nat) :
    ∃ s0 s2,
      (progTrapRead.Blocks 1).PreviousBlocks = [0] ∧ (progTrapRead.Blocks 1).Stack = [] ∧
      (∀ fuel, genInsts w fuel 0 [op .CONST2, op .PUSH, op .CONST0]
        (SetInsertPoint (progTrapRead.Blocks 0).LlvmBlock progTrapRead) = .ok () s0) ∧
      (∀ fuel, getStackAt (fuel + 1) 0 0 none s0 = .ok (ConstInt w (Val_int 2)) s0) ∧
      (∀ fuel, forBlocks (CodeGen w (fuel + 2)) [0, 1] progTrapRead = .ok () s2) ∧
      (s2.Blocks 0).Stack =
        [ConstInt w (Val_int 0), ConstInt w (Val_int 0), ConstInt w (Val_int 0),
          ConstInt w (Val_int 0), ConstInt w (Val_int 2)] ∧
      (s2.Blocks 1).Stack = [] ∧
      mapFind 0 (s2.Blocks 1).PrevStackCache = some (ConstInt w (Val_int 0)) ∧
      (s2.Blocks 1).Accu = ConstInt w (Val_int 0) ∧
      ConstInt 64 (Val_int 0) ≠ ConstInt 64 (Val_int 2) :=
  ⟨(genInsts w 0 0 [op .CONST2, op .PUSH, op .CONST0]
      (SetInsertPoint (progTrapRead.Blocks 0).LlvmBlock progTrapRead)).state,
    (forBlocks (CodeGen w 2) [0, 1] progTrapRead).state,
    rfl, rfl, fun _ => rfl, fun _ => rfl, fun _ => rfl, rfl, rfl, rfl, rfl, by decide⟩

/-! ## Arguments of the two call paths of `makeApply` -/

/-- A read of a local entry whose lookup in the mutation map gives `t` returns `t` and leaves
the state as it is. -/
theorem getStackAt_local_eq (fuel b j : Nat) (s : GenFunction) (t : Value)
    (hj : j < (s.Blocks b).Stack.length)
    (ht : getMutatedValue (s.Blocks b).MutatedVals (fuel + 1) ((s.Blocks b).Stack.getD j .null)
      = some t) :
    getStackAt (fuel + 1) b j none s = .ok t s := by
  rw [getStackAt_local fuel b j none s hj, ht]

/-- The argument loop of the direct branch appends `stack[k-1], ..., stack[0]`. -/
theorem applyArgs_exact (fuel b : Nat) (s : GenFunction) (T : Nat → Value) :
    ∀ (k : Nat) (ArgsV : List Value), k ≤ (s.Blocks b).Stack.length →
      (∀ j, j < k → getMutatedValue (s.Blocks b).MutatedVals (fuel + 1)
        ((s.Blocks b).Stack.getD j .null) = some (T j)) →
      applyArgs (fuel + 1) b k ArgsV s
        = .ok (ArgsV ++ (List.range k).map (fun i => T (k - 1 - i))) s := by
  intro k
  induction k with
  | zero => intro ArgsV _ _; simp [applyArgs]
  | succ k ih =>
    intro ArgsV hk hT
    have hr := getStackAt_local_eq fuel b k s (T k) (by omega) (hT k (by omega))
    simp only [applyArgs, hr, Res.bind]
    rw [ih (ArgsV ++ [T k]) (by omega) (fun j hj => hT j (by omega)), List.range_succ_eq_map]
    simp only [List.map_cons, List.map_map, List.append_assoc, List.singleton_append,
      Nat.add_sub_cancel, Nat.sub_zero]
    congr 3
    apply List.map_congr_left
    intro i _
    simp only [Function.comp, Nat.succ_eq_add_one]
    congr 1
    omega

/-- The store loop of the trampoline branch: with `k` iterations left it emits, for
`i = 0, ..., k - 1`, the address of element `n - k + i` of the array and the store of
`stack[k - 1 - i]` to it. -/
theorem applyStores_exact (w fuel b n : Nat) (Array : Value) (T : Nat → Value) :
    ∀ (k : Nat) (s : GenFunction), k ≤ (s.Blocks b).Stack.length → k ≤ n →
      (∀ j, j < k → getMutatedValue (s.Blocks b).MutatedVals (fuel + 1)
        ((s.Blocks b).Stack.getD j .null) = some (T j)) →
      ∃ s', applyStores w (fuel + 1) b n Array k s = .ok () s' ∧
        s'.Insts = s.Insts ++ (List.range k).flatMap (fun i =>
          [(s.InsertBlock, Instr.val (.gep (s.NextId + i) Array (ConstInt w 0)
              (ConstInt w ((n - k + i : Nat))))),
           (s.InsertBlock, Instr.store (T (k - 1 - i))
              (.gep (s.NextId + i) Array (ConstInt w 0) (ConstInt w ((n - k + i : Nat)))))]) ∧
        s'.NextId = s.NextId + k ∧ s'.Blocks = s.Blocks ∧ s'.InsertBlock = s.InsertBlock ∧
        s'.ClosuresFunctions = s.ClosuresFunctions := by
  intro k
  induction k with
  | zero => intro s _ _ _; exact ⟨s, rfl, by simp, rfl, rfl, rfl, rfl⟩
  | succ k ih =>
    intro s hk hn hT
    have hr := getStackAt_local_eq fuel b k
      (s.emitVal (fun id => Value.gep id Array (ConstInt w 0) (ConstInt w ((n - (k + 1) : Nat))))).2
      (T k) (by simpa [GenFunction.emitVal] using (by omega : k < (s.Blocks b).Stack.length))
      (by simpa [GenFunction.emitVal] using hT k (by omega))
    obtain ⟨s', hs', hI, hN, hB, hIB, hC⟩ := ih
      (((s.emitVal (fun id => Value.gep id Array (ConstInt w 0)
          (ConstInt w ((n - (k + 1) : Nat))))).2).emit
        (.store (T k) (.gep s.NextId Array (ConstInt w 0) (ConstInt w ((n - (k + 1) : Nat))))))
      (by simp [GenFunction.emitVal, GenFunction.emit]; omega) (by omega)
      (by
        intro j hj
        simpa [GenFunction.emitVal, GenFunction.emit] using hT j (by omega))
    refine ⟨s', ?_, ?_, ?_, ?_, ?_, ?_⟩
    · simp only [applyStores, hr, Res.bind]
      exact hs'
    · rw [hI, List.range_succ_eq_map]
      simp only [GenFunction.emitVal, GenFunction.emit, List.flatMap_cons, List.flatMap_map,
        List.append_assoc, Nat.add_zero, Nat.add_sub_cancel, Nat.sub_zero]
      congr 1
      simp only [List.cons_append, List.nil_append, List.singleton_append]
      congr 2
      apply List.flatMap_congr
      intro i hi
      have hi' : i < k := List.mem_range.mp hi
      simp only [Nat.succ_eq_add_one]
      have e1 : n - k + i = n - (k + 1) + (i + 1) := by omega
      have e2 : s.NextId + 1 + i = s.NextId + (i + 1) := by omega
      have e3 : k - 1 - i = k - (i + 1) := by omega
      rw [e1, e2, e3]
    · rw [hN]; simp [GenFunction.emitVal, GenFunction.emit]; omega
    · rw [hB]; rfl
    · rw [hIB]; rfl
    · rw [hC]; rfl

/-- Popping `k` entries whose lookups in the mutation map terminate removes them and emits
nothing. -/
theorem popN_exact (fuel b : Nat) : ∀ (k : Nat) (s : GenFunction),
    k ≤ (s.Blocks b).Stack.length →
    (∀ j, j < k → ∃ t, getMutatedValue (s.Blocks b).MutatedVals (fuel + 1)
      ((s.Blocks b).Stack.getD j .null) = some t) →
    ∃ s', popN (fuel + 1) b k s = .ok () s' ∧
      (s'.Blocks b).Stack = (s.Blocks b).Stack.drop k ∧ s'.Insts = s.Insts := by
  intro k
  induction k with
  | zero => intro s _ _; exact ⟨s, rfl, by simp, rfl⟩
  | succ k ih =>
    intro s hk hT
    match hS : (s.Blocks b).Stack, hk with
    | [], hk => simp at hk
    | v :: rest, hk =>
      obtain ⟨t, ht⟩ := hT 0 (by omega)
      rw [hS] at ht
      simp only [List.getD_cons_zero] at ht
      have hpop := stackPop_cons fuel b s v t rest hS ht
      obtain ⟨s', hs', hSt, hI⟩ := ih (s.setBlock b { s.Blocks b with Stack := rest })
        (by simp at hk ⊢; omega)
        (by
          intro j hj
          have := hT (j + 1) (by omega)
          rw [hS] at this
          simpa using this)
      refine ⟨s', ?_, ?_, ?_⟩
      · simp only [popN, hpop, Res.bind]
        exact hs'
      · rw [hSt]; simp
      · rw [hI]; rfl
/-- Direct branch of `makeApply` followed by its pops, on local entries: one call of the
native function on `stack[n-1], ..., stack[0]`, then the top `n` entries are removed. -/
theorem applyDirect_exact (fuel b n : Nat) (f : LFunc) (s : GenFunction) (T : Nat → Value)
    (hn : n ≤ (s.Blocks b).Stack.length)
    (hT : ∀ j, j < n → getMutatedValue (s.Blocks b).MutatedVals (fuel + 1)
      ((s.Blocks b).Stack.getD j .null) = some (T j)) :
    ∃ s', ((applyDirect (fuel + 1) b n f s).bind fun _ s1 => popN (fuel + 1) b n s1)
        = .ok () s' ∧
      s'.Insts = s.Insts ++ [(s.InsertBlock, Instr.call (.call s.NextId .word) (.fn f)
        ((List.range n).map (fun i => T (n - 1 - i))))] ∧
      (s'.Blocks b).Stack = (s.Blocks b).Stack.drop n := by
  have hA := applyArgs_exact fuel b s T n [] hn hT
  obtain ⟨s', hs', hSt, hI⟩ := popN_exact fuel b n
    (makeCheckedCall b (.fn f) ((List.range n).map (fun i => T (n - 1 - i))) s)
    (by simpa [makeCheckedCall, CreateCall, setAccu] using hn)
    (by
      intro j hj
      exact ⟨T j, by simpa [makeCheckedCall, CreateCall, setAccu] using hT j hj⟩)
  refine ⟨s', ?_, ?_, ?_⟩
  · simp only [applyDirect, hA, Res.bind, List.nil_append]
    exact hs'
  · rw [hI]
    simp [makeCheckedCall, CreateCall, setAccu, GenFunction.setBlock, Callee.retTy]
  · rw [hSt]
    simp [makeCheckedCall, CreateCall, setAccu]

/-- Trampoline branch of `makeApply` followed by its pops, on local entries: the array, then
for `i = 0, ..., n - 1` the address of element `i` and the store of `stack[n - 1 - i]` to it,
then the call of the runtime applier on the closure, `n` and the array; the top `n` entries
are removed. -/
theorem applyTrampoline_exact (w fuel b n : Nat) (s : GenFunction) (T : Nat → Value)
    (hn : n ≤ (s.Blocks b).Stack.length)
    (hT : ∀ j, j < n → getMutatedValue (s.Blocks b).MutatedVals (fuel + 1)
      ((s.Blocks b).Stack.getD j .null) = some (T j)) :
    ∃ s', ((applyTrampoline w (fuel + 1) b n s).bind fun _ s1 => popN (fuel + 1) b n s1)
        = .ok () s' ∧
      s'.Insts = s.Insts ++ [(s.InsertBlock, Instr.val (.alloca s.NextId n))] ++
        (List.range n).flatMap (fun i =>
          [(s.InsertBlock, Instr.val (.gep (s.NextId + 1 + i) (.alloca s.NextId n)
              (ConstInt w 0) (ConstInt w (i : Nat)))),
           (s.InsertBlock, Instr.store (T (n - 1 - i))
              (.gep (s.NextId + 1 + i) (.alloca s.NextId n) (ConstInt w 0)
                (ConstInt w (i : Nat))))]) ++
        [(s.InsertBlock, Instr.val (.cast (s.NextId + 1 + n) .pointerCast (.alloca s.NextId n))),
         (s.InsertBlock, Instr.call (.call (s.NextId + 1 + n + 1) .word) (.rt .apply)
            [(s.Blocks b).Accu, ConstInt w (n : Nat),
             .cast (s.NextId + 1 + n) .pointerCast (.alloca s.NextId n)])] ∧
      (s'.Blocks b).Stack = (s.Blocks b).Stack.drop n := by
  obtain ⟨s2, hs2, hI2, hN2, hB2, hIB2, hC2⟩ := applyStores_exact w fuel b n
    (.alloca s.NextId n) T n (s.emitVal (fun id => Value.alloca id n)).2
    (by simpa [GenFunction.emitVal] using hn) (le_refl _)
    (by
      intro j hj
      simpa [GenFunction.emitVal] using hT j hj)
  have hB2' : s2.Blocks = s.Blocks := by rw [hB2]; rfl
  obtain ⟨s', hs', hSt, hI⟩ := popN_exact fuel b n
    (makeCheckedCall b (.rt .apply)
      [(s2.Blocks b).Accu, ConstInt w (n : Nat),
        .cast s2.NextId .pointerCast (.alloca s.NextId n)]
      (s2.emitVal (fun id => Value.cast id .pointerCast (.alloca s.NextId n))).2)
    (by simpa [makeCheckedCall, CreateCall, setAccu, GenFunction.emitVal, hB2'] using hn)
    (by
      intro j hj
      exact ⟨T j, by
        simpa [makeCheckedCall, CreateCall, setAccu, GenFunction.emitVal, hB2'] using hT j hj⟩)
  refine ⟨s', ?_, ?_, ?_⟩
  · have hstep : ((applyTrampoline w (fuel + 1) b n s).bind fun _ s1 => popN (fuel + 1) b n s1)
        = ((applyStores w (fuel + 1) b n (.alloca s.NextId n) n
            (s.emitVal (fun id => Value.alloca id n)).2).bind fun _ s2 =>
              Res.ok () (makeCheckedCall b (.rt .apply)
                [(s2.Blocks b).Accu, ConstInt w (n : Nat),
                  .cast s2.NextId .pointerCast (.alloca s.NextId n)]
                (s2.emitVal (fun id => Value.cast id .pointerCast (.alloca s.NextId n))).2)).bind
            fun _ s1 => popN (fuel + 1) b n s1 := rfl
    rw [hstep, hs2]
    exact hs'
  · rw [hI]
    simp only [makeCheckedCall, CreateCall, setAccu, GenFunction.setBlock, GenFunction.emitVal,
      Callee.retTy, RtFn.retTy, hI2, hN2, hIB2, hB2', List.append_assoc, Nat.sub_self,
      Nat.zero_add]
    rfl
  · rw [hSt]
    simp [makeCheckedCall, CreateCall, setAccu, GenFunction.emitVal, hB2']

/-- C27: let the local stack of block `b` hold at least `n` entries and `T j` be the read of
`stack[j]` through the mutation map, for `j < n`. From the same block state, with a closure
table that makes the accumulator a bare closure of a native function of arity `n` (direct
path) and with one that does not (trampoline path), `makeApply(n)` completes. The direct
path emits one call of the native function on `T (n-1), ..., T 0`; the trampoline path emits
the array of `n` words, the stores of the same sequence `T (n-1), ..., T 0` to the elements
`0, ..., n-1`, the pointer cast and the call `apply(closure, n, array)`. In both paths the
local stack afterwards is the previous one with its top `n` entries removed. -/
theorem makeApply_paths_same_arguments (w fuel b n : Nat) (s : GenFunction) (T : Nat → Value)
    (f : LFunc) (Cd Ct : List (Value × ClosureInfo))
    (hn : n ≤ (s.Blocks b).Stack.length)
    (hT : ∀ j, j < n → getMutatedValue (s.Blocks b).MutatedVals (fuel + 1)
      ((s.Blocks b).Stack.getD j .null) = some (T j))
    (hd : mapFind (s.Blocks b).Accu Cd = some { LlvmFunc := some f, IsBare := true })
    (hf : f.argSize = n)
    (ht : directCallee ((mapFind (s.Blocks b).Accu Ct).getD {}) n = none)
    (ht2 : ((mapFind (s.Blocks b).Accu Ct).getD {}).IsBare = true →
      ((mapFind (s.Blocks b).Accu Ct).getD {}).LlvmFunc ≠ none) :
    ∃ args sd st, args = (List.range n).map (fun i => T (n - 1 - i)) ∧
      makeApply w (fuel + 1) b n { s with ClosuresFunctions := Cd } = .ok () sd ∧
      makeApply w (fuel + 1) b n { s with ClosuresFunctions := Ct } = .ok () st ∧
      sd.Insts = s.Insts ++
        [(s.InsertBlock, Instr.call (.call s.NextId .word) (.fn f) args)] ∧
      st.Insts = s.Insts ++ [(s.InsertBlock, Instr.val (.alloca s.NextId n))] ++
        (List.range n).flatMap (fun i =>
          [(s.InsertBlock, Instr.val (.gep (s.NextId + 1 + i) (.alloca s.NextId n)
              (ConstInt w 0) (ConstInt w (i : Nat)))),
           (s.InsertBlock, Instr.store (args.getD i .null)
              (.gep (s.NextId + 1 + i) (.alloca s.NextId n) (ConstInt w 0)
                (ConstInt w (i : Nat))))]) ++
        [(s.InsertBlock, Instr.val (.cast (s.NextId + 1 + n) .pointerCast (.alloca s.NextId n))),
         (s.InsertBlock, Instr.call (.call (s.NextId + 1 + n + 1) .word) (.rt .apply)
            [(s.Blocks b).Accu, ConstInt w (n : Nat),
             .cast (s.NextId + 1 + n) .pointerCast (.alloca s.NextId n)])] ∧
      (sd.Blocks b).Stack = (s.Blocks b).Stack.drop n ∧
      (st.Blocks b).Stack = (s.Blocks b).Stack.drop n := by
  -- direct path
  obtain ⟨sd, hsd, hId, hSd⟩ := applyDirect_exact fuel b n f
    { s with ClosuresFunctions := Cd } T hn hT
  have hmd : makeApply w (fuel + 1) b n { s with ClosuresFunctions := Cd } = .ok () sd := by
    have hci : closureInfoOf (s.Blocks b).Accu { s with ClosuresFunctions := Cd }
        = ({ LlvmFunc := some f, IsBare := true }, { s with ClosuresFunctions := Cd }) := by
      simp only [closureInfoOf, hd]
    simp only [makeApply, hci, hf, if_true]
    exact hsd
  -- trampoline path
  obtain ⟨CI, s0, hci, hCI, hB0, hI0, hN0, hIB0⟩ : ∃ CI s0,
      closureInfoOf (s.Blocks b).Accu { s with ClosuresFunctions := Ct } = (CI, s0) ∧
      CI = (mapFind (s.Blocks b).Accu Ct).getD {} ∧ s0.Blocks = s.Blocks ∧
      s0.Insts = s.Insts ∧ s0.NextId = s.NextId ∧ s0.InsertBlock = s.InsertBlock := by
    unfold closureInfoOf
    cases hm : mapFind (s.Blocks b).Accu Ct with
    | some c => exact ⟨c, { s with ClosuresFunctions := Ct }, rfl, rfl, rfl, rfl, rfl, rfl⟩
    | none =>
      exact ⟨{}, { s with ClosuresFunctions := ((s.Blocks b).Accu, {}) :: Ct }, rfl, rfl, rfl,
        rfl, rfl, rfl⟩
  obtain ⟨st, hst, hIt, hSt⟩ := applyTrampoline_exact w fuel b n s0 T
    (by rw [hB0]; exact hn) (by rw [hB0]; exact hT)
  rw [← hCI] at ht ht2
  have hmt : makeApply w (fuel + 1) b n { s with ClosuresFunctions := Ct } = .ok () st := by
    simp only [makeApply, hci]
    by_cases hb : CI.IsBare = true
    · simp only [hb, if_true]
      cases hL : CI.LlvmFunc with
      | none => exact absurd hL (ht2 hb)
      | some g =>
        have hg : ¬ g.argSize = n := by
          intro hg
          simp [directCallee, hL, hb, hg] at ht
        simp only [hg, if_false]
        exact hst
    · simp only [hb]
      exact hst
  refine ⟨_, sd, st, rfl, hmd, hmt, hId, ?_, hSd, ?_⟩
  · rw [hIt, hI0, hN0, hIB0, hB0]
    congr 2
    apply List.flatMap_congr
    intro i hi
    have hi' : i < n := List.mem_range.mp hi
    simp [List.getD_eq_getElem?_getD, hi']
  · rw [hSt, hB0]

/-- C27, at a concrete state: `makeApply(2)` with accumulator `c` and local stack 3, 5, 7 on a
64-bit machine, with `c` a bare closure of a native function of arity 2 and with an empty
closure table. -/
theorem makeApply_paths_same_arguments_witness :
    ∃ args sd st, args = (List.range 2).map (fun i => [Value.const 3, .const 5].getD (2 - 1 - i) .null) ∧
      makeApply 64 1 0 2 { blockWith (.call 9 .word) [.const 3, .const 5, .const 7] with
        ClosuresFunctions := [(.call 9 .word, { LlvmFunc := some ⟨1, 2⟩, IsBare := true })] }
        = .ok () sd ∧
      makeApply 64 1 0 2 { blockWith (.call 9 .word) [.const 3, .const 5, .const 7] with
        ClosuresFunctions := [] } = .ok () st ∧
      sd.Insts = [(0, Instr.call (.call 0 .word) (.fn ⟨1, 2⟩) args)] ∧
      st.Insts = [] ++ [(0, Instr.val (.alloca 0 2))] ++
        (List.range 2).flatMap (fun i =>
          [(0, Instr.val (.gep (0 + 1 + i) (.alloca 0 2) (ConstInt 64 0) (ConstInt 64 (i : Nat)))),
           (0, Instr.store (args.getD i .null)
              (.gep (0 + 1 + i) (.alloca 0 2) (ConstInt 64 0) (ConstInt 64 (i : Nat))))]) ++
        [(0, Instr.val (.cast (0 + 1 + 2) .pointerCast (.alloca 0 2))),
         (0, Instr.call (.call (0 + 1 + 2 + 1) .word) (.rt .apply)
            [.call 9 .word, ConstInt 64 (2 : Nat), .cast (0 + 1 + 2) .pointerCast (.alloca 0 2)])] ∧
      (sd.Blocks 0).Stack = [.const 7] ∧ (st.Blocks 0).Stack = [.const 7] :=
  makeApply_paths_same_arguments 64 0 0 2
    (blockWith (.call 9 .word) [.const 3, .const 5, .const 7])
    (fun j => [Value.const 3, .const 5].getD j .null) ⟨1, 2⟩
    [(.call 9 .word, { LlvmFunc := some ⟨1, 2⟩, IsBare := true })] []
    (by decide)
    (by
      intro j hj
      match j, hj with
      | 0, _ => rfl
      | 1, _ => rfl)
    rfl rfl rfl (by decide)

end Z3
